import Mathlib

/-!
# Zipios: the deflate output filter

A shallow embedding of `src/src/deflateoutputstreambuf.cpp`
(`zipios::DeflateOutputStreambuf`) and proofs about it.

The filter sits between a writer and a downstream `std::streambuf`.  It talks
to two collaborators that are not part of the repository:

* the zlib codec (`deflateInit2`, `deflate`, `deflateEnd`), kept abstract as a
  `Codec` record of functions over an arbitrary internal state;
* zlib's `crc32`, given here by its bitwise definition.

Machine integers: `size_t` counters are natural numbers (no stream handled by
the filter reaches `2^64` bytes), `int` values are integers.
-/

namespace Zipios

/-- A byte of payload.  Only its value modulo 256 enters the CRC. -/
abbrev Byte := Nat

/-! ## zlib constants (zlib.h) -/

abbrev Z_OK : Int := 0
abbrev Z_STREAM_END : Int := 1
abbrev Z_STREAM_ERROR : Int := -2
abbrev Z_DATA_ERROR : Int := -3
abbrev Z_BUF_ERROR : Int := -5
abbrev Z_NO_FLUSH : Int := 0
abbrev Z_FINISH : Int := 4
abbrev Z_NO_COMPRESSION : Int := 0
abbrev Z_BEST_SPEED : Int := 1
abbrev Z_BEST_COMPRESSION : Int := 9
abbrev Z_DEFAULT_COMPRESSION : Int := -1

/-! ## Compression levels (zipios++/fileentry.hpp)

`FileEntry::CompressionLevel` is an `int`. -/

namespace FileEntry

/-- Modelled from the spec: the constant of `zipios++/fileentry.hpp`, `DEFAULT=-1`. -/
abbrev COMPRESSION_LEVEL_DEFAULT : Int := -1

/-- Modelled from the spec: the constant of `zipios++/fileentry.hpp`, `SMALLEST=-2`. -/
abbrev COMPRESSION_LEVEL_SMALLEST : Int := -2

/-- Modelled from the spec: the constant of `zipios++/fileentry.hpp`, `FASTEST=-3`. -/
abbrev COMPRESSION_LEVEL_FASTEST : Int := -3

/-- Modelled from the spec: the constant of `zipios++/fileentry.hpp`, `NONE=0`. -/
abbrev COMPRESSION_LEVEL_NONE : Int := 0

/-- Modelled from the spec: the constant of `zipios++/fileentry.hpp`, lower end of `[1,100]`. -/
abbrev COMPRESSION_LEVEL_MINIMUM : Int := 1

/-- Modelled from the spec: the constant of `zipios++/fileentry.hpp`, upper end of `[1,100]`. -/
abbrev COMPRESSION_LEVEL_MAXIMUM : Int := 100

end FileEntry

/-! ## CRC-32 (zlib) -/

/-- One bit of the reflected CRC-32 division, polynomial `0xEDB88320`. -/
def crc32_round (c : Nat) : Nat :=
  if c % 2 = 1 then (c >>> 1) ^^^ 0xEDB88320 else c >>> 1

/-- Feeding one byte into the CRC register. -/
def crc32_byte (c : Nat) (b : Byte) : Nat :=
  crc32_round (crc32_round (crc32_round (crc32_round
    (crc32_round (crc32_round (crc32_round (crc32_round (c ^^^ (b % 256)))))))))

/-- The function `crc32(crc, buf, len)` of zlib: the running CRC-32 of `buf` appended to a
stream whose CRC so far is `crc`.  `crc32(0, Z_NULL, 0)` is `crc32 0 []`. -/
def crc32 (crc : Nat) (buf : List Byte) : Nat :=
  (buf.foldl crc32_byte (crc ^^^ 0xFFFFFFFF)) ^^^ 0xFFFFFFFF

/-! ## The downstream stream buffer `m_outbuf` -/

/-- The downstream `std::streambuf`: the bytes it has received so far and the number of bytes
it can still take (`none`: it accepts every byte). -/
structure Sink where
  data : List Byte
  room : Option Nat
deriving DecidableEq, Repr

/-- The call `m_outbuf->sputn(p, n)`: stores as many of the bytes as there is room for and
returns how many were stored. -/
def Sink.sputn (s : Sink) (bs : List Byte) : Sink × Nat :=
  match s.room with
  | none => ({ s with data := s.data ++ bs }, bs.length)
  | some r => ({ data := s.data ++ bs.take r, room := some (r - bs.length) }, min r bs.length)

/-! ## The codec (zlib) -/

/-- What one `deflate()` call did: the new internal state, the number of input bytes taken
from `next_in`, the bytes stored at `next_out`, and the returned status. -/
structure DeflateResult (σ : Type) where
  zs : σ
  consumed : Nat
  produced : List Byte
  err : Int

/-- The DEFLATE codec behind `m_zs`, over its internal state `σ`.

* `zs0` is the state of the `z_stream` member of a newly constructed filter;
* `deflateInit2 zs zlevel` is `deflateInit2(&m_zs, zlevel, Z_DEFLATED, -MAX_WBITS, 8,
  Z_DEFAULT_STRATEGY)`;
* `deflate zs inp avail flush` is `deflate(&m_zs, flush)` with `inp` the bytes at
  `next_in` (`avail_in` of them) and `avail` the value of `avail_out`;
* `deflateEnd zs` is `deflateEnd(&m_zs)`.

zlib documents that `deflate` returns `Z_OK` only when it made progress; `measure` and
`progress` record this as a quantity that every `Z_OK` step decreases, which is what makes
the loops of the filter finite. -/
structure Codec (σ : Type) where
  zs0 : σ
  deflateInit2 : σ → Int → σ × Int
  deflate : σ → List Byte → Nat → Int → DeflateResult σ
  deflateEnd : σ → σ × Int
  measure : Int → σ → Nat → Nat
  progress : ∀ (zs : σ) (inp : List Byte) (avail : Nat) (flush : Int),
    (deflate zs inp avail flush).err = Z_OK →
      measure flush (deflate zs inp avail flush).zs
          (inp.length - (deflate zs inp avail flush).consumed)
        < measure flush zs inp.length

/-- One call made to the codec, as recorded in the history of a filter. -/
inductive CodecCall where
  | deflateInit2 (zlevel : Int) (err : Int)
  | deflate (flush : Int) (avail_in avail_out consumed : Nat) (produced : List Byte) (err : Int)
  | deflateEnd (err : Int)
deriving DecidableEq, Repr

/-- The bytes a codec call stored in the output buffer. -/
def CodecCall.produced : CodecCall → List Byte
  | .deflate _ _ _ _ o _ => o
  | _ => []

/-- Whether a codec call is a `deflate()` step. -/
def CodecCall.isDeflate : CodecCall → Bool
  | .deflate _ _ _ _ _ _ => true
  | _ => false

/-- All bytes emitted by the codec over a history of calls, in order. -/
def emitted : List CodecCall → List Byte
  | [] => []
  | c :: cs => c.produced ++ emitted cs

/-! ## Exceptions and results -/

/-- The two exception classes the filter throws. -/
inductive ExnKind where
  | logic_error
  | IOException
deriving DecidableEq, Repr

/-- The throw statements of the file, one constructor each. -/
inductive Exn where
  /-- `init()`: called when the class is already initialized. -/
  | already_initialized
  /-- `init()`: the compression level is out of range. -/
  | invalid_level
  /-- `init()`: `deflateInit2` failed. -/
  | init_failed (err : Int)
  /-- `closeStream()`: `deflateEnd` failed. -/
  | deflateEnd_failed (err : Int)
  /-- `overflow()`: "Deflation failed". -/
  | deflation_failed (err : Int)
  /-- `flushOutvec()`: the downstream buffer took fewer bytes than given. -/
  | flush_failed
deriving DecidableEq, Repr

/-- The C++ class of each exception. -/
def Exn.kind : Exn → ExnKind
  | .already_initialized => .logic_error
  | .invalid_level => .logic_error
  | .init_failed _ => .IOException
  | .deflateEnd_failed _ => .IOException
  | .deflation_failed _ => .IOException
  | .flush_failed => .IOException

/-- How a member function ends: it returns a value, throws, or (for a codec that breaks its
progress contract only) never leaves a loop. -/
inductive Outcome (α : Type) where
  | ok (a : α)
  | raise (e : Exn)
  | diverge
deriving DecidableEq, Repr

/-- Whether the call returned normally. -/
def Outcome.isOk {α : Type} : Outcome α → Bool
  | .ok _ => true
  | _ => false

/-- Whether the call threw an `IOException`. -/
def Outcome.isIOException {α : Type} : Outcome α → Bool
  | .raise e => decide (e.kind = ExnKind.IOException)
  | _ => false

/-! ## The filter object -/

/-- The state of a `DeflateOutputStreambuf`.

* `zs_in` is the input window of the codec, `m_zs.next_in[0 .. m_zs.avail_in)`;
* `outvec` is the used part of `m_outvec`, from `&m_outvec[0]` up to `m_zs.next_out`; the
  code always sets `next_out` and `avail_out` together, so `avail_out` is the buffer size
  minus the length of `outvec`;
* `put` is the put area of the stream buffer from `pbase()` to `pptr()` and `put_cap` is
  `epptr() - pbase()`;
* `calls` (codec calls made so far) and `reported` (statuses printed on `std::cerr`) are
  history variables. -/
structure DeflateOutputStreambuf (σ : Type) where
  m_outbuf : Sink
  m_zs : σ
  zs_in : List Byte
  outvec : List Byte
  m_zs_initialized : Bool
  put : List Byte
  put_cap : Nat
  m_crc32 : Nat
  m_overflown_bytes : Nat
  m_bytes_to_skip : Nat
  calls : List CodecCall
  reported : List Int

/-- The result of a member function: the object afterwards and how the call ended. -/
abbrev Res (σ α : Type) := DeflateOutputStreambuf σ × Outcome α

/-- Sequencing of statements: the continuation runs only when the first part returned. -/
def Res.andThen {σ α β : Type} (r : Res σ α) (f : DeflateOutputStreambuf σ → α → Res σ β) :
    Res σ β :=
  match r with
  | (s, .ok a) => f s a
  | (s, .raise e) => (s, .raise e)
  | (s, .diverge) => (s, .diverge)

namespace DeflateOutputStreambuf

variable {σ : Type}

/-- The constructor `DeflateOutputStreambuf(outbuf)`: nothing is written to `outbuf`, the
members are value-initialized and the put area is empty. -/
def construct (C : Codec σ) (outbuf : Sink) : DeflateOutputStreambuf σ :=
  { m_outbuf := outbuf
    m_zs := C.zs0
    zs_in := []
    outvec := []
    m_zs_initialized := false
    put := []
    put_cap := 0
    m_crc32 := 0
    m_overflown_bytes := 0
    m_bytes_to_skip := 0
    calls := []
    reported := [] }

/-- The member `m_zs.avail_out`. -/
def avail_out (getBufferSize : Nat) (s : DeflateOutputStreambuf σ) : Nat :=
  getBufferSize - s.outvec.length

/-- The tail of `flushOutvec()`: `sputn` of `deflated_bytes` bytes at `offset`, then the reset
of `next_out` and `avail_out`. -/
def flushWrite (s : DeflateOutputStreambuf σ) (offset deflated_bytes : Nat) : Res σ Unit :=
  if deflated_bytes > 0 then
    let r := s.m_outbuf.sputn ((s.outvec.drop offset).take deflated_bytes)
    if deflated_bytes ≠ r.2 then
      ({ s with m_outbuf := r.1 }, .raise .flush_failed)
    else
      ({ s with m_outbuf := r.1, outvec := [] }, .ok ())
  else
    ({ s with outvec := [] }, .ok ())

/-- The member function `flushOutvec()`. -/
def flushOutvec (getBufferSize : Nat) (s : DeflateOutputStreambuf σ) : Res σ Unit :=
  let deflated_bytes := getBufferSize - s.avail_out getBufferSize
  if s.m_bytes_to_skip > 0 then
    if deflated_bytes > s.m_bytes_to_skip then
      flushWrite { s with m_bytes_to_skip := 0 } (0 + s.m_bytes_to_skip)
        (deflated_bytes - s.m_bytes_to_skip)
    else
      flushWrite { s with m_bytes_to_skip := s.m_bytes_to_skip - deflated_bytes } 0 0
  else
    flushWrite s 0 deflated_bytes

/-- The statement `if(m_zs.avail_out == 0) { flushOutvec(); }` at the head of both loops. -/
def flushIfFull (getBufferSize : Nat) (s : DeflateOutputStreambuf σ) : Res σ Unit :=
  if s.avail_out getBufferSize = 0 then flushOutvec getBufferSize s else (s, .ok ())

/-- The statement `err = deflate(&m_zs, flush)`.  zlib takes at most `avail_in` bytes and
stores at most `avail_out` bytes. -/
def callDeflate (C : Codec σ) (getBufferSize : Nat) (flush : Int)
    (s : DeflateOutputStreambuf σ) : DeflateOutputStreambuf σ × Int :=
  let r := C.deflate s.m_zs s.zs_in (s.avail_out getBufferSize) flush
  let o := r.produced.take (s.avail_out getBufferSize)
  ({ s with
      m_zs := r.zs
      zs_in := s.zs_in.drop r.consumed
      outvec := s.outvec ++ o
      calls := s.calls ++ [CodecCall.deflate flush s.zs_in.length (s.avail_out getBufferSize)
        (min r.consumed s.zs_in.length) o r.err] },
   r.err)

/-- The loop of `overflow()`:
`while((avail_in > 0 || avail_out == 0) && err == Z_OK)`.  The first argument bounds the
number of iterations. -/
def overflowLoop (C : Codec σ) (getBufferSize : Nat) :
    Nat → DeflateOutputStreambuf σ → Int → Res σ Int
  | fuel, s, err =>
    if (s.zs_in.length > 0 ∨ s.avail_out getBufferSize = 0) ∧ err = Z_OK then
      match fuel with
      | 0 => (s, .diverge)
      | fuel + 1 =>
        (flushIfFull getBufferSize s).andThen fun s1 _ =>
        let r := callDeflate C getBufferSize Z_NO_FLUSH s1
        overflowLoop C getBufferSize fuel r.1 r.2
    else
      (s, .ok err)

/-- The member function `overflow(c)`; `c = none` is `EOF`. -/
def overflow (C : Codec σ) (getBufferSize : Nat) (c : Option Byte)
    (s : DeflateOutputStreambuf σ) : Res σ Int :=
  let s1 : DeflateOutputStreambuf σ :=
    { s with
      zs_in := s.put
      m_crc32 := crc32 s.m_crc32 s.put
      m_overflown_bytes := s.m_overflown_bytes + s.put.length
      outvec := [] }
  (overflowLoop C getBufferSize (C.measure Z_NO_FLUSH s1.m_zs s1.zs_in.length + 1) s1
      Z_OK).andThen fun s2 err =>
  (flushOutvec getBufferSize s2).andThen fun s3 _ =>
  let s4 : DeflateOutputStreambuf σ := { s3 with put := [], put_cap := getBufferSize }
  if err ≠ Z_OK ∧ err ≠ Z_STREAM_END then
    (s4, .raise (.deflation_failed err))
  else
    match c with
    | some b => ({ s4 with put := [b] }, .ok 0)
    | none => (s4, .ok 0)

/-- The member function `sync()`. -/
def sync (s : DeflateOutputStreambuf σ) : Res σ Int :=
  (s, .ok 0)

/-- The loop of `endDeflation()`: `while(err == Z_OK)`.  The first argument bounds the number
of iterations. -/
def finishLoop (C : Codec σ) (getBufferSize : Nat) :
    Nat → DeflateOutputStreambuf σ → Int → Res σ Int
  | fuel, s, err =>
    if err = Z_OK then
      match fuel with
      | 0 => (s, .diverge)
      | fuel + 1 =>
        (flushIfFull getBufferSize s).andThen fun s1 _ =>
        let r := callDeflate C getBufferSize Z_FINISH s1
        finishLoop C getBufferSize fuel r.1 r.2
    else
      (s, .ok err)

/-- The member function `endDeflation()`. -/
def endDeflation (C : Codec σ) (getBufferSize : Nat) (s : DeflateOutputStreambuf σ) :
    Res σ Unit :=
  (overflow C getBufferSize none s).andThen fun s1 _ =>
  let s2 : DeflateOutputStreambuf σ := { s1 with outvec := [] }
  (if s2.m_overflown_bytes > 0 then
      finishLoop C getBufferSize (C.measure Z_FINISH s2.m_zs s2.zs_in.length + 1) s2 Z_OK
    else
      (s2, .ok Z_STREAM_END)).andThen fun s3 err =>
  (flushOutvec getBufferSize s3).andThen fun s4 _ =>
  if err ≠ Z_STREAM_END then
    ({ s4 with reported := s4.reported ++ [err] }, .ok ())
  else
    (s4, .ok ())

/-- The member function `closeStream()`. -/
def closeStream (C : Codec σ) (getBufferSize : Nat) (s : DeflateOutputStreambuf σ) :
    Res σ Unit :=
  if s.m_zs_initialized then
    (endDeflation C getBufferSize { s with m_zs_initialized := false }).andThen fun s1 _ =>
    let r := C.deflateEnd s1.m_zs
    let s2 : DeflateOutputStreambuf σ :=
      { s1 with m_zs := r.1, calls := s1.calls ++ [CodecCall.deflateEnd r.2] }
    if r.2 ≠ Z_OK ∧ (r.2 ≠ Z_DATA_ERROR ∨ s2.m_overflown_bytes > 0) then
      (s2, .raise (.deflateEnd_failed r.2))
    else
      (s2, .ok ())
  else
    (s, .ok ())

/-- The destructor `~DeflateOutputStreambuf()`. -/
def destructor (C : Codec σ) (getBufferSize : Nat) (s : DeflateOutputStreambuf σ) :
    Res σ Unit :=
  closeStream C getBufferSize s

/-- The part of `init()` after the `switch`: the codec is initialized with `zlevel`. -/
def initCodec (C : Codec σ) (getBufferSize : Nat) (zlevel : Int)
    (s : DeflateOutputStreambuf σ) : Res σ Bool :=
  let r := C.deflateInit2 s.m_zs zlevel
  let s1 : DeflateOutputStreambuf σ :=
    { s with
      zs_in := []
      outvec := []
      m_zs := r.1
      calls := s.calls ++ [CodecCall.deflateInit2 zlevel r.2] }
  if r.2 ≠ Z_OK then
    (s1, .raise (.init_failed r.2))
  else
    ({ s1 with put := [], put_cap := getBufferSize, m_crc32 := crc32 0 [],
               m_overflown_bytes := 0 },
     .ok (decide (r.2 = Z_OK)))

/-- The member function `init(compression_level)`. -/
def init (C : Codec σ) (getBufferSize : Nat) (compression_level : Int)
    (s : DeflateOutputStreambuf σ) : Res σ Bool :=
  if s.m_zs_initialized then
    (s, .raise .already_initialized)
  else
    let s1 : DeflateOutputStreambuf σ := { s with m_zs_initialized := true, m_bytes_to_skip := 0 }
    if compression_level = FileEntry.COMPRESSION_LEVEL_DEFAULT then
      initCodec C getBufferSize Z_DEFAULT_COMPRESSION s1
    else if compression_level = FileEntry.COMPRESSION_LEVEL_SMALLEST then
      initCodec C getBufferSize Z_BEST_COMPRESSION s1
    else if compression_level = FileEntry.COMPRESSION_LEVEL_FASTEST then
      initCodec C getBufferSize Z_BEST_SPEED s1
    else if compression_level = FileEntry.COMPRESSION_LEVEL_NONE then
      initCodec C getBufferSize Z_NO_COMPRESSION { s1 with m_bytes_to_skip := 5 }
    else if compression_level < FileEntry.COMPRESSION_LEVEL_MINIMUM
        ∨ compression_level > FileEntry.COMPRESSION_LEVEL_MAXIMUM then
      (s1, .raise .invalid_level)
    else
      initCodec C getBufferSize
        (Int.tdiv ((compression_level - 1) * 8 + Int.tdiv 11 2) 99 + 1) s1

/-- The member function `getCrc32()`. -/
def getCrc32 (s : DeflateOutputStreambuf σ) : Nat :=
  s.m_crc32

/-- The member function `getSize()`. -/
def getSize (s : DeflateOutputStreambuf σ) : Nat :=
  s.m_overflown_bytes

/-- The inherited `std::streambuf::sputc(c)`: the byte goes into the put area when there is
room, otherwise `overflow(c)` is called. -/
def sputc (C : Codec σ) (getBufferSize : Nat) (c : Byte) (s : DeflateOutputStreambuf σ) :
    Res σ Int :=
  if s.put.length < s.put_cap then
    ({ s with put := s.put ++ [c] }, .ok (c : Int))
  else
    overflow C getBufferSize (some c) s

end DeflateOutputStreambuf

/-! ## Write sessions -/

/-- One write made by the user of the stream buffer: a buffered `sputc(c)`, or a direct call
of `overflow(c)` (`none` is `EOF`). -/
inductive Write where
  | sputc (c : Byte)
  | overflow (c : Option Byte)
deriving DecidableEq, Repr

/-- The bytes handed over by a sequence of writes. -/
def Write.payload : List Write → List Byte
  | [] => []
  | .sputc c :: ws => c :: Write.payload ws
  | .overflow (some c) :: ws => c :: Write.payload ws
  | .overflow none :: ws => Write.payload ws

namespace DeflateOutputStreambuf

variable {σ : Type}

/-- Performing one write. -/
def write (C : Codec σ) (getBufferSize : Nat) (w : Write) (s : DeflateOutputStreambuf σ) :
    Res σ Int :=
  match w with
  | .sputc c => sputc C getBufferSize c s
  | .overflow c => overflow C getBufferSize c s

/-- Performing a sequence of writes, each on the object as the previous one left it, whether
or not that one threw.  The flag tells whether all of them returned normally. -/
def writes (C : Codec σ) (getBufferSize : Nat) :
    List Write → DeflateOutputStreambuf σ → DeflateOutputStreambuf σ × Bool
  | [], s => (s, true)
  | w :: ws, s =>
    let r := write C getBufferSize w s
    let t := writes C getBufferSize ws r.1
    (t.1, r.2.isOk && t.2)

end DeflateOutputStreambuf

/-! ## A small codec to run the filter on

`copyCodec` behaves like zlib towards its caller but stores instead of compressing: what
it emits is a fixed header followed by the input bytes. -/

/-- The internal state of `copyCodec`: `status` is 0 before `deflateInit2` and after
`deflateEnd`, 1 while the stream is open and 2 once `Z_STREAM_END` was returned; `pending`
holds output not yet handed out; `last_full` says that the previous call filled the output
buffer. -/
structure CopyState where
  status : Nat
  pending : List Byte
  last_full : Bool
deriving DecidableEq, Repr

/-- The `deflateInit2` of `copyCodec`: level 0 starts the stream with a 5-byte header. -/
def copyInit (_zs : CopyState) (zlevel : Int) : CopyState × Int :=
  ({ status := 1, pending := if zlevel = 0 then [1, 0, 0, 255, 255] else [], last_full := false },
   Z_OK)

/-- The `deflate` of `copyCodec`. -/
def copyDeflate (zs : CopyState) (inp : List Byte) (avail : Nat) (flush : Int) :
    DeflateResult CopyState :=
  if zs.status ≠ 1 then
    { zs := zs, consumed := 0, produced := [], err := Z_STREAM_ERROR }
  else if avail = 0 then
    { zs := zs, consumed := 0, produced := [], err := Z_BUF_ERROR }
  else if (zs.pending ++ inp).length = 0 ∧ flush ≠ Z_FINISH then
    if zs.last_full then
      { zs := { zs with last_full := false }, consumed := 0, produced := [], err := Z_OK }
    else
      { zs := zs, consumed := 0, produced := [], err := Z_BUF_ERROR }
  else if flush = Z_FINISH ∧ (zs.pending ++ inp).length ≤ avail then
    { zs := { status := 2, pending := [], last_full := false }
      consumed := inp.length
      produced := zs.pending ++ inp
      err := Z_STREAM_END }
  else
    { zs := { status := 1, pending := (zs.pending ++ inp).drop avail,
              last_full := decide (avail ≤ (zs.pending ++ inp).length) }
      consumed := inp.length
      produced := (zs.pending ++ inp).take avail
      err := Z_OK }

/-- The `deflateEnd` of `copyCodec`: `Z_DATA_ERROR` when the stream is closed before its
end was reached. -/
def copyEnd (zs : CopyState) : CopyState × Int :=
  if zs.status = 0 then (zs, Z_STREAM_ERROR)
  else ({ status := 0, pending := [], last_full := false },
        if zs.status = 1 then Z_DATA_ERROR else Z_OK)

/-- The number of `Z_OK` steps `copyCodec` can still make. -/
def copyMeasure (_flush : Int) (zs : CopyState) (avail_in : Nat) : Nat :=
  2 * (zs.pending.length + avail_in) + (if zs.last_full then 1 else 0)

/-- A codec that copies its input to its output. -/
def copyCodec : Codec CopyState where
  zs0 := { status := 0, pending := [], last_full := false }
  deflateInit2 := copyInit
  deflate := copyDeflate
  deflateEnd := copyEnd
  measure := copyMeasure
  progress := by
    intro zs inp avail flush h
    unfold copyDeflate at h ⊢
    unfold copyMeasure
    simp only [Z_OK, Z_STREAM_ERROR, Z_BUF_ERROR, Z_STREAM_END, Z_FINISH] at h ⊢
    split_ifs at h ⊢ <;>
      simp only [List.length_append, List.length_drop, decide_eq_true_eq, Bool.false_eq_true,
        if_false, reduceCtorEq, List.length_nil] at * <;>
      omega

/-! ## Predicates used in the statements -/

/-- The set of accepted compression levels: the four named ones and `1..100`. -/
def acceptedLevel (level : Int) : Prop :=
  level = FileEntry.COMPRESSION_LEVEL_DEFAULT ∨ level = FileEntry.COMPRESSION_LEVEL_SMALLEST
    ∨ level = FileEntry.COMPRESSION_LEVEL_FASTEST ∨ level = FileEntry.COMPRESSION_LEVEL_NONE
    ∨ (1 ≤ level ∧ level ≤ 100)

instance (level : Int) : Decidable (acceptedLevel level) := by
  unfold acceptedLevel; infer_instance

namespace DeflateOutputStreambuf

/-- The members that only `init`, `overflow` and `closeStream` assign: the CRC, the byte count
and the initialized flag. -/
def meter {σ : Type} (s : DeflateOutputStreambuf σ) : Nat × Nat × Bool :=
  (s.m_crc32, s.m_overflown_bytes, s.m_zs_initialized)

/-- The bookkeeping of `flushOutvec` while a session is running on a downstream buffer that
accepts every byte.  `d` is what the downstream buffer held and `e0` what the codec had
emitted when the session began, `k` is the number of bytes the session has to skip.  Of the
bytes emitted since, a part `f` has gone through `flushOutvec` and the rest is the content of
the output buffer; downstream has received `f` without its first `k` bytes, and the counter
holds what is left to skip. -/
def Good {σ : Type} (getBufferSize k : Nat) (d e0 : List Byte)
    (s : DeflateOutputStreambuf σ) : Prop :=
  s.m_outbuf.room = none ∧ s.outvec.length ≤ getBufferSize ∧
    ∃ f : List Byte, emitted s.calls = e0 ++ f ++ s.outvec
      ∧ s.m_outbuf.data = d ++ f.drop k ∧ s.m_bytes_to_skip = k - f.length

/-- The state of that bookkeeping between two member calls: the output buffer is empty. -/
def Clean {σ : Type} (getBufferSize k : Nat) (d e0 : List Byte)
    (s : DeflateOutputStreambuf σ) : Prop :=
  Good getBufferSize k d e0 s ∧ s.outvec = []

end DeflateOutputStreambuf

/-- A codec whose `deflate` reports an error: every step returns `Z_STREAM_ERROR` without
taking or storing a byte.  `deflateInit2` and `deflateEnd` succeed. -/
def faultyCodec : Codec Unit where
  zs0 := ()
  deflateInit2 := fun _ _ => ((), Z_OK)
  deflate := fun _ _ _ _ => { zs := (), consumed := 0, produced := [], err := Z_STREAM_ERROR }
  deflateEnd := fun _ => ((), Z_OK)
  measure := fun _ _ _ => 0
  progress := by
    intro zs inp avail flush h
    exact absurd h (show ¬ (Z_STREAM_ERROR = Z_OK) by decide)

/-! ## Sample objects -/

/-- A newly constructed filter over `copyCodec` whose downstream buffer is empty and accepts
every byte. -/
def newCopyFilter : DeflateOutputStreambuf CopyState :=
  DeflateOutputStreambuf.construct copyCodec { data := [], room := none }

/-- Three buffered bytes with a direct `overflow(EOF)` in between. -/
def abcWrites : List Write :=
  [Write.sputc 97, Write.sputc 98, Write.overflow none, Write.sputc 99]

/-- A newly constructed filter over `copyCodec` whose downstream buffer is empty and has no
room left (a full disk). -/
def fullSinkFilter : DeflateOutputStreambuf CopyState :=
  DeflateOutputStreambuf.construct copyCodec { data := [], room := some 0 }

/-! ## A store-only codec (RFC 1951, stored blocks)

At level 0 a DEFLATE encoder frames its input in stored blocks: one byte holding the
final-block flag (and the block type 00), the length of the block and its one's complement
as 16-bit values, then the bytes.  A block holds at most 65535 bytes, whatever the encoder.
`storeCodec` collects its input and frames it at `Z_FINISH`. -/

/-- The largest stored block: its length field has 16 bits. -/
abbrev MAX_STORED : Nat := 65535

/-- The 5 bytes in front of a stored block of `len` bytes. -/
def storedHeader (final : Bool) (len : Nat) : List Byte :=
  [if final then 1 else 0, len % 256, len / 256 % 256, 255 - len % 256, 255 - len / 256 % 256]

/-- The stored-block framing of `x`; the first argument bounds the number of blocks. -/
def encodeStored : Nat → List Byte → List Byte
  | 0, x => storedHeader true x.length ++ x
  | fuel + 1, x =>
    if x.length ≤ MAX_STORED then storedHeader true x.length ++ x
    else storedHeader false MAX_STORED ++ x.take MAX_STORED
      ++ encodeStored fuel (x.drop MAX_STORED)

/-- The raw DEFLATE stream of `x` made of stored blocks only. -/
def deflateStored (x : List Byte) : List Byte :=
  encodeStored x.length x

/-- The internal state of `storeCodec`: `status` is 0 before `deflateInit2` and after
`deflateEnd`, 1 while input is collected in `window`, 3 while the framed stream `pending` is
handed out and 2 once `Z_STREAM_END` was returned. -/
structure StoreState where
  status : Nat
  window : List Byte
  pending : List Byte
deriving DecidableEq, Repr

/-- The `deflateInit2` of `storeCodec`. -/
def storeInit (_zs : StoreState) (_zlevel : Int) : StoreState × Int :=
  ({ status := 1, window := [], pending := [] }, Z_OK)

/-- Handing out at most `avail` bytes of the framed stream `q`, after `consumed` input
bytes were taken. -/
def storeEmit (q : List Byte) (consumed avail : Nat) : DeflateResult StoreState :=
  if q.length ≤ avail then
    { zs := { status := 2, window := [], pending := [] }
      consumed := consumed, produced := q, err := Z_STREAM_END }
  else
    { zs := { status := 3, window := [], pending := q.drop avail }
      consumed := consumed, produced := q.take avail, err := Z_OK }

/-- The `deflate` of `storeCodec`. -/
def storeDeflate (zs : StoreState) (inp : List Byte) (avail : Nat) (flush : Int) :
    DeflateResult StoreState :=
  if avail = 0 then
    { zs := zs, consumed := 0, produced := [], err := Z_BUF_ERROR }
  else if zs.status = 1 ∧ flush ≠ Z_FINISH then
    if inp.length = 0 then
      { zs := zs, consumed := 0, produced := [], err := Z_BUF_ERROR }
    else
      { zs := { zs with window := zs.window ++ inp }
        consumed := inp.length, produced := [], err := Z_OK }
  else if zs.status = 1 then
    storeEmit (deflateStored (zs.window ++ inp)) inp.length avail
  else if zs.status = 3 ∧ flush = Z_FINISH then
    storeEmit zs.pending 0 avail
  else
    { zs := zs, consumed := 0, produced := [], err := Z_STREAM_ERROR }

/-- The `deflateEnd` of `storeCodec`. -/
def storeEnd (zs : StoreState) : StoreState × Int :=
  if zs.status = 0 then (zs, Z_STREAM_ERROR)
  else ({ status := 0, window := [], pending := [] },
        if zs.status = 2 then Z_OK else Z_DATA_ERROR)

/-- A bound on the number of `Z_OK` steps `storeCodec` can still make. -/
def storeMeasure (_flush : Int) (zs : StoreState) (avail_in : Nat) : Nat :=
  zs.pending.length
    + (if zs.status = 1 then 6 * (zs.window.length + avail_in) + 5 + avail_in else 0)

/-- A codec that stores: the stream it emits is `deflateStored` of its input. -/
def storeCodec : Codec StoreState where
  zs0 := { status := 0, window := [], pending := [] }
  deflateInit2 := storeInit
  deflate := storeDeflate
  deflateEnd := storeEnd
  measure := storeMeasure
  progress := by
    have key : ∀ (fuel : Nat) (x : List Byte),
        (encodeStored fuel x).length ≤ 6 * x.length + 5 := by
      intro fuel
      induction fuel with
      | zero =>
        intro x
        simp only [encodeStored, storedHeader, List.length_append, List.length_cons,
          List.length_nil]
        omega
      | succ n ih =>
        intro x
        unfold encodeStored
        split_ifs with h
        · simp only [storedHeader, List.length_append, List.length_cons, List.length_nil]
          omega
        · have := ih (x.drop MAX_STORED)
          simp only [storedHeader, List.length_append, List.length_cons, List.length_nil,
            List.length_take, List.length_drop, MAX_STORED] at this h ⊢
          omega
    intro zs inp avail flush h
    unfold storeDeflate at h ⊢
    unfold storeMeasure
    have k1 := key (zs.window ++ inp).length (zs.window ++ inp)
    unfold storeEmit deflateStored at h ⊢
    simp only [Z_OK, Z_STREAM_ERROR, Z_BUF_ERROR, Z_STREAM_END, Z_FINISH] at h ⊢
    split_ifs at h ⊢ <;>
      simp only [List.length_append, List.length_drop, List.length_nil, reduceCtorEq] at * <;>
      omega

/-- The state of a filter over `storeCodec` while an entry with payload `p` so far is being
written: the codec holds the bytes it was given, the put area holds the rest, and nothing
has been emitted since the history of emitted bytes was `e0`. -/
def Collecting (e0 p : List Byte) (s : DeflateOutputStreambuf StoreState) : Prop :=
  ∃ w : List Byte, s.m_zs = { status := 1, window := w, pending := [] } ∧ s.outvec = []
    ∧ w ++ s.put = p ∧ s.m_overflown_bytes = w.length ∧ emitted s.calls = e0
    ∧ s.m_zs_initialized = true

/-- A newly constructed filter over `storeCodec` whose downstream buffer is empty and accepts
every byte. -/
def newStoreFilter : DeflateOutputStreambuf StoreState :=
  DeflateOutputStreambuf.construct storeCodec { data := [], room := none }

/-! ## The back buffer (`backbuffer.h`) -/

/-- The conversion `static_cast< int >` of a stream position: the value modulo 2^32, read
as a signed 32-bit number. -/
def toInt32 (x : Int) : Int :=
  (x + 2147483648) % 4294967296 - 2147483648

/-- Modelled from the spec: the seekable byte source of section 6 as the virtual seeker of
section 4.C presents it (`std::istream`, `VirtualSeeker` and `readByteSeq` are not among the
sources).  `window` holds the bytes of the virtual window, `pos` is the position within it,
`good` is the state `good()` reports, and `faults` is the number of reads the source still
serves before it fails (`none`: it never fails). -/
structure istream where
  window : List Byte
  pos : Int
  good : Bool
  faults : Option Nat
deriving DecidableEq, Repr

/-- The values of `ios::seekdir`. -/
inductive seekdir where
  | beg
  | cur
  | fin
deriving DecidableEq, Repr

namespace VirtualSeeker

/-- Modelled from the spec: `vseekg(is, offset, dir)` of the virtual seeker.
`vseek(0, END)` positions at the end of the window and `vseek(0, BEGIN)` at its start; a
stream that is not good is left alone, and a position before the start makes it fail. -/
def vseekg (is : istream) (offset : Int) (dir : seekdir) : istream :=
  let target : Int :=
    match dir with
    | .beg => offset
    | .cur => is.pos + offset
    | .fin => (is.window.length : Int) + offset
  if is.good = false then is
  else if target < 0 then { is with good := false }
  else { is with pos := target }

/-- Modelled from the spec: `vtellg(is)` of the virtual seeker, the position within the
window, or -1 when the stream is not good. -/
def vtellg (is : istream) : Int :=
  if is.good then is.pos else -1

end VirtualSeeker

/-- Modelled from the spec: `readByteSeq(is, buf, count)`, a read of `count` bytes at the
current position.  The result holds the stream afterwards and the `count` bytes the
destination holds afterwards: the bytes of the window when they are all there and the source
serves the read, and otherwise what could be read followed by the zero bytes the destination
held, with the stream no longer good. -/
def readByteSeq (is : istream) (count : Nat) : istream × List Byte :=
  let got : List Byte := (is.window.drop is.pos.toNat).take count
  if is.good = false ∨ is.pos < 0 ∨ is.faults = some 0 then
    ({ is with good := false }, List.replicate count 0)
  else if got.length < count then
    ({ is with pos := is.pos + got.length, good := false,
               faults := is.faults.map fun k => k - 1 },
     got ++ List.replicate (count - got.length) 0)
  else
    ({ is with pos := is.pos + count, faults := is.faults.map fun k => k - 1 }, got)

/-- The class `BackBuffer`: `buf` is the `vector< unsigned char >` it derives from; the
member `_vs` is part of the stream model. -/
structure BackBuffer where
  buf : List Byte
  _chunk_size : Int
  _is : istream
  _file_pos : Int
deriving DecidableEq, Repr

/-- How a call of `readChunk` ends: it returns an `int`, or `insert` throws
`std::length_error` because the requested count, a negative `int` converted to `size_t`,
exceeds `max_size()`. -/
inductive ChunkResult where
  | returned (n : Int)
  | length_error
deriving DecidableEq, Repr

namespace BackBuffer

/-- The constructor `BackBuffer(is, vs, chunk_size)`. -/
def construct (is : istream) (chunk_size : Int) : BackBuffer :=
  let is1 := VirtualSeeker.vseekg is 0 seekdir.fin
  { buf := [], _chunk_size := chunk_size, _is := is1, _file_pos := VirtualSeeker.vtellg is1 }

/-- The member function `readChunk(read_pointer)`: the object and `read_pointer` after the
call, and how the call ended.  The members are assigned before `insert` runs, so they keep
their new values when it throws. -/
def readChunk (bb : BackBuffer) (read_pointer : Int) : BackBuffer × Int × ChunkResult :=
  let chunk_size : Int := min (toInt32 bb._file_pos) bb._chunk_size
  let file_pos : Int := bb._file_pos - chunk_size
  let is1 := VirtualSeeker.vseekg bb._is file_pos seekdir.beg
  if chunk_size < 0 then
    ({ bb with _chunk_size := chunk_size, _file_pos := file_pos, _is := is1 },
     read_pointer, ChunkResult.length_error)
  else
    let r := readByteSeq is1 chunk_size.toNat
    ({ buf := r.2 ++ bb.buf, _chunk_size := chunk_size, _is := r.1, _file_pos := file_pos },
     toInt32 (read_pointer + chunk_size),
     ChunkResult.returned (if r.1.good then chunk_size else 0))

/-- The first `k` calls of `readChunk` in a row, each on the object and the `read_pointer`
the previous one left; the list holds how each call ended, the first call first. -/
def readChunks : Nat → BackBuffer → Int → BackBuffer × Int × List ChunkResult
  | 0, bb, rp => (bb, rp, [])
  | k + 1, bb, rp =>
    let r := readChunk bb rp
    let t := readChunks k r.1 r.2.1
    (t.1, t.2.1, r.2.2 :: t.2.2)

end BackBuffer

/-- A stream over `window` that is good and whose source never fails. -/
def goodStream (window : List Byte) : istream :=
  { window := window, pos := 0, good := true, faults := none }

/-- The value a call returned; a call that threw returned nothing, counted as 0. -/
def ChunkResult.value : ChunkResult → Int
  | .returned n => n
  | .length_error => 0

/-- The object that `k` calls of `readChunk` produce from a new `BackBuffer` with chunk size
`c` on a good stream over `w` (see `readChunks_good`): the buffer holds the last
`min (k * c) |w|` bytes of the window. -/
def BackBuffer.afterCalls (w : List Byte) (c k : Nat) : BackBuffer :=
  { buf := w.drop (w.length - min (k * c) w.length)
    _chunk_size := ((if k = 0 then c else min (w.length - (k - 1) * c) c : Nat) : Int)
    _is := { window := w
             pos := ((w.length - min ((k - 1) * c) w.length : Nat) : Int)
             good := true, faults := none }
    _file_pos := ((w.length - min (k * c) w.length : Nat) : Int) }

/-- A stream over `window` that is good until the first read, which its source fails. -/
def failingStream (window : List Byte) : istream :=
  { window := window, pos := 0, good := true, faults := some 0 }

/-! ## Directory-backed entries (`DirectoryEntry`)

The class `DirectoryEntry` and its base `FileEntry` are declared in headers that are not among
the sources; what is here follows the entry model of the spec (sections 3 and 4.J) and the
unit tests of `tests/catch_directoryentry.cpp`, which are followed where the two differ. -/

/-- Modelled from the spec: the storage method of an entry, as its number in the ZIP format
(the enumeration `StorageMethod` of `fileentry.hpp` is not among the sources). -/
abbrev StorageMethod := Nat

/-- Modelled from the spec: the method STORED. -/
abbrev StorageMethod.STORED : StorageMethod := 0

/-- Modelled from the spec: the method DEFLATED. -/
abbrev StorageMethod.DEFLATED : StorageMethod := 8

/-- Modelled from the spec: the DOS-time codec of section 4.B (`src/dostime.h` is not among
the sources), taken as a parameter. -/
structure DosTime where
  unix2dostime : Int → Nat
  dos2unixtime : Nat → Int

/-- Modelled from the spec: what the filesystem probe (`stat`) made at construction finds at
the path: nothing, a regular file with its size and modification time, or a directory with
its modification time. -/
inductive PathKind where
  | missing
  | regular (size : Nat) (mtime : Int)
  | directory (mtime : Int)
deriving DecidableEq, Repr

/-- Modelled from the spec: the text of a path after its last `/`, the path itself when it
has none (`getFileName`; the class `FilePath` is not among the sources). -/
def basename (path : String) : String :=
  String.mk (path.data.foldl (fun acc c => if c = '/' then [] else acc ++ [c]) [])

/-- Modelled from the spec: whether a name ends with `/`. -/
def endsWithSlash (name : String) : Bool :=
  decide (name.data.getLast? = some '/')

/-- Modelled from the spec: a directory-backed entry, the attributes of section 3 that a
`DirectoryEntry` holds.  The compressed size is the size (the entry is STORED) and the header
size is 0, so neither is a field; `m_directory` and `m_valid` are set from the filesystem
probe at construction. -/
structure DirectoryEntry where
  m_filename : String
  m_comment : String
  m_uncompressed_size : Nat
  m_unix_time : Int
  m_entry_offset : Int
  m_compress_method : StorageMethod
  m_crc_32 : Nat
  m_has_crc_32 : Bool
  m_extra_field : List Byte
  m_valid : Bool
  m_directory : Bool
deriving DecidableEq, Repr

namespace DirectoryEntry

/-- Modelled from the spec: the constructor `DirectoryEntry(filename, comment)`, with what
the probe of the path found. -/
def construct (filename comment : String) (probe : PathKind) : DirectoryEntry :=
  { m_filename := filename
    m_comment := comment
    m_uncompressed_size :=
      match probe with
      | .regular size _ => size
      | _ => 0
    m_unix_time :=
      match probe with
      | .missing => 0
      | .regular _ mtime => mtime
      | .directory mtime => mtime
    m_entry_offset := 0
    m_compress_method := StorageMethod.STORED
    m_crc_32 := 0
    m_has_crc_32 := false
    m_extra_field := []
    m_valid := decide (probe ≠ PathKind.missing)
    m_directory :=
      match probe with
      | .directory _ => true
      | _ => false }

/-- Modelled from the spec: `getComment()`. -/
def getComment (e : DirectoryEntry) : String := e.m_comment

/-- Modelled from the spec: `getSize()`. -/
def getSize (e : DirectoryEntry) : Nat := e.m_uncompressed_size

/-- Modelled from the spec: `getCompressedSize()`, the size of the entry. -/
def getCompressedSize (e : DirectoryEntry) : Nat := e.getSize

/-- Modelled from the spec: `getCrc()`. -/
def getCrc (e : DirectoryEntry) : Nat := e.m_crc_32

/-- Modelled from the spec: `hasCrc()`. -/
def hasCrc (e : DirectoryEntry) : Bool := e.m_has_crc_32

/-- Modelled from the spec: `getEntryOffset()`. -/
def getEntryOffset (e : DirectoryEntry) : Int := e.m_entry_offset

/-- Modelled from the spec: `getExtra()`. -/
def getExtra (e : DirectoryEntry) : List Byte := e.m_extra_field

/-- Modelled from the spec: `getHeaderSize()`, 0 for a directory-backed entry. -/
def getHeaderSize (_e : DirectoryEntry) : Nat := 0

/-- Modelled from the spec: `getMethod()`. -/
def getMethod (e : DirectoryEntry) : StorageMethod := e.m_compress_method

/-- Modelled from the spec: `getName()`. -/
def getName (e : DirectoryEntry) : String := e.m_filename

/-- Modelled from the spec: `getFileName()`. -/
def getFileName (e : DirectoryEntry) : String := basename e.m_filename

/-- Modelled from the spec: `getUnixTime()`. -/
def getUnixTime (e : DirectoryEntry) : Int := e.m_unix_time

/-- Modelled from the spec: `getTime()`, the DOS time of the Unix time held. -/
def getTime (T : DosTime) (e : DirectoryEntry) : Nat := T.unix2dostime e.m_unix_time

/-- Modelled from the spec: `isDirectory()`. -/
def isDirectory (e : DirectoryEntry) : Bool := e.m_directory

/-- Modelled from the spec: `isValid()`. -/
def isValid (e : DirectoryEntry) : Bool := e.m_valid

/-- Modelled from the spec: `toString()`. -/
def toString (e : DirectoryEntry) : String :=
  if e.isDirectory then e.getName ++ " (directory)"
  else e.getName ++ " (" ++ Nat.repr e.getSize ++ " bytes)"

/-- Modelled from the spec: `setComment(comment)`. -/
def setComment (comment : String) (e : DirectoryEntry) : DirectoryEntry :=
  { e with m_comment := comment }

/-- Modelled from the spec: `setCompressedSize(size)`, ignored. -/
def setCompressedSize (_size : Nat) (e : DirectoryEntry) : DirectoryEntry := e

/-- Modelled from the spec: `setCrc(crc)`, ignored. -/
def setCrc (_crc : Nat) (e : DirectoryEntry) : DirectoryEntry := e

/-- Modelled from the spec: `setEntryOffset(offset)`. -/
def setEntryOffset (offset : Int) (e : DirectoryEntry) : DirectoryEntry :=
  { e with m_entry_offset := offset }

/-- Modelled from the spec: `setExtra(extra)`, ignored. -/
def setExtra (_extra : List Byte) (e : DirectoryEntry) : DirectoryEntry := e

/-- Modelled from the spec: `setMethod(method)`, ignored. -/
def setMethod (_method : StorageMethod) (e : DirectoryEntry) : DirectoryEntry := e

/-- Modelled from the spec: `setSize(size)`; the tests pass a `size_t` and read the same
value back, so the value is kept as a 64-bit number. -/
def setSize (size : Nat) (e : DirectoryEntry) : DirectoryEntry :=
  { e with m_uncompressed_size := size % 18446744073709551616 }

/-- Modelled from the spec: `setTime(time)`, a DOS time. -/
def setTime (T : DosTime) (time : Nat) (e : DirectoryEntry) : DirectoryEntry :=
  { e with m_unix_time := T.dos2unixtime time }

/-- Modelled from the spec: `setUnixTime(time)`. -/
def setUnixTime (time : Int) (e : DirectoryEntry) : DirectoryEntry :=
  { e with m_unix_time := time }

/-- Modelled from the spec: `clone()`, a copy of the entry. -/
def clone (e : DirectoryEntry) : DirectoryEntry := e

/-- Modelled from the spec: `isEqual(other)`: name, comment, size, compressed size, CRC-32,
method, DOS time, extra and directory flag all match. -/
def isEqual (T : DosTime) (a b : DirectoryEntry) : Bool :=
  decide (a.getName = b.getName ∧ a.getComment = b.getComment ∧ a.getSize = b.getSize
    ∧ a.getCompressedSize = b.getCompressedSize ∧ a.getCrc = b.getCrc
    ∧ a.getMethod = b.getMethod ∧ a.getTime T = b.getTime T ∧ a.getExtra = b.getExtra
    ∧ a.isDirectory = b.isDirectory)

end DirectoryEntry

/-- Everything a caller can read from an entry. -/
structure Observation where
  comment : String
  size : Nat
  compressedSize : Nat
  crc : Nat
  hasCrc : Bool
  extra : List Byte
  method : StorageMethod
  name : String
  fileName : String
  time : Nat
  unixTime : Int
  entryOffset : Int
  headerSize : Nat
  directory : Bool
  valid : Bool
  text : String
deriving DecidableEq, Repr

/-- The values of all getters of an entry. -/
def DirectoryEntry.observe (T : DosTime) (e : DirectoryEntry) : Observation :=
  { comment := e.getComment, size := e.getSize, compressedSize := e.getCompressedSize
    crc := e.getCrc, hasCrc := e.hasCrc, extra := e.getExtra, method := e.getMethod
    name := e.getName, fileName := e.getFileName, time := e.getTime T
    unixTime := e.getUnixTime, entryOffset := e.getEntryOffset
    headerSize := e.getHeaderSize, directory := e.isDirectory, valid := e.isValid
    text := e.toString }

/-- One call of a setter. -/
inductive Setter where
  | setComment (comment : String)
  | setCompressedSize (size : Nat)
  | setCrc (crc : Nat)
  | setEntryOffset (offset : Int)
  | setExtra (extra : List Byte)
  | setMethod (method : StorageMethod)
  | setSize (size : Nat)
  | setTime (time : Nat)
  | setUnixTime (time : Int)
deriving DecidableEq, Repr

/-- Performing one setter call. -/
def Setter.apply (T : DosTime) (e : DirectoryEntry) : Setter → DirectoryEntry
  | .setComment c => e.setComment c
  | .setCompressedSize r => e.setCompressedSize r
  | .setCrc r => e.setCrc r
  | .setEntryOffset o => e.setEntryOffset o
  | .setExtra b => e.setExtra b
  | .setMethod m => e.setMethod m
  | .setSize r => e.setSize r
  | .setTime t => e.setTime T t
  | .setUnixTime t => e.setUnixTime t

/-- Performing a sequence of setter calls, the first one first. -/
def DirectoryEntry.run (T : DosTime) (e : DirectoryEntry) (calls : List Setter) :
    DirectoryEntry :=
  calls.foldl (Setter.apply T) e

/-- A stand-in DOS-time codec for examples: the number of 2-second units since
1980-01-01 00:00:00, 0 before that; it does not have the bit layout of DOS times. -/
def sampleDosTime : DosTime :=
  { unix2dostime := fun t => ((t - 315532800) / 2).toNat
    dos2unixtime := fun d => if d = 0 then 0 else 315532800 + 2 * (d : Int) }

/-- The path of the directory of the unit tests. -/
def testDirectoryPath : String := "filepath-test"

/-- The path of the regular file of the unit tests. -/
def testFilePath : String := "filepath-test.txt"

/-- The path of the unit tests at which there is nothing. -/
def testMissingPath : String := "/this/file/really/should/not/exist/period.txt"

/-- The entry of the unit tests for the directory `filepath-test`. -/
def testDirectoryEntry : DirectoryEntry :=
  DirectoryEntry.construct testDirectoryPath ("") (PathKind.directory 1446336000)

/-- An entry as in the unit tests for the file `filepath-test.txt`, of 42 bytes. -/
def testFileEntry : DirectoryEntry :=
  DirectoryEntry.construct testFilePath ("") (PathKind.regular 42 1446336000)

/-- The entry of the unit tests for the path at which there is nothing. -/
def testMissingEntry : DirectoryEntry :=
  DirectoryEntry.construct testMissingPath ("") PathKind.missing

/-- The path of the unit tests that differs from `testMissingPath` by the leading `/`. -/
def testRelativePath : String := "this/file/really/should/not/exist/period.txt"

/-! ## File collections (`filecollection.hpp`) -/

/-- The enumeration `FileCollection::MatchPath`. -/
inductive MatchPath where
  | IGNORE
  | MATCH
deriving DecidableEq, Repr

/-- The data members of `FileCollection`. -/
structure FileCollection where
  m_filename : String
  m_entries : List DirectoryEntry
  m_valid : Bool

namespace FileCollection

/-- Modelled from the spec: `getEntry(name, matchpath)`, declared in `filecollection.hpp`
and defined in a file that is not among the sources.  The lookup is linear over the entries
and returns the first hit: `MATCH` compares the full path, `IGNORE` the path without its
leading directory components. -/
def getEntry (c : FileCollection) (name : String) (matchpath : MatchPath) :
    Option DirectoryEntry :=
  c.m_entries.find? fun e =>
    match matchpath with
    | .MATCH => decide (e.getName = name)
    | .IGNORE => decide (e.getFileName = name)

/-- The default argument of the declaration: `matchpath = MatchPath::MATCH`. -/
def getEntryDefault (c : FileCollection) (name : String) : Option DirectoryEntry :=
  c.getEntry name MatchPath.MATCH

end FileCollection

/-- An entry named `name` as a collection lists it. -/
def namedEntry (name : String) : DirectoryEntry :=
  DirectoryEntry.construct name ("") (PathKind.regular 1 1446336000)

/-- The collection of scenario S2 of the spec: `a/`, `a/b.txt`, `a/c.txt`. -/
def scenarioS2 : FileCollection :=
  { m_filename := "s2.zip"
    m_entries := [namedEntry ("a/"), namedEntry ("a/b.txt"), namedEntry ("a/c.txt")]
    m_valid := true }

/-- The status a codec call returned. -/
def CodecCall.err : CodecCall → Int
  | .deflateInit2 _ e => e
  | .deflate _ _ _ _ _ e => e
  | .deflateEnd e => e

/-- Whether a codec call is a `deflate()` step with the flush mode `Z_NO_FLUSH`. -/
def CodecCall.isNoFlushStep : CodecCall → Bool
  | .deflate flush _ _ _ _ _ => decide (flush = Z_NO_FLUSH)
  | _ => false

/-- A codec call that is no `deflate()` step, or a `deflate()` step made with room in the
output buffer (`avail_out` at least 1). -/
def CodecCall.hasRoom : CodecCall → Prop
  | .deflate _ _ avail_out _ _ _ => 1 ≤ avail_out
  | _ => True

/-- The number of input bytes a `deflate()` step was offered (`avail_in` at the call); 0 for
the other calls. -/
def CodecCall.avail_in : CodecCall → Nat
  | .deflate _ n _ _ _ _ => n
  | _ => 0

/-- The number of input bytes a `deflate()` step took; 0 for the other calls. -/
def CodecCall.consumed : CodecCall → Nat
  | .deflate _ _ _ n _ _ => n
  | _ => 0

/-- Replaying a piece of history as the feeding of `inp` to the codec: starting in the codec
state `zs` with the bytes `inp` in the input window, every recorded call has to be the
`deflate` step with `Z_NO_FLUSH` that the codec makes on the bytes not yet taken, with the
recorded room, counts, output and status.  The result is the state of the codec after the
last step and the bytes it has not taken; `none` when the history is not such a feeding. -/
def feedSteps {σ : Type} (C : Codec σ) : σ → List Byte → List CodecCall → Option (σ × List Byte)
  | zs, inp, [] => some (zs, inp)
  | zs, inp, CodecCall.deflate flush avail_in avail_out consumed produced err :: rest =>
    if flush = Z_NO_FLUSH ∧ avail_in = inp.length
        ∧ consumed = min (C.deflate zs inp avail_out Z_NO_FLUSH).consumed inp.length
        ∧ produced = (C.deflate zs inp avail_out Z_NO_FLUSH).produced.take avail_out
        ∧ err = (C.deflate zs inp avail_out Z_NO_FLUSH).err then
      feedSteps C (C.deflate zs inp avail_out Z_NO_FLUSH).zs
        (inp.drop (C.deflate zs inp avail_out Z_NO_FLUSH).consumed) rest
    else
      none
  | _, _, _ :: _ => none

/-! # Theorems -/

/-! ## Basic facts -/

section Basics

variable {σ : Type}

@[simp] theorem Res.andThen_ok {α β : Type} (s : DeflateOutputStreambuf σ) (a : α)
    (f : DeflateOutputStreambuf σ → α → Res σ β) :
    Res.andThen (s, Outcome.ok a) f = f s a := rfl

@[simp] theorem Res.andThen_raise {α β : Type} (s : DeflateOutputStreambuf σ) (e : Exn)
    (f : DeflateOutputStreambuf σ → α → Res σ β) :
    Res.andThen ((s, Outcome.raise e) : Res σ α) f = (s, Outcome.raise e) := rfl

@[simp] theorem Res.andThen_diverge {α β : Type} (s : DeflateOutputStreambuf σ)
    (f : DeflateOutputStreambuf σ → α → Res σ β) :
    Res.andThen ((s, Outcome.diverge) : Res σ α) f = (s, Outcome.diverge) := rfl

/-- Chaining of the CRC: continuing from the CRC of `a` over `b` is the CRC of `a ++ b`. -/
theorem crc32_append (c : Nat) (a b : List Byte) :
    crc32 (crc32 c a) b = crc32 c (a ++ b) := by
  unfold crc32
  rw [Nat.xor_cancel_right, List.foldl_append]

theorem crc32_nil : crc32 0 [] = 0 := by decide

end Basics

/-! ## Initialization -/

section Init

variable {σ : Type}

open DeflateOutputStreambuf

theorem initCodec_calls (C : Codec σ) (b : Nat) (z : Int) (s : DeflateOutputStreambuf σ) :
    (initCodec C b z s).1.calls
      = s.calls ++ [CodecCall.deflateInit2 z (C.deflateInit2 s.m_zs z).2] := by
  unfold initCodec
  dsimp only
  split_ifs <;> rfl

theorem initCodec_skip (C : Codec σ) (b : Nat) (z : Int) (s : DeflateOutputStreambuf σ) :
    (initCodec C b z s).1.m_bytes_to_skip = s.m_bytes_to_skip := by
  unfold initCodec
  dsimp only
  split_ifs <;> rfl

theorem initCodec_initialized (C : Codec σ) (b : Nat) (z : Int) (s : DeflateOutputStreambuf σ) :
    (initCodec C b z s).1.m_zs_initialized = s.m_zs_initialized := by
  unfold initCodec
  dsimp only
  split_ifs <;> rfl

theorem initCodec_outcome (C : Codec σ) (b : Nat) (z : Int) (s : DeflateOutputStreambuf σ) :
    (initCodec C b z s).2 ≠ Outcome.raise Exn.invalid_level := by
  unfold initCodec
  dsimp only
  split_ifs <;> simp

/-- C5. For every level `L` with `1 ≤ L ≤ 100`, `init(L)` on a filter that is not yet
initialized calls `deflateInit2` with the zlib level `((L-1)*8 + 5) / 99 + 1` (truncating
division), and the expression of the code, `((L-1)*8 + 11/2) / 99 + 1`, has that value. -/
theorem init_numeric_level (C : Codec σ) (getBufferSize : Nat) (L : Int)
    (s : DeflateOutputStreambuf σ) (hs : s.m_zs_initialized = false)
    (h1 : 1 ≤ L) (h100 : L ≤ 100) :
    (∃ err, (init C getBufferSize L s).1.calls
        = s.calls ++ [CodecCall.deflateInit2 (Int.tdiv ((L - 1) * 8 + 5) 99 + 1) err])
    ∧ Int.tdiv ((L - 1) * 8 + Int.tdiv 11 2) 99 + 1 = Int.tdiv ((L - 1) * 8 + 5) 99 + 1 := by
  refine ⟨⟨(C.deflateInit2 s.m_zs (Int.tdiv ((L - 1) * 8 + 5) 99 + 1)).2, ?_⟩, rfl⟩
  unfold init
  have e1 : L ≠ FileEntry.COMPRESSION_LEVEL_DEFAULT := by
    simp only [FileEntry.COMPRESSION_LEVEL_DEFAULT]; omega
  have e2 : L ≠ FileEntry.COMPRESSION_LEVEL_SMALLEST := by
    simp only [FileEntry.COMPRESSION_LEVEL_SMALLEST]; omega
  have e3 : L ≠ FileEntry.COMPRESSION_LEVEL_FASTEST := by
    simp only [FileEntry.COMPRESSION_LEVEL_FASTEST]; omega
  have e4 : L ≠ FileEntry.COMPRESSION_LEVEL_NONE := by
    simp only [FileEntry.COMPRESSION_LEVEL_NONE]; omega
  have e5 : ¬ (L < FileEntry.COMPRESSION_LEVEL_MINIMUM ∨ L > FileEntry.COMPRESSION_LEVEL_MAXIMUM) := by
    simp only [FileEntry.COMPRESSION_LEVEL_MINIMUM, FileEntry.COMPRESSION_LEVEL_MAXIMUM]; omega
  rw [hs]
  simp only [Bool.false_eq_true, if_false, e1, e2, e3, e4, e5]
  rw [initCodec_calls]
  rfl

/-- C5, at the level 50: the codec is initialized with zlib level 5. -/
theorem init_numeric_level_witness :
    (∃ err, (init copyCodec 4 50 (construct copyCodec ⟨[], none⟩)).1.calls
        = (construct copyCodec ⟨[], none⟩).calls
            ++ [CodecCall.deflateInit2 (Int.tdiv ((50 - 1) * 8 + 5) 99 + 1) err])
    ∧ Int.tdiv ((50 - 1) * 8 + Int.tdiv 11 2) 99 + 1 = Int.tdiv ((50 - 1) * 8 + 5) 99 + 1 :=
  init_numeric_level copyCodec 4 50 (construct copyCodec ⟨[], none⟩) rfl (by decide) (by decide)

end Init

section InitClaims

variable {σ : Type}

open DeflateOutputStreambuf

/-- C6. On a filter that is not yet initialized, `init` hands `deflateInit2` the zlib level
`Z_DEFAULT_COMPRESSION = -1` for DEFAULT, 9 for SMALLEST, 1 for FASTEST and 0 for NONE; and
for every level the bytes-to-skip counter is 5 afterwards when the level is NONE and 0
otherwise. -/
theorem init_named_levels (C : Codec σ) (getBufferSize : Nat) (s : DeflateOutputStreambuf σ)
    (hs : s.m_zs_initialized = false) :
    (∃ err, (init C getBufferSize FileEntry.COMPRESSION_LEVEL_DEFAULT s).1.calls
        = s.calls ++ [CodecCall.deflateInit2 (-1) err])
    ∧ (∃ err, (init C getBufferSize FileEntry.COMPRESSION_LEVEL_SMALLEST s).1.calls
        = s.calls ++ [CodecCall.deflateInit2 9 err])
    ∧ (∃ err, (init C getBufferSize FileEntry.COMPRESSION_LEVEL_FASTEST s).1.calls
        = s.calls ++ [CodecCall.deflateInit2 1 err])
    ∧ (∃ err, (init C getBufferSize FileEntry.COMPRESSION_LEVEL_NONE s).1.calls
        = s.calls ++ [CodecCall.deflateInit2 0 err])
    ∧ ∀ level : Int, (init C getBufferSize level s).1.m_bytes_to_skip
        = if level = FileEntry.COMPRESSION_LEVEL_NONE then 5 else 0 := by
  refine ⟨⟨(C.deflateInit2 s.m_zs (-1)).2, ?_⟩, ⟨(C.deflateInit2 s.m_zs 9).2, ?_⟩,
    ⟨(C.deflateInit2 s.m_zs 1).2, ?_⟩, ⟨(C.deflateInit2 s.m_zs 0).2, ?_⟩, ?_⟩
  · unfold init
    rw [hs]
    simp only [Bool.false_eq_true, if_false, if_true]
    rw [initCodec_calls]
  · unfold init
    rw [hs]
    simp only [Bool.false_eq_true, if_false, if_true]
    rw [if_neg (by decide), initCodec_calls]
  · unfold init
    rw [hs]
    simp only [Bool.false_eq_true, if_false, if_true]
    rw [if_neg (by decide), if_neg (by decide), initCodec_calls]
  · unfold init
    rw [hs]
    simp only [Bool.false_eq_true, if_false, if_true]
    rw [if_neg (by decide), if_neg (by decide), if_neg (by decide), initCodec_calls]
  · intro level
    unfold init
    rw [hs]
    simp only [Bool.false_eq_true, if_false]
    by_cases h0 : level = FileEntry.COMPRESSION_LEVEL_NONE
    · subst h0
      rw [if_neg (by decide), if_neg (by decide), if_neg (by decide), if_pos rfl, if_pos rfl,
        initCodec_skip]
    · rw [if_neg h0]
      split_ifs <;> simp only [initCodec_skip]

/-- C6, on a newly constructed filter over `copyCodec`. -/
theorem init_named_levels_witness :
    (∃ err, (init copyCodec 4 FileEntry.COMPRESSION_LEVEL_DEFAULT
        (construct copyCodec ⟨[], none⟩)).1.calls
        = (construct copyCodec ⟨[], none⟩).calls ++ [CodecCall.deflateInit2 (-1) err])
    ∧ (∃ err, (init copyCodec 4 FileEntry.COMPRESSION_LEVEL_SMALLEST
        (construct copyCodec ⟨[], none⟩)).1.calls
        = (construct copyCodec ⟨[], none⟩).calls ++ [CodecCall.deflateInit2 9 err])
    ∧ (∃ err, (init copyCodec 4 FileEntry.COMPRESSION_LEVEL_FASTEST
        (construct copyCodec ⟨[], none⟩)).1.calls
        = (construct copyCodec ⟨[], none⟩).calls ++ [CodecCall.deflateInit2 1 err])
    ∧ (∃ err, (init copyCodec 4 FileEntry.COMPRESSION_LEVEL_NONE
        (construct copyCodec ⟨[], none⟩)).1.calls
        = (construct copyCodec ⟨[], none⟩).calls ++ [CodecCall.deflateInit2 0 err])
    ∧ ∀ level : Int, (init copyCodec 4 level (construct copyCodec ⟨[], none⟩)).1.m_bytes_to_skip
        = if level = FileEntry.COMPRESSION_LEVEL_NONE then 5 else 0 :=
  init_named_levels copyCodec 4 (construct copyCodec ⟨[], none⟩) rfl

/-- C7. For a level outside the accepted set, `init` throws a `std::logic_error` (on a filter
that is not initialized it is the level error) and the codec is left alone: no call is
added to its history and its state is unchanged.  For a level in the accepted set, `init`
never throws the level error. -/
theorem init_level_check (C : Codec σ) (getBufferSize : Nat) (level : Int)
    (s : DeflateOutputStreambuf σ) :
    (¬ acceptedLevel level →
      (∃ e, (init C getBufferSize level s).2 = Outcome.raise e ∧ e.kind = ExnKind.logic_error)
      ∧ (s.m_zs_initialized = false →
          (init C getBufferSize level s).2 = Outcome.raise Exn.invalid_level)
      ∧ (init C getBufferSize level s).1.calls = s.calls
      ∧ (init C getBufferSize level s).1.m_zs = s.m_zs)
    ∧ (acceptedLevel level →
      (init C getBufferSize level s).2 ≠ Outcome.raise Exn.invalid_level) := by
  constructor
  · intro h
    unfold acceptedLevel at h
    simp only [not_or, not_and, not_le] at h
    obtain ⟨e1, e2, e3, e4, e5⟩ := h
    have e6 : level < FileEntry.COMPRESSION_LEVEL_MINIMUM
        ∨ level > FileEntry.COMPRESSION_LEVEL_MAXIMUM := by
      simp only [FileEntry.COMPRESSION_LEVEL_MINIMUM, FileEntry.COMPRESSION_LEVEL_MAXIMUM]
      by_cases h1 : 1 ≤ level
      · exact Or.inr (e5 h1)
      · exact Or.inl (by omega)
    unfold init
    cases hs : s.m_zs_initialized
    · simp [Exn.kind, e1, e2, e3, e4, e6]
    · simp [Exn.kind]
  · intro h
    unfold acceptedLevel at h
    unfold init
    split_ifs
    all_goals first
      | exact initCodec_outcome _ _ _ _
      | (intro hc
         injection hc with hc
         cases hc
         done)
      | (exfalso
         rename_i a1 a2 a3 a4 a5 a6
         simp only [FileEntry.COMPRESSION_LEVEL_MINIMUM,
           FileEntry.COMPRESSION_LEVEL_MAXIMUM] at a6
         simp only [FileEntry.COMPRESSION_LEVEL_DEFAULT, FileEntry.COMPRESSION_LEVEL_SMALLEST,
           FileEntry.COMPRESSION_LEVEL_FASTEST, FileEntry.COMPRESSION_LEVEL_NONE] at h a2 a3 a4 a5
         omega)

end InitClaims

/-! ## Frame lemmas: what the helpers leave alone -/

section Frame

variable {σ : Type}

open DeflateOutputStreambuf

/-- A property of the object that holds after the first part of a sequence and is kept by the
continuation holds after the sequence. -/
theorem Res.andThen_inv {α β : Type} (P : DeflateOutputStreambuf σ → Prop) (r : Res σ α)
    (f : DeflateOutputStreambuf σ → α → Res σ β) (hr : P r.1)
    (hf : ∀ s a, P s → P (f s a).1) : P (Res.andThen r f).1 := by
  rcases r with ⟨s, a | e | _⟩
  · exact hf s a hr
  · exact hr
  · exact hr

theorem flushWrite_meter (s : DeflateOutputStreambuf σ) (o n : Nat) :
    meter (flushWrite s o n).1 = meter s := by
  unfold flushWrite
  dsimp only
  split_ifs <;> rfl

theorem flushOutvec_meter (b : Nat) (s : DeflateOutputStreambuf σ) :
    meter (flushOutvec b s).1 = meter s := by
  unfold flushOutvec
  dsimp only
  split_ifs <;> rw [flushWrite_meter] <;> rfl

theorem callDeflate_meter (C : Codec σ) (b : Nat) (flush : Int) (s : DeflateOutputStreambuf σ) :
    meter (callDeflate C b flush s).1 = meter s := rfl

theorem flushIfFull_meter (b : Nat) (s : DeflateOutputStreambuf σ) :
    meter (flushIfFull b s).1 = meter s := by
  unfold flushIfFull
  split_ifs
  · exact flushOutvec_meter b s
  · rfl

theorem overflowLoop_zero (C : Codec σ) (b : Nat) (s : DeflateOutputStreambuf σ) (err : Int) :
    overflowLoop C b 0 s err
      = if (s.zs_in.length > 0 ∨ s.avail_out b = 0) ∧ err = Z_OK then (s, Outcome.diverge)
        else (s, Outcome.ok err) := by
  rw [overflowLoop]

theorem overflowLoop_succ (C : Codec σ) (b n : Nat) (s : DeflateOutputStreambuf σ) (err : Int) :
    overflowLoop C b (n + 1) s err
      = if (s.zs_in.length > 0 ∨ s.avail_out b = 0) ∧ err = Z_OK then
          (flushIfFull b s).andThen fun s1 _ =>
            overflowLoop C b n (callDeflate C b Z_NO_FLUSH s1).1
              (callDeflate C b Z_NO_FLUSH s1).2
        else (s, Outcome.ok err) := by
  rw [overflowLoop]

theorem finishLoop_zero (C : Codec σ) (b : Nat) (s : DeflateOutputStreambuf σ) (err : Int) :
    finishLoop C b 0 s err
      = if err = Z_OK then (s, Outcome.diverge) else (s, Outcome.ok err) := by
  rw [finishLoop]

theorem finishLoop_succ (C : Codec σ) (b n : Nat) (s : DeflateOutputStreambuf σ) (err : Int) :
    finishLoop C b (n + 1) s err
      = if err = Z_OK then
          (flushIfFull b s).andThen fun s1 _ =>
            finishLoop C b n (callDeflate C b Z_FINISH s1).1 (callDeflate C b Z_FINISH s1).2
        else (s, Outcome.ok err) := by
  rw [finishLoop]

theorem overflowLoop_meter (C : Codec σ) (b : Nat) :
    ∀ (fuel : Nat) (s : DeflateOutputStreambuf σ) (err : Int),
      meter (overflowLoop C b fuel s err).1 = meter s := by
  intro fuel
  induction fuel with
  | zero =>
    intro s err
    rw [overflowLoop_zero]
    split_ifs <;> rfl
  | succ n ih =>
    intro s err
    rw [overflowLoop_succ]
    split_ifs
    · exact Res.andThen_inv (fun t => meter t = meter s) _ _ (flushIfFull_meter b s)
        (fun t _ ht => (ih _ _).trans ((callDeflate_meter C b _ t).trans ht))
    · rfl

theorem finishLoop_meter (C : Codec σ) (b : Nat) :
    ∀ (fuel : Nat) (s : DeflateOutputStreambuf σ) (err : Int),
      meter (finishLoop C b fuel s err).1 = meter s := by
  intro fuel
  induction fuel with
  | zero =>
    intro s err
    rw [finishLoop_zero]
    split_ifs <;> rfl
  | succ n ih =>
    intro s err
    rw [finishLoop_succ]
    split_ifs
    · exact Res.andThen_inv (fun t => meter t = meter s) _ _ (flushIfFull_meter b s)
        (fun t _ ht => (ih _ _).trans ((callDeflate_meter C b _ t).trans ht))
    · rfl

/-- Whatever way `overflow` ends, it has folded the put area into the CRC and the byte
count, and it has left the initialized flag alone. -/
theorem overflow_meter (C : Codec σ) (b : Nat) (c : Option Byte) (s : DeflateOutputStreambuf σ) :
    meter (overflow C b c s).1
      = (crc32 s.m_crc32 s.put, s.m_overflown_bytes + s.put.length, s.m_zs_initialized) := by
  unfold overflow
  dsimp only
  refine Res.andThen_inv (fun t => meter t = _) _ _ ?_ ?_
  · beta_reduce
    rw [overflowLoop_meter]
    rfl
  · intro s2 err h2
    refine Res.andThen_inv (fun t => meter t = _) _ _ ?_ ?_
    · beta_reduce
      rw [flushOutvec_meter]
      exact h2
    · intro s3 _ h3
      dsimp only
      split_ifs
      · exact h3
      · cases c <;> exact h3

/-- Whatever way `endDeflation` ends, the CRC and the byte count cover the put area. -/
theorem endDeflation_meter (C : Codec σ) (b : Nat) (s : DeflateOutputStreambuf σ) :
    meter (endDeflation C b s).1
      = (crc32 s.m_crc32 s.put, s.m_overflown_bytes + s.put.length, s.m_zs_initialized) := by
  unfold endDeflation
  refine Res.andThen_inv (fun t => meter t = _) _ _ (overflow_meter C b none s) ?_
  intro s1 _ h1
  dsimp only
  refine Res.andThen_inv (fun t => meter t = _) _ _ ?_ ?_
  · beta_reduce
    split_ifs
    · rw [finishLoop_meter]
      exact h1
    · exact h1
  · intro s3 err h3
    refine Res.andThen_inv (fun t => meter t = _) _ _ ?_ ?_
    · beta_reduce
      rw [flushOutvec_meter]
      exact h3
    · intro s4 _ h4
      dsimp only
      split_ifs <;> exact h4

/-- Whatever way `closeStream` ends on an initialized filter, the CRC and the byte count
cover the put area and the filter is no longer initialized. -/
theorem closeStream_meter (C : Codec σ) (b : Nat) (s : DeflateOutputStreambuf σ)
    (hs : s.m_zs_initialized = true) :
    meter (closeStream C b s).1
      = (crc32 s.m_crc32 s.put, s.m_overflown_bytes + s.put.length, false) := by
  unfold closeStream
  rw [if_pos hs]
  refine Res.andThen_inv (fun t => meter t = _) _ _ ?_ ?_
  · beta_reduce
    rw [endDeflation_meter]
  · intro s1 _ h1
    dsimp only
    split_ifs <;> exact h1

theorem closeStream_not_initialized (C : Codec σ) (b : Nat) (s : DeflateOutputStreambuf σ) :
    (closeStream C b s).1.m_zs_initialized = false := by
  cases hs : s.m_zs_initialized
  · unfold closeStream
    rw [hs]
    simpa using hs
  · have h := closeStream_meter C b s hs
    unfold meter at h
    exact (Prod.mk.inj (Prod.mk.inj h).2).2

end Frame

/-! ## The loops end -/

section Totality

variable {σ : Type}

open DeflateOutputStreambuf

theorem flushWrite_codec (s : DeflateOutputStreambuf σ) (o n : Nat) :
    (flushWrite s o n).1.m_zs = s.m_zs ∧ (flushWrite s o n).1.zs_in = s.zs_in
      ∧ (flushWrite s o n).2 ≠ Outcome.diverge := by
  unfold flushWrite
  dsimp only
  split_ifs <;> exact ⟨rfl, rfl, fun h => by cases h⟩

theorem flushOutvec_codec (b : Nat) (s : DeflateOutputStreambuf σ) :
    (flushOutvec b s).1.m_zs = s.m_zs ∧ (flushOutvec b s).1.zs_in = s.zs_in
      ∧ (flushOutvec b s).2 ≠ Outcome.diverge := by
  unfold flushOutvec
  dsimp only
  split_ifs <;> exact flushWrite_codec _ _ _

theorem flushIfFull_codec (b : Nat) (s : DeflateOutputStreambuf σ) :
    (flushIfFull b s).1.m_zs = s.m_zs ∧ (flushIfFull b s).1.zs_in = s.zs_in
      ∧ (flushIfFull b s).2 ≠ Outcome.diverge := by
  unfold flushIfFull
  split_ifs
  · exact flushOutvec_codec b s
  · exact ⟨rfl, rfl, fun h => by cases h⟩

/-- One more `deflate` call that returns `Z_OK` lowers the measure of the codec. -/
theorem callDeflate_measure (C : Codec σ) (b : Nat) (flush : Int)
    (s : DeflateOutputStreambuf σ) (h : (callDeflate C b flush s).2 = Z_OK) :
    C.measure flush (callDeflate C b flush s).1.m_zs (callDeflate C b flush s).1.zs_in.length
      < C.measure flush s.m_zs s.zs_in.length := by
  unfold callDeflate at h ⊢
  dsimp only at h ⊢
  rw [List.length_drop]
  exact C.progress _ _ _ _ h

/-- With as much fuel as the measure of the codec, the loop of `overflow` is left. -/
theorem overflowLoop_total (C : Codec σ) (b : Nat) :
    ∀ (fuel : Nat) (s : DeflateOutputStreambuf σ) (err : Int),
      (err = Z_OK → C.measure Z_NO_FLUSH s.m_zs s.zs_in.length < fuel) →
      (overflowLoop C b fuel s err).2 ≠ Outcome.diverge := by
  intro fuel
  induction fuel with
  | zero =>
    intro s err h
    rw [overflowLoop_zero]
    split_ifs with hc
    · exact absurd (h hc.2) (Nat.not_lt_zero _)
    · exact fun he => by cases he
  | succ n ih =>
    intro s err h
    rw [overflowLoop_succ]
    split_ifs with hc
    · obtain ⟨c1, c2, c3⟩ := flushIfFull_codec b s
      rcases hf : flushIfFull b s with ⟨t, u | e | _⟩
      · rw [Res.andThen_ok]
        rw [hf] at c1 c2
        apply ih
        intro hok
        have := callDeflate_measure C b Z_NO_FLUSH t hok
        rw [c1, c2] at this
        have h' := h hc.2
        omega
      · exact fun he => by cases he
      · exact absurd (by rw [hf]) c3
    · exact fun he => by cases he

/-- With as much fuel as the measure of the codec, the loop of `endDeflation` is left. -/
theorem finishLoop_total (C : Codec σ) (b : Nat) :
    ∀ (fuel : Nat) (s : DeflateOutputStreambuf σ) (err : Int),
      (err = Z_OK → C.measure Z_FINISH s.m_zs s.zs_in.length < fuel) →
      (finishLoop C b fuel s err).2 ≠ Outcome.diverge := by
  intro fuel
  induction fuel with
  | zero =>
    intro s err h
    rw [finishLoop_zero]
    split_ifs with hc
    · exact absurd (h hc) (Nat.not_lt_zero _)
    · exact fun he => by cases he
  | succ n ih =>
    intro s err h
    rw [finishLoop_succ]
    split_ifs with hc
    · obtain ⟨c1, c2, c3⟩ := flushIfFull_codec b s
      rcases hf : flushIfFull b s with ⟨t, u | e | _⟩
      · rw [Res.andThen_ok]
        rw [hf] at c1 c2
        apply ih
        intro hok
        have := callDeflate_measure C b Z_FINISH t hok
        rw [c1, c2] at this
        have h' := h hc
        omega
      · exact fun he => by cases he
      · exact absurd (by rw [hf]) c3
    · exact fun he => by cases he

/-- The call `overflow(c)` ends: it returns or throws. -/
theorem overflow_total (C : Codec σ) (b : Nat) (c : Option Byte) (s : DeflateOutputStreambuf σ) :
    (overflow C b c s).2 ≠ Outcome.diverge := by
  have nd := overflowLoop_total C b (C.measure Z_NO_FLUSH s.m_zs s.put.length + 1)
    ({ s with
        zs_in := s.put
        m_crc32 := crc32 s.m_crc32 s.put
        m_overflown_bytes := s.m_overflown_bytes + s.put.length
        outvec := [] } : DeflateOutputStreambuf σ) Z_OK (fun _ => Nat.lt_succ_self _)
  unfold overflow
  dsimp only
  generalize overflowLoop C b (C.measure Z_NO_FLUSH s.m_zs s.put.length + 1)
    ({ s with
        zs_in := s.put
        m_crc32 := crc32 s.m_crc32 s.put
        m_overflown_bytes := s.m_overflown_bytes + s.put.length
        outvec := [] } : DeflateOutputStreambuf σ) Z_OK = r at nd
  rcases r with ⟨s2, err | e | _⟩
  · rw [Res.andThen_ok]
    have hf := (flushOutvec_codec b s2).2.2
    generalize flushOutvec b s2 = r3 at hf
    rcases r3 with ⟨s3, u | e | _⟩
    · rw [Res.andThen_ok]
      split_ifs
      · exact fun he => by cases he
      · cases c <;> exact fun he => by cases he
    · exact fun he => by cases he
    · exact absurd rfl hf
  · exact fun he => by cases he
  · exact absurd rfl nd

/-- The call `endDeflation()` ends: it returns or throws. -/
theorem endDeflation_total (C : Codec σ) (b : Nat) (s : DeflateOutputStreambuf σ) :
    (endDeflation C b s).2 ≠ Outcome.diverge := by
  have h1 := overflow_total C b none s
  unfold endDeflation
  generalize overflow C b none s = r at h1
  rcases r with ⟨s1, v | e | _⟩
  · rw [Res.andThen_ok]
    have key : ∀ r3 : Res σ Int, r3.2 ≠ Outcome.diverge →
        (Res.andThen r3 fun s3 err =>
            Res.andThen (flushOutvec b s3) fun s4 _ =>
              if err ≠ Z_STREAM_END then
                ({ s4 with reported := s4.reported ++ [err] }, Outcome.ok ())
              else (s4, Outcome.ok ())).2 ≠ Outcome.diverge := by
      intro r3 nd
      rcases r3 with ⟨s3, err | e | _⟩
      · rw [Res.andThen_ok]
        have hf := (flushOutvec_codec b s3).2.2
        generalize flushOutvec b s3 = r4 at hf
        rcases r4 with ⟨s4, u | e | _⟩
        · rw [Res.andThen_ok]
          split_ifs <;> exact fun he => by cases he
        · exact fun he => by cases he
        · exact absurd rfl hf
      · exact fun he => by cases he
      · exact absurd rfl nd
    dsimp only
    split_ifs
    · exact key _ (finishLoop_total C b _ _ Z_OK (fun _ => Nat.lt_succ_self _))
    · exact key _ (fun he => by cases he)
  · exact fun he => by cases he
  · exact absurd rfl h1

/-- The call `closeStream()` ends: it returns or throws. -/
theorem closeStream_total (C : Codec σ) (b : Nat) (s : DeflateOutputStreambuf σ) :
    (closeStream C b s).2 ≠ Outcome.diverge := by
  unfold closeStream
  split_ifs
  · have h1 := endDeflation_total C b
      ({ s with m_zs_initialized := false } : DeflateOutputStreambuf σ)
    generalize endDeflation C b ({ s with m_zs_initialized := false }) = r at h1
    rcases r with ⟨s1, v | e | _⟩
    · rw [Res.andThen_ok]
      dsimp only
      split_ifs <;> exact fun he => by cases he
    · exact fun he => by cases he
    · exact absurd rfl h1
  · exact fun he => by cases he

/-- The call `init(level)` ends: it returns or throws. -/
theorem init_total (C : Codec σ) (b : Nat) (level : Int) (s : DeflateOutputStreambuf σ) :
    (init C b level s).2 ≠ Outcome.diverge := by
  have h : ∀ z t, (initCodec C b z t).2 ≠ Outcome.diverge := by
    intro z t
    unfold initCodec
    dsimp only
    split_ifs <;> exact fun he => by cases he
  unfold init
  split_ifs
  all_goals first
    | exact h _ _
    | exact fun he => by cases he

/-- Every write ends: it returns or throws. -/
theorem write_total (C : Codec σ) (b : Nat) (w : Write) (s : DeflateOutputStreambuf σ) :
    (write C b w s).2 ≠ Outcome.diverge := by
  cases w with
  | sputc c =>
    unfold write sputc
    dsimp only
    split_ifs
    · exact fun he => by cases he
    · exact overflow_total C b (some c) s
  | overflow c => exact overflow_total C b c s

end Totality

/-! ## The initialized flag -/

section Lifecycle

variable {σ : Type}

open DeflateOutputStreambuf

theorem init_sets_initialized (C : Codec σ) (b : Nat) (level : Int)
    (s : DeflateOutputStreambuf σ) : (init C b level s).1.m_zs_initialized = true := by
  unfold init
  cases hs : s.m_zs_initialized
  · simp only [Bool.false_eq_true, if_false]
    split_ifs <;> first | rw [initCodec_initialized] | rfl
  · simpa using hs

theorem write_initialized (C : Codec σ) (b : Nat) (w : Write) (s : DeflateOutputStreambuf σ) :
    (write C b w s).1.m_zs_initialized = s.m_zs_initialized := by
  cases w with
  | sputc c =>
    unfold write sputc
    dsimp only
    split_ifs
    · rfl
    · exact (Prod.mk.inj (Prod.mk.inj (overflow_meter C b (some c) s)).2).2
  | overflow c =>
    exact (Prod.mk.inj (Prod.mk.inj (overflow_meter C b c s)).2).2

theorem writes_initialized (C : Codec σ) (b : Nat) (ws : List Write) :
    ∀ s : DeflateOutputStreambuf σ,
      (writes C b ws s).1.m_zs_initialized = s.m_zs_initialized := by
  induction ws with
  | nil => intro s; rfl
  | cons w ws ih =>
    intro s
    unfold writes
    dsimp only
    rw [ih, write_initialized]

/-- C8. Once `init` has been called, and whatever has been written since, a further `init`
throws the `std::logic_error` of double initialization, for every level, and leaves the
whole object as it was: CRC, byte count, bytes-to-skip, buffers, codec state and history. -/
theorem init_twice (C : Codec σ) (getBufferSize : Nat) (level0 level : Int) (ws : List Write)
    (s0 : DeflateOutputStreambuf σ) :
    init C getBufferSize level
        (writes C getBufferSize ws (init C getBufferSize level0 s0).1).1
      = ((writes C getBufferSize ws (init C getBufferSize level0 s0).1).1,
          Outcome.raise Exn.already_initialized)
    ∧ Exn.already_initialized.kind = ExnKind.logic_error := by
  refine ⟨?_, rfl⟩
  have h : (writes C getBufferSize ws (init C getBufferSize level0 s0).1).1.m_zs_initialized
      = true := by
    rw [writes_initialized, init_sets_initialized]
  generalize (writes C getBufferSize ws (init C getBufferSize level0 s0).1).1 = t at h
  unfold init
  rw [if_pos h]

/-- C9. After a `closeStream()`, however it ended, every further `closeStream()` and the
destructor return normally and leave the whole object unchanged: no codec call is added to
the history and the downstream buffer receives nothing.  The same holds on a filter that was
never initialized. -/
theorem closeStream_idempotent (C : Codec σ) (getBufferSize : Nat)
    (s : DeflateOutputStreambuf σ) (outbuf : Sink) :
    closeStream C getBufferSize (closeStream C getBufferSize s).1
      = ((closeStream C getBufferSize s).1, Outcome.ok ())
    ∧ destructor C getBufferSize (closeStream C getBufferSize s).1
      = ((closeStream C getBufferSize s).1, Outcome.ok ())
    ∧ closeStream C getBufferSize (construct C outbuf) = (construct C outbuf, Outcome.ok ()) := by
  have h := closeStream_not_initialized C getBufferSize s
  have key : closeStream C getBufferSize (closeStream C getBufferSize s).1
      = ((closeStream C getBufferSize s).1, Outcome.ok ()) := by
    generalize (closeStream C getBufferSize s).1 = t at h
    unfold closeStream
    rw [h]
    rfl
  exact ⟨key, key, rfl⟩

end Lifecycle

/-! ## An entry without data -/

section EmptyEntry

variable {σ : Type}

open DeflateOutputStreambuf

theorem crc32_empty (c : Nat) : crc32 c [] = c := by
  unfold crc32
  rw [List.foldl_nil, Nat.xor_cancel_right]

/-- Flushing an empty output buffer does nothing. -/
theorem flushOutvec_nil (b : Nat) (s : DeflateOutputStreambuf σ) (h : s.outvec = []) :
    flushOutvec b s = (s, Outcome.ok ()) := by
  obtain ⟨ob, zs, zi, ov, ini, pt, pc, crc, n, skip, calls, rep⟩ := s
  simp only at h
  subst h
  unfold flushOutvec flushWrite avail_out
  simp

/-- With nothing in the put area and a buffer of positive size, `overflow(EOF)` makes no
codec call and writes nothing: it only resets the buffers. -/
theorem overflow_eof_of_put_nil (C : Codec σ) (b : Nat) (hb : 0 < b)
    (s : DeflateOutputStreambuf σ) (h : s.put = []) :
    overflow C b none s
      = ({ s with zs_in := [], outvec := [], put_cap := b }, Outcome.ok 0) := by
  obtain ⟨ob, zs, zi, ov, ini, pt, pc, crc, n, skip, calls, rep⟩ := s
  simp only at h
  subst h
  unfold overflow
  simp only [List.length_nil, Nat.add_zero, crc32_empty]
  rw [overflowLoop_succ]
  have hb0 : b ≠ 0 := by omega
  simp [avail_out, hb0, flushOutvec_nil]

/-- With nothing in the put area and no byte counted, `endDeflation` makes no codec call and
writes nothing. -/
theorem endDeflation_of_nothing_written (C : Codec σ) (b : Nat) (hb : 0 < b)
    (s : DeflateOutputStreambuf σ) (h : s.put = []) (h0 : s.m_overflown_bytes = 0) :
    endDeflation C b s
      = ({ s with zs_in := [], outvec := [], put_cap := b }, Outcome.ok ()) := by
  unfold endDeflation
  rw [overflow_eof_of_put_nil C b hb s h]
  simp [h0, flushOutvec_nil]

/-- The object after a successful `initCodec`. -/
theorem initCodec_ok_state (C : Codec σ) (b : Nat) (z : Int) (s : DeflateOutputStreambuf σ)
    (v : Bool) (h : (initCodec C b z s).2 = Outcome.ok v) :
    (initCodec C b z s).1
      = { s with
          zs_in := []
          outvec := []
          m_zs := (C.deflateInit2 s.m_zs z).1
          calls := s.calls ++ [CodecCall.deflateInit2 z (C.deflateInit2 s.m_zs z).2]
          put := []
          put_cap := b
          m_crc32 := 0
          m_overflown_bytes := 0 } := by
  unfold initCodec at h ⊢
  dsimp only at h ⊢
  split_ifs at h ⊢
  simp only [crc32_nil]

/-- The object after a successful `init`: the codec was initialized with some level, the
buffers are empty, the CRC and the byte count are 0 and the bytes-to-skip counter is 5 for
NONE and 0 otherwise. -/
theorem init_ok_state (C : Codec σ) (b : Nat) (level : Int) (s : DeflateOutputStreambuf σ)
    (v : Bool) (hs : s.m_zs_initialized = false) (h : (init C b level s).2 = Outcome.ok v) :
    ∃ z : Int, (init C b level s).1
      = { s with
          m_zs_initialized := true
          m_bytes_to_skip := if level = FileEntry.COMPRESSION_LEVEL_NONE then 5 else 0
          zs_in := []
          outvec := []
          m_zs := (C.deflateInit2 s.m_zs z).1
          calls := s.calls ++ [CodecCall.deflateInit2 z (C.deflateInit2 s.m_zs z).2]
          put := []
          put_cap := b
          m_crc32 := 0
          m_overflown_bytes := 0 } := by
  unfold init at h ⊢
  rw [hs] at h ⊢
  simp only [Bool.false_eq_true, if_false] at h ⊢
  by_cases a1 : level = FileEntry.COMPRESSION_LEVEL_DEFAULT
  · have hn : level ≠ FileEntry.COMPRESSION_LEVEL_NONE := by rw [a1]; decide
    rw [if_pos a1] at h ⊢
    exact ⟨_, by rw [initCodec_ok_state C b _ _ v h, if_neg hn]⟩
  rw [if_neg a1] at h ⊢
  by_cases a2 : level = FileEntry.COMPRESSION_LEVEL_SMALLEST
  · have hn : level ≠ FileEntry.COMPRESSION_LEVEL_NONE := by rw [a2]; decide
    rw [if_pos a2] at h ⊢
    exact ⟨_, by rw [initCodec_ok_state C b _ _ v h, if_neg hn]⟩
  rw [if_neg a2] at h ⊢
  by_cases a3 : level = FileEntry.COMPRESSION_LEVEL_FASTEST
  · have hn : level ≠ FileEntry.COMPRESSION_LEVEL_NONE := by rw [a3]; decide
    rw [if_pos a3] at h ⊢
    exact ⟨_, by rw [initCodec_ok_state C b _ _ v h, if_neg hn]⟩
  rw [if_neg a3] at h ⊢
  by_cases a4 : level = FileEntry.COMPRESSION_LEVEL_NONE
  · rw [if_pos a4] at h ⊢
    exact ⟨_, by rw [initCodec_ok_state C b _ _ v h, if_pos a4]⟩
  rw [if_neg a4] at h ⊢
  by_cases a5 : level < FileEntry.COMPRESSION_LEVEL_MINIMUM
      ∨ level > FileEntry.COMPRESSION_LEVEL_MAXIMUM
  · rw [if_pos a5] at h
    cases h
  rw [if_neg a5] at h ⊢
  exact ⟨_, by rw [initCodec_ok_state C b _ _ v h, if_neg a4]⟩

/-- C2. Empty-entry emission: when `init(level)` succeeds on a filter that is not initialized
and `closeStream()` follows with no byte written, then, for a buffer of positive size, the
downstream buffer is untouched, the only codec calls made are the `deflateInit2` and the
`deflateEnd` (no `deflate` step), and `getSize()` and `getCrc32()` are 0; `closeStream()`
ends (it returns, or throws on the status of `deflateEnd`). -/
theorem empty_entry (C : Codec σ) (getBufferSize : Nat) (hb : 0 < getBufferSize) (level : Int)
    (s : DeflateOutputStreambuf σ) (hs : s.m_zs_initialized = false)
    (hinit : (init C getBufferSize level s).2 = Outcome.ok true) :
    (closeStream C getBufferSize (init C getBufferSize level s).1).2 ≠ Outcome.diverge
    ∧ (closeStream C getBufferSize (init C getBufferSize level s).1).1.m_outbuf = s.m_outbuf
    ∧ (∃ z e1 e2, (closeStream C getBufferSize (init C getBufferSize level s).1).1.calls
        = s.calls ++ [CodecCall.deflateInit2 z e1, CodecCall.deflateEnd e2])
    ∧ (∀ c ∈ (closeStream C getBufferSize (init C getBufferSize level s).1).1.calls,
        c.isDeflate = true → c ∈ s.calls)
    ∧ getSize (closeStream C getBufferSize (init C getBufferSize level s).1).1 = 0
    ∧ getCrc32 (closeStream C getBufferSize (init C getBufferSize level s).1).1 = 0
    ∧ crc32 0 [] = 0 := by
  refine ⟨closeStream_total C getBufferSize _, ?_⟩
  obtain ⟨z, hz⟩ := init_ok_state C getBufferSize level s true hs hinit
  rw [hz]
  unfold closeStream
  simp only [if_true]
  rw [endDeflation_of_nothing_written C getBufferSize hb _ rfl rfl]
  simp only [Res.andThen_ok]
  refine ⟨?_, ⟨z, (C.deflateInit2 s.m_zs z).2,
    (C.deflateEnd (C.deflateInit2 s.m_zs z).1).2, ?_⟩, ?_, ?_, ?_, crc32_nil⟩
  · split_ifs <;> rfl
  · split_ifs <;> simp
  · intro c hc hd
    have hc2 : c ∈ s.calls ++ [CodecCall.deflateInit2 z (C.deflateInit2 s.m_zs z).2,
        CodecCall.deflateEnd (C.deflateEnd (C.deflateInit2 s.m_zs z).1).2] := by
      split_ifs at hc <;> simpa using hc
    rcases List.mem_append.1 hc2 with h | h
    · exact h
    · simp only [List.mem_cons, List.mem_singleton, List.not_mem_nil, or_false] at h
      rcases h with h | h <;> subst h <;> simp [CodecCall.isDeflate] at hd
  · split_ifs <;> rfl
  · split_ifs <;> rfl

end EmptyEntry

/-! ## CRC-32 and size of the payload -/

section Payload

variable {σ : Type}

open DeflateOutputStreambuf

theorem Res.andThen_eq_ok {α β : Type} {r : Res σ α}
    {f : DeflateOutputStreambuf σ → α → Res σ β} {v : β}
    (h : (Res.andThen r f).2 = Outcome.ok v) :
    ∃ s a, r = (s, Outcome.ok a) ∧ (f s a).2 = Outcome.ok v := by
  rcases r with ⟨s, a | e | _⟩
  · exact ⟨s, a, rfl, h⟩
  · cases h
  · cases h

/-- When `overflow(c)` returns, the put area holds `c` alone, or nothing for `EOF`. -/
theorem overflow_ok_put (C : Codec σ) (b : Nat) (c : Option Byte)
    (s : DeflateOutputStreambuf σ) (v : Int) (h : (overflow C b c s).2 = Outcome.ok v) :
    (overflow C b c s).1.put = c.toList ∧ (overflow C b c s).1.put_cap = b := by
  unfold overflow at h ⊢
  dsimp only at h ⊢
  obtain ⟨s2, err, h2, h⟩ := Res.andThen_eq_ok h
  rw [h2]
  simp only [Res.andThen_ok] at h ⊢
  obtain ⟨s3, u, h3, h⟩ := Res.andThen_eq_ok h
  rw [h3]
  simp only [Res.andThen_ok] at h ⊢
  split_ifs at h ⊢
  cases c <;> exact ⟨rfl, rfl⟩

theorem payload_cons (w : Write) (ws : List Write) :
    Write.payload (w :: ws) = Write.payload [w] ++ Write.payload ws := by
  cases w with
  | sputc c => rfl
  | overflow c => cases c <;> rfl

/-- A write that returns adds its byte to what the CRC and the byte count, extended over the
put area, cover. -/
theorem write_ok_account (C : Codec σ) (b : Nat) (w : Write) (s : DeflateOutputStreambuf σ)
    (h : (write C b w s).2.isOk = true) :
    crc32 (write C b w s).1.m_crc32 (write C b w s).1.put
        = crc32 (crc32 s.m_crc32 s.put) (Write.payload [w])
    ∧ (write C b w s).1.m_overflown_bytes + (write C b w s).1.put.length
        = s.m_overflown_bytes + s.put.length + (Write.payload [w]).length := by
  have key : ∀ c : Option Byte, (overflow C b c s).2.isOk = true →
      crc32 (overflow C b c s).1.m_crc32 (overflow C b c s).1.put
          = crc32 (crc32 s.m_crc32 s.put) c.toList
      ∧ (overflow C b c s).1.m_overflown_bytes + (overflow C b c s).1.put.length
          = s.m_overflown_bytes + s.put.length + c.toList.length := by
    intro c hc
    have hm := overflow_meter C b c s
    unfold meter at hm
    have h1 := (Prod.mk.inj hm).1
    have h2 := (Prod.mk.inj (Prod.mk.inj hm).2).1
    cases hv : (overflow C b c s).2 with
    | ok v =>
      have hp := (overflow_ok_put C b c s v hv).1
      rw [h1, h2, hp]
      exact ⟨rfl, rfl⟩
    | raise e => rw [hv] at hc; cases hc
    | diverge => rw [hv] at hc; cases hc
  cases w with
  | sputc c =>
    unfold write sputc at h ⊢
    dsimp only at h ⊢
    split_ifs at h ⊢
    · refine ⟨?_, ?_⟩
      · exact (crc32_append _ _ _).symm
      · simp only [List.length_append, Write.payload, List.length_singleton]
        omega
    · exact key (some c) h
  | overflow c =>
    cases c with
    | none => exact key none h
    | some c => exact key (some c) h

theorem writes_ok_account (C : Codec σ) (b : Nat) (ws : List Write) :
    ∀ s : DeflateOutputStreambuf σ, (writes C b ws s).2 = true →
      crc32 (writes C b ws s).1.m_crc32 (writes C b ws s).1.put
          = crc32 (crc32 s.m_crc32 s.put) (Write.payload ws)
      ∧ (writes C b ws s).1.m_overflown_bytes + (writes C b ws s).1.put.length
          = s.m_overflown_bytes + s.put.length + (Write.payload ws).length := by
  induction ws with
  | nil =>
    intro s _
    exact ⟨(crc32_empty _).symm, rfl⟩
  | cons w ws ih =>
    intro s h
    unfold writes at h ⊢
    dsimp only at h ⊢
    rw [Bool.and_eq_true] at h
    obtain ⟨a1, a2⟩ := ih _ h.2
    obtain ⟨b1, b2⟩ := write_ok_account C b w s h.1
    rw [payload_cons]
    refine ⟨?_, ?_⟩
    · rw [a1, b1, crc32_append]
    · rw [a2, b2, List.length_append]
      omega

/-- C3. When `init` succeeds and every write of a sequence carrying the payload `P` returns,
then `closeStream()` ends and afterwards, whether it returned or threw, `getCrc32()` is the
CRC-32 of `P` computed in one pass from `crc32(0)`; the value depends on `P` only, not on the buffer size or on the places
where `overflow` ran. -/
theorem crc_of_payload (C : Codec σ) (getBufferSize : Nat) (_hb : 0 < getBufferSize)
    (level : Int) (ws : List Write) (s0 : DeflateOutputStreambuf σ)
    (hs : s0.m_zs_initialized = false)
    (hinit : (init C getBufferSize level s0).2 = Outcome.ok true)
    (hws : (writes C getBufferSize ws (init C getBufferSize level s0).1).2 = true) :
    (closeStream C getBufferSize
        (writes C getBufferSize ws (init C getBufferSize level s0).1).1).2 ≠ Outcome.diverge
    ∧ getCrc32 (closeStream C getBufferSize
        (writes C getBufferSize ws (init C getBufferSize level s0).1).1).1
      = crc32 0 (Write.payload ws) := by
  refine ⟨closeStream_total C getBufferSize _, ?_⟩
  have hflag := (writes_initialized C getBufferSize ws (init C getBufferSize level s0).1).trans
    (init_sets_initialized C getBufferSize level s0)
  have hm := closeStream_meter C getBufferSize _ hflag
  obtain ⟨a1, -⟩ := writes_ok_account C getBufferSize ws _ hws
  obtain ⟨z, hz⟩ := init_ok_state C getBufferSize level s0 true hs hinit
  unfold meter at hm
  unfold getCrc32
  rw [(Prod.mk.inj hm).1, a1, hz]
  simp only [crc32_empty]

/-- C4. When `init` succeeds and every write of a sequence carrying the payload `P` returns,
then `closeStream()` ends and afterwards, whether it returned or threw, `getSize()` is the
length of `P`; before
`closeStream()`, `getSize()` plus the number of bytes pending in the put area is the length
of `P`, so `getSize()` is at most that length. -/
theorem size_of_payload (C : Codec σ) (getBufferSize : Nat) (_hb : 0 < getBufferSize)
    (level : Int) (ws : List Write) (s0 : DeflateOutputStreambuf σ)
    (hs : s0.m_zs_initialized = false)
    (hinit : (init C getBufferSize level s0).2 = Outcome.ok true)
    (hws : (writes C getBufferSize ws (init C getBufferSize level s0).1).2 = true) :
    (closeStream C getBufferSize
        (writes C getBufferSize ws (init C getBufferSize level s0).1).1).2 ≠ Outcome.diverge
    ∧ getSize (closeStream C getBufferSize
        (writes C getBufferSize ws (init C getBufferSize level s0).1).1).1
      = (Write.payload ws).length
    ∧ getSize (writes C getBufferSize ws (init C getBufferSize level s0).1).1
        + (writes C getBufferSize ws (init C getBufferSize level s0).1).1.put.length
      = (Write.payload ws).length
    ∧ getSize (writes C getBufferSize ws (init C getBufferSize level s0).1).1
      ≤ (Write.payload ws).length := by
  have hflag := (writes_initialized C getBufferSize ws (init C getBufferSize level s0).1).trans
    (init_sets_initialized C getBufferSize level s0)
  have hm := closeStream_meter C getBufferSize _ hflag
  obtain ⟨-, a2⟩ := writes_ok_account C getBufferSize ws _ hws
  obtain ⟨z, hz⟩ := init_ok_state C getBufferSize level s0 true hs hinit
  unfold meter at hm
  have h2 := (Prod.mk.inj (Prod.mk.inj hm).2).1
  refine ⟨closeStream_total C getBufferSize _, ?_⟩
  unfold getSize
  rw [h2]
  rw [hz] at a2 ⊢
  simp only [List.length_nil, Nat.add_zero, Nat.zero_add] at a2
  exact ⟨a2, a2, by omega⟩

end Payload

/-! ## What reaches the downstream buffer -/

section Delivery

variable {σ : Type}

open DeflateOutputStreambuf

theorem emitted_append (a b : List CodecCall) : emitted (a ++ b) = emitted a ++ emitted b := by
  induction a with
  | nil => rfl
  | cons c cs ih =>
    show c.produced ++ emitted (cs ++ b) = (c.produced ++ emitted cs) ++ emitted b
    rw [ih, List.append_assoc]

/-- On a downstream buffer that accepts every byte, `flushOutvec` returns, empties the output
buffer and passes its content on, less the bytes still to skip. -/
theorem flushOutvec_good (b k : Nat) (d e0 : List Byte) (s : DeflateOutputStreambuf σ)
    (h : Good b k d e0 s) :
    ∃ t, flushOutvec b s = (t, Outcome.ok ()) ∧ Clean b k d e0 t ∧ t.calls = s.calls
      ∧ t.m_zs = s.m_zs ∧ t.zs_in = s.zs_in := by
  obtain ⟨ob, zs, zi, ov, ini, pt, pc, crc, n, skip, calls, rep⟩ := s
  obtain ⟨data, room⟩ := ob
  obtain ⟨hroom, hlen, f, he, hd, hk⟩ := h
  simp only at hroom hlen he hd hk
  subst hroom
  have hsub : b - (b - ov.length) = ov.length := Nat.sub_sub_self hlen
  unfold flushOutvec flushWrite avail_out Sink.sputn
  simp only [hsub]
  by_cases h1 : skip > 0
  · rw [if_pos h1]
    by_cases h2 : ov.length > skip
    · rw [if_pos h2]
      have h3 : ov.length - skip > 0 := by omega
      have h4 : (List.drop (0 + skip) ov).length = ov.length - skip := by
        rw [List.length_drop]; omega
      rw [if_pos h3]
      simp only [List.take_of_length_le (Nat.le_of_eq h4), h4]
      simp only [ne_eq, not_true_eq_false, if_false]
      refine ⟨_, rfl, ⟨⟨rfl, Nat.zero_le _, f ++ ov, ?_, ?_, ?_⟩, rfl⟩, rfl, rfl, rfl⟩
      · simp only [he, List.append_nil, List.append_assoc]
      · simp only [hd, List.drop_append_eq_append_drop, List.append_assoc, Nat.zero_add]
        rw [hk]
      · simp only [List.length_append]
        omega
    · rw [if_neg h2]
      simp only [gt_iff_lt, Nat.lt_irrefl, if_false]
      refine ⟨_, rfl, ⟨⟨rfl, Nat.zero_le _, f ++ ov, ?_, ?_, ?_⟩, rfl⟩, rfl, rfl, rfl⟩
      · simp only [he, List.append_nil, List.append_assoc]
      · simp only [hd, List.drop_append_eq_append_drop]
        have hnil : List.drop (k - f.length) ov = [] := List.drop_eq_nil_of_le (by omega)
        rw [hnil, List.append_nil]
      · simp only [List.length_append]
        omega
  · rw [if_neg h1]
    have hf : k ≤ f.length := by omega
    by_cases h3 : ov.length > 0
    · rw [if_pos h3]
      simp only [List.drop_zero, List.take_length, ne_eq, not_true_eq_false, if_false]
      refine ⟨_, rfl, ⟨⟨rfl, Nat.zero_le _, f ++ ov, ?_, ?_, ?_⟩, rfl⟩, rfl, rfl, rfl⟩
      · simp only [he, List.append_nil, List.append_assoc]
      · simp only [hd, List.drop_append_of_le_length hf, List.append_assoc]
      · simp only [List.length_append]
        omega
    · rw [if_neg h3]
      have h5 : ov = [] := List.eq_nil_of_length_eq_zero (by omega)
      subst h5
      refine ⟨_, rfl, ⟨⟨rfl, Nat.zero_le _, f, ?_, ?_, ?_⟩, rfl⟩, rfl, rfl, rfl⟩
      · simpa using he
      · exact hd
      · show skip = k - f.length
        omega

/-- The bookkeeping only looks at the downstream buffer, the output buffer, the history and
the bytes-to-skip counter. -/
theorem Good_congr {b k : Nat} {d e0 : List Byte} {s t : DeflateOutputStreambuf σ}
    (h : Good b k d e0 s) (h1 : t.m_outbuf = s.m_outbuf) (h2 : t.outvec = s.outvec)
    (h3 : t.calls = s.calls) (h4 : t.m_bytes_to_skip = s.m_bytes_to_skip) :
    Good b k d e0 t := by
  unfold Good at h ⊢
  rw [h1, h2, h3, h4]
  exact h

theorem Clean_congr {b k : Nat} {d e0 : List Byte} {s t : DeflateOutputStreambuf σ}
    (h : Clean b k d e0 s) (h1 : t.m_outbuf = s.m_outbuf) (h2 : t.outvec = s.outvec)
    (h3 : t.calls = s.calls) (h4 : t.m_bytes_to_skip = s.m_bytes_to_skip) :
    Clean b k d e0 t :=
  ⟨Good_congr h.1 h1 h2 h3 h4, h2.trans h.2⟩

theorem flushIfFull_good (b k : Nat) (d e0 : List Byte) (s : DeflateOutputStreambuf σ)
    (h : Good b k d e0 s) :
    ∃ t, flushIfFull b s = (t, Outcome.ok ()) ∧ Good b k d e0 t ∧ t.calls = s.calls
      ∧ t.m_zs = s.m_zs ∧ t.zs_in = s.zs_in := by
  unfold flushIfFull
  split_ifs
  · obtain ⟨t, h1, h2, h3⟩ := flushOutvec_good b k d e0 s h
    exact ⟨t, h1, h2.1, h3⟩
  · exact ⟨s, rfl, h, rfl, rfl, rfl⟩

theorem callDeflate_good (C : Codec σ) (b k : Nat) (d e0 : List Byte) (flush : Int)
    (s : DeflateOutputStreambuf σ) (h : Good b k d e0 s) :
    Good b k d e0 (callDeflate C b flush s).1 := by
  obtain ⟨hroom, hlen, f, he, hd, hk⟩ := h
  unfold callDeflate
  refine ⟨hroom, ?_, f, ?_, hd, hk⟩
  · simp only [List.length_append, List.length_take, avail_out]
    omega
  · simp only [emitted_append, he, emitted, CodecCall.produced, List.append_nil,
      List.append_assoc]

/-- The result of a loop: the bookkeeping holds and nothing was thrown. -/
theorem overflowLoop_good (C : Codec σ) (b k : Nat) (d e0 : List Byte) :
    ∀ (fuel : Nat) (s : DeflateOutputStreambuf σ) (err : Int), Good b k d e0 s →
      Good b k d e0 (overflowLoop C b fuel s err).1
        ∧ ∀ e, (overflowLoop C b fuel s err).2 ≠ Outcome.raise e := by
  intro fuel
  induction fuel with
  | zero =>
    intro s err h
    rw [overflowLoop_zero]
    split_ifs
    · exact ⟨h, fun e he => by cases he⟩
    · exact ⟨h, fun e he => by cases he⟩
  | succ n ih =>
    intro s err h
    rw [overflowLoop_succ]
    split_ifs
    · obtain ⟨t, h1, h2, -⟩ := flushIfFull_good b k d e0 s h
      rw [h1, Res.andThen_ok]
      exact ih _ _ (callDeflate_good C b k d e0 _ t h2)
    · exact ⟨h, fun e he => by cases he⟩

theorem finishLoop_good (C : Codec σ) (b k : Nat) (d e0 : List Byte) :
    ∀ (fuel : Nat) (s : DeflateOutputStreambuf σ) (err : Int), Good b k d e0 s →
      Good b k d e0 (finishLoop C b fuel s err).1
        ∧ ∀ e, (finishLoop C b fuel s err).2 ≠ Outcome.raise e := by
  intro fuel
  induction fuel with
  | zero =>
    intro s err h
    rw [finishLoop_zero]
    split_ifs
    · exact ⟨h, fun e he => by cases he⟩
    · exact ⟨h, fun e he => by cases he⟩
  | succ n ih =>
    intro s err h
    rw [finishLoop_succ]
    split_ifs
    · obtain ⟨t, h1, h2, -⟩ := flushIfFull_good b k d e0 s h
      rw [h1, Res.andThen_ok]
      exact ih _ _ (callDeflate_good C b k d e0 _ t h2)
    · exact ⟨h, fun e he => by cases he⟩

/-! ### The member functions keep the bookkeeping -/

/-- On a downstream buffer that accepts every byte, `overflow` ends (it returns 0 or throws
"Deflation failed") with the output buffer flushed. -/
theorem overflow_clean (C : Codec σ) (b k : Nat) (d e0 : List Byte) (c : Option Byte)
    (s : DeflateOutputStreambuf σ) (h : Clean b k d e0 s) :
    Clean b k d e0 (overflow C b c s).1
      ∧ ((overflow C b c s).2 = Outcome.ok 0
          ∨ ∃ err, (overflow C b c s).2 = Outcome.raise (Exn.deflation_failed err)) := by
  have g1 : Good b k d e0
      ({ s with
          zs_in := s.put
          m_crc32 := crc32 s.m_crc32 s.put
          m_overflown_bytes := s.m_overflown_bytes + s.put.length
          outvec := [] } : DeflateOutputStreambuf σ) :=
    Good_congr h.1 rfl h.2.symm rfl rfl
  obtain ⟨g2, nr⟩ := overflowLoop_good C b k d e0
    (C.measure Z_NO_FLUSH s.m_zs s.put.length + 1) _ Z_OK g1
  have nd := overflowLoop_total C b (C.measure Z_NO_FLUSH s.m_zs s.put.length + 1)
    ({ s with
        zs_in := s.put
        m_crc32 := crc32 s.m_crc32 s.put
        m_overflown_bytes := s.m_overflown_bytes + s.put.length
        outvec := [] } : DeflateOutputStreambuf σ) Z_OK (fun _ => Nat.lt_succ_self _)
  unfold overflow
  dsimp only
  generalize overflowLoop C b (C.measure Z_NO_FLUSH s.m_zs s.put.length + 1)
    ({ s with
        zs_in := s.put
        m_crc32 := crc32 s.m_crc32 s.put
        m_overflown_bytes := s.m_overflown_bytes + s.put.length
        outvec := [] } : DeflateOutputStreambuf σ) Z_OK = r at g2 nr nd
  rcases r with ⟨s2, err | e | _⟩
  · obtain ⟨s3, hf, c3, -⟩ := flushOutvec_good b k d e0 s2 g2
    rw [Res.andThen_ok, hf, Res.andThen_ok]
    split_ifs
    · exact ⟨Clean_congr c3 rfl rfl rfl rfl, Or.inr ⟨err, rfl⟩⟩
    · cases c with
      | none => exact ⟨Clean_congr c3 rfl rfl rfl rfl, Or.inl rfl⟩
      | some x => exact ⟨Clean_congr c3 rfl rfl rfl rfl, Or.inl rfl⟩
  · exact absurd rfl (nr e)
  · exact absurd rfl nd

/-- On a downstream buffer that accepts every byte, `endDeflation` ends with the output
buffer flushed. -/
theorem endDeflation_clean (C : Codec σ) (b k : Nat) (d e0 : List Byte)
    (s : DeflateOutputStreambuf σ) (h : Clean b k d e0 s) :
    Clean b k d e0 (endDeflation C b s).1
      ∧ ((endDeflation C b s).2 = Outcome.ok ()
          ∨ ∃ err, (endDeflation C b s).2 = Outcome.raise (Exn.deflation_failed err)) := by
  obtain ⟨c1, o1⟩ := overflow_clean C b k d e0 none s h
  unfold endDeflation
  generalize overflow C b none s = r at c1 o1
  rcases r with ⟨s1, v | e | _⟩
  · rw [Res.andThen_ok]
    have g2 : Good b k d e0 ({ s1 with outvec := [] } : DeflateOutputStreambuf σ) :=
      Good_congr c1.1 rfl c1.2.symm rfl rfl
    have key : ∀ r3 : Res σ Int, Good b k d e0 r3.1 → (∀ e, r3.2 ≠ Outcome.raise e) →
        r3.2 ≠ Outcome.diverge →
        Clean b k d e0 (Res.andThen r3 fun s3 err =>
            Res.andThen (flushOutvec b s3) fun s4 _ =>
              if err ≠ Z_STREAM_END then
                ({ s4 with reported := s4.reported ++ [err] }, Outcome.ok ())
              else (s4, Outcome.ok ())).1
          ∧ (Res.andThen r3 fun s3 err =>
            Res.andThen (flushOutvec b s3) fun s4 _ =>
              if err ≠ Z_STREAM_END then
                ({ s4 with reported := s4.reported ++ [err] }, Outcome.ok ())
              else (s4, Outcome.ok ())).2 = Outcome.ok () := by
      intro r3 g3 nr nd
      rcases r3 with ⟨s3, err | e | _⟩
      · obtain ⟨s4, hf, c4, -⟩ := flushOutvec_good b k d e0 s3 g3
        rw [Res.andThen_ok, hf, Res.andThen_ok]
        split_ifs
        · exact ⟨Clean_congr c4 rfl rfl rfl rfl, rfl⟩
        · exact ⟨c4, rfl⟩
      · exact absurd rfl (nr e)
      · exact absurd rfl nd
    dsimp only
    split_ifs
    · obtain ⟨g3, nr⟩ := finishLoop_good C b k d e0
        (C.measure Z_FINISH s1.m_zs s1.zs_in.length + 1) _ Z_OK g2
      have nd := finishLoop_total C b (C.measure Z_FINISH s1.m_zs s1.zs_in.length + 1)
        ({ s1 with outvec := [] } : DeflateOutputStreambuf σ) Z_OK
        (fun _ => Nat.lt_succ_self _)
      have := key _ g3 nr nd
      exact ⟨this.1, Or.inl this.2⟩
    · have := key (({ s1 with outvec := [] } : DeflateOutputStreambuf σ), Outcome.ok Z_STREAM_END)
        g2 (fun e he => by cases he) (fun he => by cases he)
      exact ⟨this.1, Or.inl this.2⟩
  · rw [Res.andThen_raise]
    rcases o1 with o1 | ⟨err, o1⟩
    · cases o1
    · cases o1
      exact ⟨c1, Or.inr ⟨err, rfl⟩⟩
  · rcases o1 with o1 | ⟨err, o1⟩
    · cases o1
    · cases o1

/-- On a downstream buffer that accepts every byte, `closeStream` ends with the output buffer
flushed; `deflateEnd` emits nothing. -/
theorem closeStream_clean (C : Codec σ) (b k : Nat) (d e0 : List Byte)
    (s : DeflateOutputStreambuf σ) (h : Clean b k d e0 s) :
    Clean b k d e0 (closeStream C b s).1 ∧ (closeStream C b s).2 ≠ Outcome.diverge := by
  unfold closeStream
  split_ifs
  · obtain ⟨c1, o1⟩ := endDeflation_clean C b k d e0
      ({ s with m_zs_initialized := false } : DeflateOutputStreambuf σ)
      (Clean_congr h rfl rfl rfl rfl)
    generalize endDeflation C b ({ s with m_zs_initialized := false }) = r at c1 o1
    rcases r with ⟨s1, v | e | _⟩
    · rw [Res.andThen_ok]
      dsimp only
      have c2 : Clean b k d e0
          ({ s1 with
              m_zs := (C.deflateEnd s1.m_zs).1
              calls := s1.calls ++ [CodecCall.deflateEnd (C.deflateEnd s1.m_zs).2] } :
            DeflateOutputStreambuf σ) := by
        obtain ⟨⟨hroom, hlen, f, he, hd, hk⟩, hov⟩ := c1
        refine ⟨⟨hroom, hlen, f, ?_, hd, hk⟩, hov⟩
        simp only [emitted_append, he, emitted, CodecCall.produced, List.append_nil]
      split_ifs
      · exact ⟨c2, fun he => by cases he⟩
      · exact ⟨c2, fun he => by cases he⟩
    · exact ⟨c1, fun he => by cases he⟩
    · rcases o1 with o1 | ⟨err, o1⟩ <;> cases o1
  · exact ⟨h, fun he => by cases he⟩

theorem write_clean (C : Codec σ) (b k : Nat) (d e0 : List Byte) (w : Write)
    (s : DeflateOutputStreambuf σ) (h : Clean b k d e0 s) :
    Clean b k d e0 (write C b w s).1 := by
  cases w with
  | sputc c =>
    unfold write sputc
    dsimp only
    split_ifs
    · exact Clean_congr h rfl rfl rfl rfl
    · exact (overflow_clean C b k d e0 (some c) s h).1
  | overflow c => exact (overflow_clean C b k d e0 c s h).1

theorem writes_clean (C : Codec σ) (b k : Nat) (d e0 : List Byte) (ws : List Write) :
    ∀ s : DeflateOutputStreambuf σ, Clean b k d e0 s → Clean b k d e0 (writes C b ws s).1 := by
  induction ws with
  | nil => intro s h; exact h
  | cons w ws ih =>
    intro s h
    unfold writes
    exact ih _ (write_clean C b k d e0 w s h)

theorem initCodec_clean (C : Codec σ) (b k : Nat) (z : Int) (s : DeflateOutputStreambuf σ)
    (hroom : s.m_outbuf.room = none) (hk : s.m_bytes_to_skip = k) :
    Clean b k s.m_outbuf.data (emitted s.calls) (initCodec C b z s).1 := by
  unfold initCodec
  dsimp only
  split_ifs
  · refine ⟨⟨hroom, Nat.zero_le _, [], ?_, ?_, ?_⟩, rfl⟩
    · simp [emitted_append, emitted, CodecCall.produced]
    · simp
    · simpa using hk
  · refine ⟨⟨hroom, Nat.zero_le _, [], ?_, ?_, ?_⟩, rfl⟩
    · simp [emitted_append, emitted, CodecCall.produced]
    · simp
    · simpa using hk

/-- After `init(level)`, successful or not, on a filter that is not initialized and whose
output buffer is empty, the bookkeeping starts with 5 bytes to skip for NONE and none
otherwise. -/
theorem init_clean (C : Codec σ) (b : Nat) (level : Int) (s : DeflateOutputStreambuf σ)
    (hs : s.m_zs_initialized = false) (hroom : s.m_outbuf.room = none)
    (hov : s.outvec = []) :
    Clean b (if level = FileEntry.COMPRESSION_LEVEL_NONE then 5 else 0) s.m_outbuf.data
      (emitted s.calls) (init C b level s).1 := by
  unfold init
  rw [hs]
  simp only [Bool.false_eq_true, if_false]
  by_cases a4 : level = FileEntry.COMPRESSION_LEVEL_NONE
  · rw [if_pos a4, if_pos a4]
    subst a4
    rw [if_neg (by decide), if_neg (by decide), if_neg (by decide)]
    exact initCodec_clean C b 5 _ _ hroom rfl
  · rw [if_neg a4, if_neg a4]
    split_ifs
    · exact initCodec_clean C b 0 _ _ hroom rfl
    · exact initCodec_clean C b 0 _ _ hroom rfl
    · exact initCodec_clean C b 0 _ _ hroom rfl
    · refine ⟨⟨hroom, by simp [hov], [], ?_, ?_, ?_⟩, hov⟩
      · simp [hov]
      · simp
      · rfl
    · exact initCodec_clean C b 0 _ _ hroom rfl

/-- C1. Take a filter that is not initialized, with an empty output buffer, on a downstream
buffer that accepts every byte.  After `init(level)`, any sequence of writes and
`closeStream()`, whatever any of these calls threw, the session has ended and the codec has
emitted some sequence `e`
of bytes since the start (the history of emitted bytes is the old one followed by `e`), and
the downstream buffer has received exactly `e` without its first `k` bytes, where `k` is 5
for NONE and 0 for every other level; when `e` has at most `k` bytes nothing was delivered. -/
theorem delivered_is_emitted_after_skip (C : Codec σ) (getBufferSize : Nat) (level : Int)
    (ws : List Write) (s : DeflateOutputStreambuf σ)
    (hs : s.m_zs_initialized = false) (hroom : s.m_outbuf.room = none)
    (hov : s.outvec = []) :
    (closeStream C getBufferSize
        (writes C getBufferSize ws (init C getBufferSize level s).1).1).2 ≠ Outcome.diverge
    ∧ ∃ e : List Byte,
      emitted (closeStream C getBufferSize
          (writes C getBufferSize ws (init C getBufferSize level s).1).1).1.calls
        = emitted s.calls ++ e
      ∧ (closeStream C getBufferSize
          (writes C getBufferSize ws (init C getBufferSize level s).1).1).1.m_outbuf.data
        = s.m_outbuf.data
            ++ e.drop (if level = FileEntry.COMPRESSION_LEVEL_NONE then 5 else 0)
      ∧ (e.length ≤ (if level = FileEntry.COMPRESSION_LEVEL_NONE then 5 else 0) →
          (closeStream C getBufferSize
            (writes C getBufferSize ws (init C getBufferSize level s).1).1).1.m_outbuf.data
          = s.m_outbuf.data) := by
  have h1 := init_clean C getBufferSize level s hs hroom hov
  have h2 := writes_clean C getBufferSize _ _ _ ws _ h1
  obtain ⟨⟨⟨-, -, f, he, hd, -⟩, hov3⟩, -⟩ := closeStream_clean C getBufferSize _ _ _ _ h2
  refine ⟨closeStream_total C getBufferSize _, f, ?_, hd, ?_⟩
  · rw [he, hov3, List.append_nil]
  · intro hle
    rw [hd, List.drop_eq_nil_of_le hle, List.append_nil]

end Delivery

/-! ## Exceptions of `closeStream` -/

section CloseErrors

variable {σ : Type}

open DeflateOutputStreambuf

/-- C10, as stated, fails, in two ways.  (a) On a filter initialized over `faultyCodec` with
one byte in the put area, `closeStream()` throws an `IOException` although `deflateEnd` is
never called (the history holds the `deflateInit2` and one failed `deflate` step only) and
`deflateEnd` of this codec returns `Z_OK` on every state.  (b) On a filter initialized over
`copyCodec` with one byte in the put area and a downstream buffer without room,
`closeStream()` throws the `IOException` of `flushOutvec()`, again before `deflateEnd`. -/
theorem closeStream_raises_before_deflateEnd :
    ((sputc faultyCodec 4 97
        (init faultyCodec 4 (-1) (construct faultyCodec ⟨[], none⟩)).1).1.m_zs_initialized = true
    ∧ (closeStream faultyCodec 4 (sputc faultyCodec 4 97
        (init faultyCodec 4 (-1) (construct faultyCodec ⟨[], none⟩)).1).1).2
      = Outcome.raise (Exn.deflation_failed Z_STREAM_ERROR)
    ∧ (closeStream faultyCodec 4 (sputc faultyCodec 4 97
        (init faultyCodec 4 (-1) (construct faultyCodec ⟨[], none⟩)).1).1).1.calls
      = [CodecCall.deflateInit2 (-1) 0, CodecCall.deflate 0 1 4 0 [] (-2)]
    ∧ (∀ zs, (faultyCodec.deflateEnd zs).2 = Z_OK)
    ∧ ¬ ((closeStream faultyCodec 4 (sputc faultyCodec 4 97
          (init faultyCodec 4 (-1) (construct faultyCodec ⟨[], none⟩)).1).1).2.isIOException = true
        ↔ ∃ e, CodecCall.deflateEnd e ∈ (closeStream faultyCodec 4 (sputc faultyCodec 4 97
              (init faultyCodec 4 (-1) (construct faultyCodec ⟨[], none⟩)).1).1).1.calls
            ∧ e ≠ Z_OK
            ∧ ¬ (e = Z_DATA_ERROR ∧ (closeStream faultyCodec 4 (sputc faultyCodec 4 97
              (init faultyCodec 4 (-1) (construct faultyCodec ⟨[], none⟩)).1).1).1.m_overflown_bytes
                = 0)))
    ∧ ((sputc copyCodec 4 97 (init copyCodec 4 (-1) fullSinkFilter).1).1.m_zs_initialized = true
    ∧ (closeStream copyCodec 4 (sputc copyCodec 4 97
        (init copyCodec 4 (-1) fullSinkFilter).1).1).2 = Outcome.raise Exn.flush_failed
    ∧ (closeStream copyCodec 4 (sputc copyCodec 4 97
        (init copyCodec 4 (-1) fullSinkFilter).1).1).1.calls
      = [CodecCall.deflateInit2 (-1) 0, CodecCall.deflate 0 1 4 1 [97] 0]
    ∧ ¬ ((closeStream copyCodec 4 (sputc copyCodec 4 97
          (init copyCodec 4 (-1) fullSinkFilter).1).1).2.isIOException = true
        ↔ ∃ e, CodecCall.deflateEnd e ∈ (closeStream copyCodec 4 (sputc copyCodec 4 97
              (init copyCodec 4 (-1) fullSinkFilter).1).1).1.calls
            ∧ e ≠ Z_OK
            ∧ ¬ (e = Z_DATA_ERROR ∧ (closeStream copyCodec 4 (sputc copyCodec 4 97
              (init copyCodec 4 (-1) fullSinkFilter).1).1).1.m_overflown_bytes = 0))) := by
  have h1 : (closeStream faultyCodec 4 (sputc faultyCodec 4 97
        (init faultyCodec 4 (-1) (construct faultyCodec ⟨[], none⟩)).1).1).2
      = Outcome.raise (Exn.deflation_failed Z_STREAM_ERROR) := by
    decide
  have h2 : (closeStream faultyCodec 4 (sputc faultyCodec 4 97
        (init faultyCodec 4 (-1) (construct faultyCodec ⟨[], none⟩)).1).1).1.calls
      = [CodecCall.deflateInit2 (-1) 0, CodecCall.deflate 0 1 4 0 [] (-2)] := by
    decide
  have h3 : (closeStream copyCodec 4 (sputc copyCodec 4 97
        (init copyCodec 4 (-1) fullSinkFilter).1).1).2 = Outcome.raise Exn.flush_failed := by
    decide
  have h4 : (closeStream copyCodec 4 (sputc copyCodec 4 97
        (init copyCodec 4 (-1) fullSinkFilter).1).1).1.calls
      = [CodecCall.deflateInit2 (-1) 0, CodecCall.deflate 0 1 4 1 [97] 0] := by
    decide
  refine ⟨⟨by decide, h1, h2, fun _ => rfl, ?_⟩, by decide, h3, h4, ?_⟩
  · rw [h1, h2]
    intro h
    obtain ⟨e, he, -⟩ := h.1 (by decide)
    simp at he
  · rw [h3, h4]
    intro h
    obtain ⟨e, he, -⟩ := h.1 (by decide)
    simp at he

/-- C10, amended.  On an initialized filter `closeStream()` ends, and it throws an
`IOException` exactly when `endDeflation()` (the last `overflow()` and the flushes) throws one, or `endDeflation()`
returns and `deflateEnd` then returns a status other than `Z_OK`, unless that status is
`Z_DATA_ERROR` and no byte was written for the entry.  In particular, when `endDeflation()`
returns, `Z_DATA_ERROR` is not thrown after an empty entry and is thrown after at least one
written byte. -/
theorem closeStream_raises_iff (C : Codec σ) (getBufferSize : Nat)
    (s : DeflateOutputStreambuf σ) (hs : s.m_zs_initialized = true) :
    (closeStream C getBufferSize s).2 ≠ Outcome.diverge
    ∧ ((closeStream C getBufferSize s).2.isIOException = true ↔
      (endDeflation C getBufferSize { s with m_zs_initialized := false }).2.isIOException = true
      ∨ ((endDeflation C getBufferSize { s with m_zs_initialized := false }).2 = Outcome.ok ()
        ∧ (C.deflateEnd (endDeflation C getBufferSize
            { s with m_zs_initialized := false }).1.m_zs).2 ≠ Z_OK
        ∧ ¬ ((C.deflateEnd (endDeflation C getBufferSize
              { s with m_zs_initialized := false }).1.m_zs).2 = Z_DATA_ERROR
            ∧ s.m_overflown_bytes + s.put.length = 0)))
    ∧ ((endDeflation C getBufferSize { s with m_zs_initialized := false }).2 = Outcome.ok () →
        (C.deflateEnd (endDeflation C getBufferSize
            { s with m_zs_initialized := false }).1.m_zs).2 = Z_DATA_ERROR →
        ((s.m_overflown_bytes + s.put.length = 0 →
            (closeStream C getBufferSize s).2 = Outcome.ok ())
          ∧ (0 < s.m_overflown_bytes + s.put.length →
            (closeStream C getBufferSize s).2
              = Outcome.raise (Exn.deflateEnd_failed Z_DATA_ERROR)))) := by
  refine ⟨closeStream_total C getBufferSize s, ?_⟩
  have hm := endDeflation_meter C getBufferSize
    ({ s with m_zs_initialized := false } : DeflateOutputStreambuf σ)
  unfold meter at hm
  have hn := (Prod.mk.inj (Prod.mk.inj hm).2).1
  dsimp only at hn
  unfold closeStream
  rw [if_pos hs]
  generalize endDeflation C getBufferSize
    ({ s with m_zs_initialized := false } : DeflateOutputStreambuf σ) = r at hn
  rcases r with ⟨s1, v | e | _⟩
  · rw [Res.andThen_ok]
    dsimp only at hn ⊢
    rw [hn]
    generalize (C.deflateEnd s1.m_zs).2 = e
    generalize s.m_overflown_bytes + s.put.length = n
    simp only [Z_OK, Z_DATA_ERROR]
    split_ifs with hc
    · simp only [Outcome.isIOException, Exn.kind, decide_True, Bool.false_eq_true, false_or,
        true_and, true_iff, forall_const]
      refine ⟨⟨hc.1, ?_⟩, ?_⟩
      · omega
      · intro he
        refine ⟨?_, ?_⟩
        · omega
        · intro _
          rw [he]
    · simp only [Outcome.isIOException, Bool.false_eq_true, false_or, true_and, false_iff,
        forall_const]
      refine ⟨?_, ?_⟩
      · omega
      · intro he
        refine ⟨?_, ?_⟩
        · intro _
          trivial
        · omega
  · rw [Res.andThen_raise]
    constructor
    · constructor
      · intro h
        exact Or.inl h
      · rintro (h | ⟨h, -⟩)
        · exact h
        · cases h
    · intro h
      cases h
  · rw [Res.andThen_diverge]
    constructor
    · constructor
      · intro h
        cases h
      · rintro (h | ⟨h, -⟩)
        · cases h
        · cases h
    · intro h
      cases h

end CloseErrors

/-! ## The theorems at sample inputs -/

section Samples

open DeflateOutputStreambuf

/-- A whole session at level NONE over `copyCodec` with buffer size 4: the codec emits its
5-byte header and the three bytes, downstream receives the three bytes, and the session
returns with size 3. -/
theorem copy_session_none :
    emitted (closeStream copyCodec 2
        (writes copyCodec 4 abcWrites (init copyCodec 4 0 newCopyFilter).1).1).1.calls
      = [1, 0, 0, 255, 255, 97, 98, 99]
    ∧ (closeStream copyCodec 2
        (writes copyCodec 4 abcWrites (init copyCodec 4 0 newCopyFilter).1).1).1.m_outbuf.data
      = [97, 98, 99]
    ∧ (closeStream copyCodec 2
        (writes copyCodec 4 abcWrites (init copyCodec 4 0 newCopyFilter).1).1).2 = Outcome.ok ()
    ∧ getSize (closeStream copyCodec 2
        (writes copyCodec 4 abcWrites (init copyCodec 4 0 newCopyFilter).1).1).1 = 3 :=
  ⟨by decide, by decide, by decide, by decide⟩

/-- C1 at level NONE with buffer size 2 on `copyCodec`, three bytes written. -/
theorem delivered_is_emitted_after_skip_witness :
    newCopyFilter.m_zs_initialized = false ∧ newCopyFilter.m_outbuf.room = none
    ∧ newCopyFilter.outvec = []
    ∧ (closeStream copyCodec 2
        (writes copyCodec 2 abcWrites (init copyCodec 2 0 newCopyFilter).1).1).2
      ≠ Outcome.diverge
    ∧ ∃ e : List Byte,
      emitted (closeStream copyCodec 2
          (writes copyCodec 2 abcWrites (init copyCodec 2 0 newCopyFilter).1).1).1.calls
        = emitted newCopyFilter.calls ++ e
      ∧ (closeStream copyCodec 2
          (writes copyCodec 2 abcWrites (init copyCodec 2 0 newCopyFilter).1).1).1.m_outbuf.data
        = newCopyFilter.m_outbuf.data
            ++ e.drop (if (0 : Int) = FileEntry.COMPRESSION_LEVEL_NONE then 5 else 0)
      ∧ (e.length ≤ (if (0 : Int) = FileEntry.COMPRESSION_LEVEL_NONE then 5 else 0) →
          (closeStream copyCodec 2
            (writes copyCodec 2 abcWrites (init copyCodec 2 0 newCopyFilter).1).1).1.m_outbuf.data
          = newCopyFilter.m_outbuf.data) :=
  ⟨rfl, rfl, rfl, delivered_is_emitted_after_skip copyCodec 2 0 abcWrites newCopyFilter rfl rfl rfl⟩

/-- C2 at level DEFAULT with buffer size 4 on `copyCodec`. -/
theorem empty_entry_witness :
    0 < 4 ∧ newCopyFilter.m_zs_initialized = false
    ∧ (init copyCodec 4 (-1) newCopyFilter).2 = Outcome.ok true
    ∧ (closeStream copyCodec 4 (init copyCodec 4 (-1) newCopyFilter).1).2 ≠ Outcome.diverge
    ∧ (closeStream copyCodec 4 (init copyCodec 4 (-1) newCopyFilter).1).1.m_outbuf
        = newCopyFilter.m_outbuf
    ∧ (∃ z e1 e2, (closeStream copyCodec 4 (init copyCodec 4 (-1) newCopyFilter).1).1.calls
        = newCopyFilter.calls ++ [CodecCall.deflateInit2 z e1, CodecCall.deflateEnd e2])
    ∧ (∀ c ∈ (closeStream copyCodec 4 (init copyCodec 4 (-1) newCopyFilter).1).1.calls,
        c.isDeflate = true → c ∈ newCopyFilter.calls)
    ∧ getSize (closeStream copyCodec 4 (init copyCodec 4 (-1) newCopyFilter).1).1 = 0
    ∧ getCrc32 (closeStream copyCodec 4 (init copyCodec 4 (-1) newCopyFilter).1).1 = 0
    ∧ crc32 0 [] = 0 :=
  ⟨by decide, rfl, by decide,
    empty_entry copyCodec 4 (by decide) (-1) newCopyFilter rfl (by decide)⟩

/-- C3 at level DEFAULT with buffer size 2 on `copyCodec`, three bytes written. -/
theorem crc_of_payload_witness :
    0 < 2 ∧ newCopyFilter.m_zs_initialized = false
    ∧ (init copyCodec 2 (-1) newCopyFilter).2 = Outcome.ok true
    ∧ (writes copyCodec 2 abcWrites (init copyCodec 2 (-1) newCopyFilter).1).2 = true
    ∧ (closeStream copyCodec 2
        (writes copyCodec 2 abcWrites (init copyCodec 2 (-1) newCopyFilter).1).1).2
      ≠ Outcome.diverge
    ∧ getCrc32 (closeStream copyCodec 2
        (writes copyCodec 2 abcWrites (init copyCodec 2 (-1) newCopyFilter).1).1).1
      = crc32 0 (Write.payload abcWrites) :=
  ⟨by decide, rfl, by decide, by decide,
    crc_of_payload copyCodec 2 (by decide) (-1) abcWrites newCopyFilter rfl (by decide)
      (by decide)⟩

/-- C4 at level DEFAULT with buffer size 2 on `copyCodec`, three bytes written. -/
theorem size_of_payload_witness :
    0 < 2 ∧ newCopyFilter.m_zs_initialized = false
    ∧ (init copyCodec 2 (-1) newCopyFilter).2 = Outcome.ok true
    ∧ (writes copyCodec 2 abcWrites (init copyCodec 2 (-1) newCopyFilter).1).2 = true
    ∧ (closeStream copyCodec 2
        (writes copyCodec 2 abcWrites (init copyCodec 2 (-1) newCopyFilter).1).1).2
      ≠ Outcome.diverge
    ∧ getSize (closeStream copyCodec 2
        (writes copyCodec 2 abcWrites (init copyCodec 2 (-1) newCopyFilter).1).1).1
      = (Write.payload abcWrites).length
    ∧ getSize (writes copyCodec 2 abcWrites (init copyCodec 2 (-1) newCopyFilter).1).1
        + (writes copyCodec 2 abcWrites (init copyCodec 2 (-1) newCopyFilter).1).1.put.length
      = (Write.payload abcWrites).length
    ∧ getSize (writes copyCodec 2 abcWrites (init copyCodec 2 (-1) newCopyFilter).1).1
      ≤ (Write.payload abcWrites).length :=
  ⟨by decide, rfl, by decide, by decide,
    size_of_payload copyCodec 2 (by decide) (-1) abcWrites newCopyFilter rfl (by decide)
      (by decide)⟩

/-- C7 at the levels 101 (rejected) and 100 (accepted). -/
theorem init_level_check_witness :
    (¬ acceptedLevel 101 ∧ newCopyFilter.m_zs_initialized = false
      ∧ (init copyCodec 4 101 newCopyFilter).2 = Outcome.raise Exn.invalid_level
      ∧ (init copyCodec 4 101 newCopyFilter).1.calls = newCopyFilter.calls)
    ∧ (acceptedLevel 100
      ∧ (init copyCodec 4 100 newCopyFilter).2 ≠ Outcome.raise Exn.invalid_level) :=
  ⟨⟨by decide, rfl,
      ((init_level_check copyCodec 4 101 newCopyFilter).1 (by decide)).2.1 rfl,
      ((init_level_check copyCodec 4 101 newCopyFilter).1 (by decide)).2.2.1⟩,
    by decide, (init_level_check copyCodec 4 100 newCopyFilter).2 (by decide)⟩

/-- C10, amended, on `copyCodec`: closing an entry without data, where `deflateEnd` returns
`Z_DATA_ERROR`, returns normally. -/
theorem closeStream_raises_iff_witness :
    (init copyCodec 4 (-1) newCopyFilter).1.m_zs_initialized = true
    ∧ (copyCodec.deflateEnd (endDeflation copyCodec 4
        { (init copyCodec 4 (-1) newCopyFilter).1 with m_zs_initialized := false }).1.m_zs).2
      = Z_DATA_ERROR
    ∧ (closeStream copyCodec 4 (init copyCodec 4 (-1) newCopyFilter).1).2 = Outcome.ok () :=
  ⟨by decide, by decide,
    ((closeStream_raises_iff copyCodec 4 (init copyCodec 4 (-1) newCopyFilter).1
      (by decide)).2.2 (by decide) (by decide)).1 (by decide)⟩

end Samples

/-! ## Reusing a filter for a new entry -/

section Reuse

variable {σ : Type}

open DeflateOutputStreambuf

theorem initCodec_outcome_cases (C : Codec σ) (b : Nat) (z : Int)
    (s : DeflateOutputStreambuf σ) :
    (initCodec C b z s).2 = Outcome.ok true
      ∨ ∃ err, (initCodec C b z s).2 = Outcome.raise (Exn.init_failed err) := by
  unfold initCodec
  dsimp only
  split_ifs with h
  · exact Or.inr ⟨_, rfl⟩
  · refine Or.inl ?_
    have h' : (C.deflateInit2 s.m_zs z).2 = Z_OK := not_not.mp h
    simp [h']

/-- On a filter that is not initialized, `init` with an accepted level either returns true or
throws the `IOException` of a failed `deflateInit2`. -/
theorem init_outcome_of_accepted (C : Codec σ) (b : Nat) (level : Int)
    (s : DeflateOutputStreambuf σ) (hs : s.m_zs_initialized = false)
    (hl : acceptedLevel level) :
    (init C b level s).2 = Outcome.ok true
      ∨ ∃ err, (init C b level s).2 = Outcome.raise (Exn.init_failed err) := by
  unfold acceptedLevel at hl
  unfold init
  rw [hs]
  simp only [Bool.false_eq_true, if_false]
  split_ifs with a1 a2 a3 a4 a5
  all_goals first
    | exact initCodec_outcome_cases C b _ _
    | (exfalso
       simp only [FileEntry.COMPRESSION_LEVEL_MINIMUM, FileEntry.COMPRESSION_LEVEL_MAXIMUM,
         FileEntry.COMPRESSION_LEVEL_DEFAULT, FileEntry.COMPRESSION_LEVEL_SMALLEST,
         FileEntry.COMPRESSION_LEVEL_FASTEST, FileEntry.COMPRESSION_LEVEL_NONE] at *
       omega)

/-- C11. After `closeStream()`, whatever was written before and however the close ended,
`init(level)` is accepted again: it never throws the double-initialization error, and for an
accepted level it returns true or throws on the status of `deflateInit2`.  When it returns,
the CRC is the initial value 0, the byte count is 0, the bytes-to-skip counter is 5 for NONE
and 0 otherwise, and the put area and both codec buffers are empty; these are the values
`init(level)` leaves on a newly constructed filter. -/
theorem init_after_closeStream (C : Codec σ) (getBufferSize : Nat) (level : Int)
    (s : DeflateOutputStreambuf σ) (outbuf : Sink) :
    (init C getBufferSize level (closeStream C getBufferSize s).1).2
      ≠ Outcome.raise Exn.already_initialized
    ∧ (acceptedLevel level →
        (init C getBufferSize level (closeStream C getBufferSize s).1).2 = Outcome.ok true
        ∨ ∃ err, (init C getBufferSize level (closeStream C getBufferSize s).1).2
            = Outcome.raise (Exn.init_failed err))
    ∧ ((init C getBufferSize level (closeStream C getBufferSize s).1).2 = Outcome.ok true →
        getCrc32 (init C getBufferSize level (closeStream C getBufferSize s).1).1 = 0
        ∧ getSize (init C getBufferSize level (closeStream C getBufferSize s).1).1 = 0
        ∧ (init C getBufferSize level (closeStream C getBufferSize s).1).1.m_bytes_to_skip
          = (if level = FileEntry.COMPRESSION_LEVEL_NONE then 5 else 0)
        ∧ (init C getBufferSize level (closeStream C getBufferSize s).1).1.put = []
        ∧ (init C getBufferSize level (closeStream C getBufferSize s).1).1.put_cap
          = getBufferSize
        ∧ (init C getBufferSize level (closeStream C getBufferSize s).1).1.zs_in = []
        ∧ (init C getBufferSize level (closeStream C getBufferSize s).1).1.outvec = []
        ∧ (init C getBufferSize level (closeStream C getBufferSize s).1).1.m_zs_initialized
          = true)
    ∧ ((init C getBufferSize level (closeStream C getBufferSize s).1).2 = Outcome.ok true →
        (init C getBufferSize level (construct C outbuf)).2 = Outcome.ok true →
        getCrc32 (init C getBufferSize level (closeStream C getBufferSize s).1).1
          = getCrc32 (init C getBufferSize level (construct C outbuf)).1
        ∧ getSize (init C getBufferSize level (closeStream C getBufferSize s).1).1
          = getSize (init C getBufferSize level (construct C outbuf)).1
        ∧ (init C getBufferSize level (closeStream C getBufferSize s).1).1.m_bytes_to_skip
          = (init C getBufferSize level (construct C outbuf)).1.m_bytes_to_skip
        ∧ (init C getBufferSize level (closeStream C getBufferSize s).1).1.put
          = (init C getBufferSize level (construct C outbuf)).1.put
        ∧ (init C getBufferSize level (closeStream C getBufferSize s).1).1.put_cap
          = (init C getBufferSize level (construct C outbuf)).1.put_cap
        ∧ (init C getBufferSize level (closeStream C getBufferSize s).1).1.zs_in
          = (init C getBufferSize level (construct C outbuf)).1.zs_in
        ∧ (init C getBufferSize level (closeStream C getBufferSize s).1).1.outvec
          = (init C getBufferSize level (construct C outbuf)).1.outvec
        ∧ (init C getBufferSize level (closeStream C getBufferSize s).1).1.m_zs_initialized
          = (init C getBufferSize level (construct C outbuf)).1.m_zs_initialized) := by
  have hflag := closeStream_not_initialized C getBufferSize s
  generalize (closeStream C getBufferSize s).1 = t at hflag
  refine ⟨?_, ?_, ?_, ?_⟩
  · unfold init
    rw [hflag]
    simp only [Bool.false_eq_true, if_false]
    split_ifs
    all_goals first
      | (intro hc; cases hc)
      | (intro hc
         rcases initCodec_outcome_cases C getBufferSize _ _ with h | ⟨err, h⟩
         · rw [h] at hc; cases hc
         · rw [h] at hc; cases hc)
  · exact init_outcome_of_accepted C getBufferSize level t hflag
  · intro h
    obtain ⟨z, hz⟩ := init_ok_state C getBufferSize level t true hflag h
    rw [hz]
    exact ⟨rfl, rfl, rfl, rfl, rfl, rfl, rfl, rfl⟩
  · intro h h'
    obtain ⟨z, hz⟩ := init_ok_state C getBufferSize level t true hflag h
    obtain ⟨z', hz'⟩ := init_ok_state C getBufferSize level (construct C outbuf) true rfl h'
    rw [hz, hz']
    exact ⟨rfl, rfl, rfl, rfl, rfl, rfl, rfl, rfl⟩

/-- C11 on `copyCodec`: a filter that has compressed three bytes at level NONE and was closed
is initialized again at level DEFAULT. -/
theorem init_after_closeStream_witness :
    acceptedLevel (-1)
    ∧ (init copyCodec 4 (-1) (closeStream copyCodec 4
        (writes copyCodec 4 abcWrites (init copyCodec 4 0 newCopyFilter).1).1).1).2
      = Outcome.ok true
    ∧ (init copyCodec 4 (-1) (construct copyCodec { data := [], room := none })).2
      = Outcome.ok true
    ∧ getCrc32 (init copyCodec 4 (-1) (closeStream copyCodec 4
        (writes copyCodec 4 abcWrites (init copyCodec 4 0 newCopyFilter).1).1).1).1 = 0
    ∧ getSize (init copyCodec 4 (-1) (closeStream copyCodec 4
        (writes copyCodec 4 abcWrites (init copyCodec 4 0 newCopyFilter).1).1).1).1 = 0
    ∧ getSize (init copyCodec 4 (-1) (closeStream copyCodec 4
        (writes copyCodec 4 abcWrites (init copyCodec 4 0 newCopyFilter).1).1).1).1
      = getSize (init copyCodec 4 (-1) (construct copyCodec { data := [], room := none })).1 :=
  ⟨by decide, by decide, by decide,
    ((init_after_closeStream copyCodec 4 (-1)
      (writes copyCodec 4 abcWrites (init copyCodec 4 0 newCopyFilter).1).1
      { data := [], room := none }).2.2.1 (by decide)).1,
    ((init_after_closeStream copyCodec 4 (-1)
      (writes copyCodec 4 abcWrites (init copyCodec 4 0 newCopyFilter).1).1
      { data := [], room := none }).2.2.1 (by decide)).2.1,
    ((init_after_closeStream copyCodec 4 (-1)
      (writes copyCodec 4 abcWrites (init copyCodec 4 0 newCopyFilter).1).1
      { data := [], room := none }).2.2.2 (by decide) (by decide)).2.1⟩

end Reuse

/-! ## Stored entries (level NONE) -/

section StoredPayload

open DeflateOutputStreambuf

variable {σ : Type}

/-- When its condition is false the loop of `overflow` is not entered. -/
theorem overflowLoop_exit (C : Codec σ) (b fuel : Nat) (s : DeflateOutputStreambuf σ) (err : Int)
    (h : ¬ ((s.zs_in.length > 0 ∨ s.avail_out b = 0) ∧ err = Z_OK)) :
    overflowLoop C b fuel s err = (s, Outcome.ok err) := by
  cases fuel with
  | zero => rw [overflowLoop_zero, if_neg h]
  | succ n => rw [overflowLoop_succ, if_neg h]

/-- When the status is not `Z_OK` the loop of `endDeflation` is not entered. -/
theorem finishLoop_exit (C : Codec σ) (b fuel : Nat) (s : DeflateOutputStreambuf σ) (err : Int)
    (h : err ≠ Z_OK) :
    finishLoop C b fuel s err = (s, Outcome.ok err) := by
  cases fuel with
  | zero => rw [finishLoop_zero, if_neg h]
  | succ n => rw [finishLoop_succ, if_neg h]

/-- With room in the output buffer the loop head does not flush. -/
theorem flushIfFull_of_room (b : Nat) (s : DeflateOutputStreambuf σ) (h : s.avail_out b ≠ 0) :
    flushIfFull b s = (s, Outcome.ok ()) := by
  unfold flushIfFull
  rw [if_neg h]

/-- While `storeCodec` collects, `overflow(c)` hands it the put area, nothing is emitted and
0 is returned. -/
theorem store_overflow (b : Nat) (hb : 0 < b) (c : Option Byte)
    (s : DeflateOutputStreambuf StoreState) (w : List Byte)
    (h1 : s.m_zs = { status := 1, window := w, pending := [] }) (h2 : s.outvec = []) :
    ∃ calls', emitted calls' = emitted s.calls
      ∧ overflow storeCodec b c s
        = ({ s with
              m_zs := { status := 1, window := w ++ s.put, pending := [] }
              zs_in := []
              m_crc32 := crc32 s.m_crc32 s.put
              m_overflown_bytes := s.m_overflown_bytes + s.put.length
              outvec := []
              put := c.toList
              put_cap := b
              calls := calls' }, Outcome.ok 0) := by
  obtain ⟨ob, zs, zi, ov, ini, pt, pc, crc, n, skip, calls, rep⟩ := s
  simp only at h1 h2
  subst h1 h2
  have hb0 : b ≠ 0 := by omega
  by_cases hp : pt = []
  · subst hp
    refine ⟨calls, rfl, ?_⟩
    unfold overflow
    dsimp only
    rw [overflowLoop_exit _ _ _ _ _ (by simp [avail_out, hb0])]
    simp only [Res.andThen_ok]
    rw [flushOutvec_nil _ _ rfl]
    cases c <;> simp
  · have hl : pt.length ≠ 0 := fun h => hp (List.eq_nil_of_length_eq_zero h)
    refine ⟨calls ++ [CodecCall.deflate Z_NO_FLUSH pt.length b pt.length [] Z_OK], ?_, ?_⟩
    · simp [emitted_append, emitted, CodecCall.produced]
    · unfold overflow
      dsimp only
      rw [overflowLoop_succ, if_pos (by simp [Nat.pos_of_ne_zero hl])]
      rw [flushIfFull_of_room _ _ (by simp [avail_out, hb0]), Res.andThen_ok]
      have hd : callDeflate storeCodec b Z_NO_FLUSH
          ({ m_outbuf := ob, m_zs := { status := 1, window := w, pending := [] }, zs_in := pt,
             outvec := [], m_zs_initialized := ini, put := pt, put_cap := pc,
             m_crc32 := crc32 crc pt, m_overflown_bytes := n + pt.length,
             m_bytes_to_skip := skip, calls := calls, reported := rep } :
            DeflateOutputStreambuf StoreState)
          = ({ m_outbuf := ob, m_zs := { status := 1, window := w ++ pt, pending := [] },
               zs_in := [],
               outvec := [], m_zs_initialized := ini, put := pt, put_cap := pc,
               m_crc32 := crc32 crc pt, m_overflown_bytes := n + pt.length,
               m_bytes_to_skip := skip,
               calls := calls ++ [CodecCall.deflate Z_NO_FLUSH pt.length b pt.length [] Z_OK],
               reported := rep }, Z_OK) := by
        unfold callDeflate
        simp [storeCodec, storeDeflate, avail_out, hb0, hl]
      rw [hd]
      dsimp only
      rw [overflowLoop_exit _ _ _ _ _ (by simp [avail_out, hb0])]
      simp only [Res.andThen_ok]
      rw [flushOutvec_nil _ _ rfl]
      cases c <;> simp

theorem store_write (b : Nat) (hb : 0 < b) (e0 p : List Byte) (op : Write)
    (s : DeflateOutputStreambuf StoreState) (h : Collecting e0 p s) :
    (write storeCodec b op s).2.isOk = true
      ∧ Collecting e0 (p ++ Write.payload [op]) (write storeCodec b op s).1 := by
  obtain ⟨w, h1, h2, h3, h4, h5, h6⟩ := h
  have key : ∀ c : Option Byte, (overflow storeCodec b c s).2.isOk = true
      ∧ Collecting e0 (p ++ c.toList) (overflow storeCodec b c s).1 := by
    intro c
    obtain ⟨calls', hc, ho⟩ := store_overflow b hb c s w h1 h2
    rw [ho]
    refine ⟨rfl, w ++ s.put, rfl, rfl, ?_, ?_, hc.trans h5, h6⟩
    · rw [h3]
    · simp only [List.length_append, h4]
  cases op with
  | sputc c =>
    unfold write sputc
    dsimp only
    split_ifs
    · refine ⟨rfl, w, h1, h2, ?_, h4, h5, h6⟩
      simp only [Write.payload, ← List.append_assoc, h3]
    · exact key (some c)
  | overflow c =>
    cases c with
    | none => exact key none
    | some c => exact key (some c)

theorem store_writes (b : Nat) (hb : 0 < b) (e0 : List Byte) (ws : List Write) :
    ∀ (p : List Byte) (s : DeflateOutputStreambuf StoreState), Collecting e0 p s →
      (writes storeCodec b ws s).2 = true
        ∧ Collecting e0 (p ++ Write.payload ws) (writes storeCodec b ws s).1 := by
  induction ws with
  | nil =>
    intro p s h
    refine ⟨rfl, ?_⟩
    simpa [Write.payload, writes] using h
  | cons op ws ih =>
    intro p s h
    obtain ⟨a1, a2⟩ := store_write b hb e0 p op s h
    obtain ⟨b1, b2⟩ := ih _ _ a2
    unfold writes
    dsimp only
    rw [payload_cons, ← List.append_assoc]
    exact ⟨by rw [a1, b1]; rfl, b2⟩

/-- On a downstream buffer that accepts every byte and with a buffer of positive size, the
loop head leaves room in the output buffer. -/
theorem flushIfFull_good_room (b k : Nat) (hb : 0 < b) (d e0 : List Byte)
    (s : DeflateOutputStreambuf σ) (h : Good b k d e0 s) :
    ∃ t, flushIfFull b s = (t, Outcome.ok ()) ∧ Good b k d e0 t ∧ t.calls = s.calls
      ∧ t.m_zs = s.m_zs ∧ t.zs_in = s.zs_in ∧ t.avail_out b ≠ 0 := by
  unfold flushIfFull
  split_ifs with h0
  · obtain ⟨t, h1, h2, h3, h4, h5⟩ := flushOutvec_good b k d e0 s h
    refine ⟨t, h1, h2.1, h3, h4, h5, ?_⟩
    unfold avail_out
    rw [h2.2]
    simp only [List.length_nil]
    omega
  · exact ⟨s, rfl, h, rfl, rfl, rfl, h0⟩

/-- The loop of `endDeflation` over `storeCodec`: the framed stream `q` the codec owes is
emitted completely and the loop ends on `Z_STREAM_END`. -/
theorem store_finishLoop (b k : Nat) (hb : 0 < b) (d e0 : List Byte) :
    ∀ (fuel : Nat) (s : DeflateOutputStreambuf StoreState) (q : List Byte),
      Good b k d e0 s → s.zs_in = [] →
      ((s.m_zs.status = 1 ∧ q = deflateStored s.m_zs.window)
        ∨ (s.m_zs.status = 3 ∧ q = s.m_zs.pending)) →
      q.length < fuel →
      ∃ t, finishLoop storeCodec b fuel s Z_OK = (t, Outcome.ok Z_STREAM_END)
        ∧ emitted t.calls = emitted s.calls ++ q
        ∧ t.m_zs = { status := 2, window := [], pending := [] }
        ∧ Good b k d e0 t := by
  intro fuel
  induction fuel with
  | zero =>
    intro s q _ _ _ hq
    exact absurd hq (Nat.not_lt_zero _)
  | succ n ih =>
    intro s q hg hz hq hlen
    rw [finishLoop_succ, if_pos rfl]
    obtain ⟨t1, f1, g1, c1, z1, i1, a1⟩ := flushIfFull_good_room b k hb d e0 s hg
    rw [f1, Res.andThen_ok]
    have hd : storeCodec.deflate t1.m_zs t1.zs_in (t1.avail_out b) Z_FINISH
        = storeEmit q 0 (t1.avail_out b) := by
      rw [z1, i1, hz]
      show storeDeflate s.m_zs [] (t1.avail_out b) Z_FINISH = _
      unfold storeDeflate
      rw [if_neg a1]
      rcases hq with ⟨h1, h2⟩ | ⟨h3, h4⟩
      · rw [if_neg (by simp [h1]), if_pos h1, List.append_nil, ← h2]
        rfl
      · rw [if_neg (by simp [h3]), if_neg (by simp [h3]), if_pos ⟨h3, rfl⟩, ← h4]
    have g2 := callDeflate_good storeCodec b k d e0 Z_FINISH t1 g1
    by_cases hle : q.length ≤ t1.avail_out b
    · have he : storeEmit q 0 (t1.avail_out b)
          = { zs := { status := 2, window := [], pending := [] }
              consumed := 0, produced := q, err := Z_STREAM_END } := by
        unfold storeEmit
        rw [if_pos hle]
      have h2 : (callDeflate storeCodec b Z_FINISH t1).2 = Z_STREAM_END := by
        unfold callDeflate
        dsimp only
        rw [hd, he]
      rw [h2, finishLoop_exit _ _ _ _ _ (by decide)]
      refine ⟨_, rfl, ?_, ?_, g2⟩
      · unfold callDeflate
        dsimp only
        rw [hd, he]
        simp only [emitted_append, emitted, CodecCall.produced, List.append_nil, c1,
          List.take_of_length_le hle]
      · unfold callDeflate
        dsimp only
        rw [hd, he]
    · have he : storeEmit q 0 (t1.avail_out b)
          = { zs := { status := 3, window := [], pending := q.drop (t1.avail_out b) }
              consumed := 0, produced := q.take (t1.avail_out b), err := Z_OK } := by
        unfold storeEmit
        rw [if_neg hle]
      have h2 : (callDeflate storeCodec b Z_FINISH t1).2 = Z_OK := by
        unfold callDeflate
        dsimp only
        rw [hd, he]
      have h3 : (callDeflate storeCodec b Z_FINISH t1).1.m_zs
          = { status := 3, window := [], pending := q.drop (t1.avail_out b) } := by
        unfold callDeflate
        dsimp only
        rw [hd, he]
      have h4 : (callDeflate storeCodec b Z_FINISH t1).1.zs_in = [] := by
        unfold callDeflate
        dsimp only
        rw [i1, hz]
        exact List.drop_nil
      have h5 : emitted (callDeflate storeCodec b Z_FINISH t1).1.calls
          = emitted s.calls ++ q.take (t1.avail_out b) := by
        unfold callDeflate
        dsimp only
        rw [hd, he]
        simp only [emitted_append, emitted, CodecCall.produced, List.append_nil, c1,
          List.take_take, Nat.min_self]
      rw [h2]
      obtain ⟨t, r1, r2, r3, r4⟩ := ih (callDeflate storeCodec b Z_FINISH t1).1
        (q.drop (t1.avail_out b)) g2 h4 (Or.inr ⟨by rw [h3], by rw [h3]⟩)
        (by rw [List.length_drop]; omega)
      refine ⟨t, r1, ?_, r3, r4⟩
      rw [r2, h5, List.append_assoc, List.take_append_drop]

theorem encodeStored_length_le (fuel : Nat) :
    ∀ x : List Byte, (encodeStored fuel x).length ≤ 6 * x.length + 5 := by
  induction fuel with
  | zero =>
    intro x
    simp only [encodeStored, storedHeader, List.length_append, List.length_cons,
      List.length_nil]
    omega
  | succ n ih =>
    intro x
    unfold encodeStored
    split_ifs with h
    · simp only [storedHeader, List.length_append, List.length_cons, List.length_nil]
      omega
    · have := ih (x.drop MAX_STORED)
      simp only [storedHeader, List.length_append, List.length_cons, List.length_nil,
        List.length_take, List.length_drop, MAX_STORED] at this h ⊢
      omega

/-- A payload of at most 65535 bytes is framed in one block. -/
theorem encodeStored_small (fuel : Nat) (x : List Byte) (h : x.length ≤ MAX_STORED) :
    encodeStored fuel x = storedHeader true x.length ++ x := by
  cases fuel with
  | zero => rfl
  | succ n =>
    unfold encodeStored
    rw [if_pos h]

/-- A longer payload is framed in a full block that is not the last one, followed by the
framing of the rest. -/
theorem encodeStored_big (fuel : Nat) (x : List Byte) (h : ¬ x.length ≤ MAX_STORED) :
    encodeStored (fuel + 1) x
      = storedHeader false MAX_STORED ++ x.take MAX_STORED
          ++ encodeStored fuel (x.drop MAX_STORED) := by
  rw [encodeStored, if_neg h]

theorem store_endDeflation (b k : Nat) (hb : 0 < b) (d e0 : List Byte)
    (s : DeflateOutputStreambuf StoreState) (w : List Byte)
    (h1 : s.m_zs = { status := 1, window := w, pending := [] }) (h2 : s.outvec = [])
    (hpos : 0 < s.m_overflown_bytes + s.put.length) (hg : Clean b k d e0 s) :
    ∃ t, endDeflation storeCodec b s = (t, Outcome.ok ())
      ∧ emitted t.calls = emitted s.calls ++ deflateStored (w ++ s.put)
      ∧ t.m_zs = { status := 2, window := [], pending := [] } := by
  obtain ⟨calls', hc, ho⟩ := store_overflow b hb none s w h1 h2
  have hcl := (overflow_clean storeCodec b k d e0 none s hg).1
  unfold endDeflation
  rw [ho] at hcl
  rw [ho, Res.andThen_ok]
  dsimp only
  rw [if_pos hpos]
  obtain ⟨t, r1, r2, r3, r4⟩ := store_finishLoop b k hb d e0
    (storeCodec.measure Z_FINISH ({ status := 1, window := w ++ s.put, pending := [] })
      ([] : List Byte).length + 1)
    ({ s with
        m_zs := { status := 1, window := w ++ s.put, pending := [] }
        zs_in := []
        m_crc32 := crc32 s.m_crc32 s.put
        m_overflown_bytes := s.m_overflown_bytes + s.put.length
        outvec := []
        put := (none : Option Byte).toList
        put_cap := b
        calls := calls' })
    (deflateStored (w ++ s.put)) (Good_congr hcl.1 rfl rfl rfl rfl) rfl (Or.inl ⟨rfl, rfl⟩)
    (by
      have := encodeStored_length_le (w ++ s.put).length (w ++ s.put)
      show (deflateStored (w ++ s.put)).length
          < storeMeasure Z_FINISH ({ status := 1, window := w ++ s.put, pending := [] }) 0 + 1
      unfold storeMeasure deflateStored
      simp only [List.length_nil, if_true]
      omega)
  rw [r1, Res.andThen_ok]
  obtain ⟨t2, f1, -, f3, f4, -⟩ := flushOutvec_good b k d e0 t r4
  rw [f1, Res.andThen_ok, if_neg (by simp)]
  exact ⟨t2, rfl, by rw [f3, r2, hc], by rw [f4, r3]⟩

theorem store_closeStream (b k : Nat) (hb : 0 < b) (d e0 e1 p : List Byte)
    (s : DeflateOutputStreambuf StoreState) (hc : Collecting e1 p s) (hp : p ≠ [])
    (hg : Clean b k d e0 s) :
    (closeStream storeCodec b s).2 = Outcome.ok ()
      ∧ emitted (closeStream storeCodec b s).1.calls = e1 ++ deflateStored p := by
  obtain ⟨w, h1, h2, h3, h4, h5, h6⟩ := hc
  have hpos : 0 < s.m_overflown_bytes + s.put.length := by
    have : 0 < p.length := List.length_pos.mpr hp
    rw [← h3, List.length_append] at this
    omega
  obtain ⟨t, r1, r2, r3⟩ := store_endDeflation b k hb d e0
    ({ s with m_zs_initialized := false } : DeflateOutputStreambuf StoreState) w h1 h2 hpos
    (Clean_congr hg rfl rfl rfl rfl)
  unfold closeStream
  rw [if_pos h6, r1, Res.andThen_ok]
  dsimp only
  have he : storeCodec.deflateEnd t.m_zs = ({ status := 0, window := [], pending := [] }, Z_OK) := by
    rw [r3]
    rfl
  rw [he]
  dsimp only
  rw [if_neg (by simp)]
  refine ⟨rfl, ?_⟩
  show emitted (t.calls ++ [CodecCall.deflateEnd Z_OK]) = _
  rw [emitted_append, r2]
  simp only [emitted, CodecCall.produced, List.append_nil]
  show emitted s.calls ++ deflateStored (w ++ s.put) = _
  rw [h5, h3]

theorem store_init (b : Nat) (s : DeflateOutputStreambuf StoreState)
    (hs : s.m_zs_initialized = false) :
    (init storeCodec b FileEntry.COMPRESSION_LEVEL_NONE s).2 = Outcome.ok true
      ∧ Collecting (emitted s.calls) []
          (init storeCodec b FileEntry.COMPRESSION_LEVEL_NONE s).1 := by
  unfold init
  rw [hs]
  simp only [Bool.false_eq_true, if_false]
  rw [if_neg (by decide), if_neg (by decide), if_neg (by decide), if_pos trivial]
  unfold initCodec
  dsimp only
  have he : ∀ z : StoreState, storeCodec.deflateInit2 z Z_NO_COMPRESSION
      = ({ status := 1, window := [], pending := [] }, Z_OK) := fun _ => rfl
  rw [he]
  dsimp only
  rw [if_neg (by simp)]
  refine ⟨by simp, [], rfl, rfl, rfl, rfl, ?_, rfl⟩
  simp [emitted_append, emitted, CodecCall.produced]

/-- A whole entry at level NONE over `storeCodec`, with a buffer of positive size and a
downstream buffer that accepts every byte: every call succeeds, and downstream receives the
stored-block framing of the payload without its first 5 bytes. -/
theorem store_session (b : Nat) (hb : 0 < b) (ws : List Write)
    (s : DeflateOutputStreambuf StoreState) (hs : s.m_zs_initialized = false)
    (hroom : s.m_outbuf.room = none) (hov : s.outvec = [])
    (hp : Write.payload ws ≠ []) :
    (init storeCodec b FileEntry.COMPRESSION_LEVEL_NONE s).2 = Outcome.ok true
    ∧ (writes storeCodec b ws (init storeCodec b FileEntry.COMPRESSION_LEVEL_NONE s).1).2
        = true
    ∧ (closeStream storeCodec b
        (writes storeCodec b ws (init storeCodec b FileEntry.COMPRESSION_LEVEL_NONE s).1).1).2
        = Outcome.ok ()
    ∧ (closeStream storeCodec b
        (writes storeCodec b ws
          (init storeCodec b FileEntry.COMPRESSION_LEVEL_NONE s).1).1).1.m_outbuf.data
        = s.m_outbuf.data ++ (deflateStored (Write.payload ws)).drop 5
    ∧ getSize (closeStream storeCodec b
        (writes storeCodec b ws (init storeCodec b FileEntry.COMPRESSION_LEVEL_NONE s).1).1).1
        = (Write.payload ws).length := by
  obtain ⟨i1, i2⟩ := store_init b s hs
  obtain ⟨w1, w2⟩ := store_writes b hb _ ws _ _ i2
  rw [List.nil_append] at w2
  have c1 := init_clean storeCodec b FileEntry.COMPRESSION_LEVEL_NONE s hs hroom hov
  rw [if_pos rfl] at c1
  have c2 := writes_clean storeCodec b _ _ _ ws _ c1
  obtain ⟨k1, k2⟩ := store_closeStream b 5 hb _ _ _ _ _ w2 hp c2
  obtain ⟨⟨⟨-, -, f, he, hd, -⟩, hov3⟩, -⟩ := closeStream_clean storeCodec b _ _ _ _ c2
  refine ⟨i1, w1, k1, ?_, ?_⟩
  · rw [hd]
    rw [hov3, List.append_nil, k2] at he
    rw [List.append_cancel_left he]
  · obtain ⟨w, -, -, h3, h4, -, h6⟩ := w2
    have hm := closeStream_meter storeCodec b _ h6
    have hsz := congrArg (fun m => m.2.1) hm
    simp only [meter] at hsz
    unfold getSize
    rw [hsz, h4, ← List.length_append, h3]

theorem payload_map_sputc (p : List Byte) : Write.payload (p.map Write.sputc) = p := by
  induction p with
  | nil => rfl
  | cons c p ih =>
    show c :: Write.payload (p.map Write.sputc) = c :: p
    rw [ih]

/-- A payload of at most 65535 bytes loses exactly its stored-block header: what is left of
the framing after the first 5 bytes is the payload. -/
theorem deflateStored_drop_small (p : List Byte) (h : p.length ≤ MAX_STORED) :
    (deflateStored p).drop 5 = p := by
  unfold deflateStored
  rw [encodeStored_small _ _ h]
  rfl

/-- The framing of 65536 zero bytes without its first 5 bytes: the 65535 bytes of the first
block, the header of the second block and its single byte. -/
theorem deflateStored_drop_zeros :
    (deflateStored (List.replicate 65536 0)).drop 5
      = List.replicate 65535 0 ++ [1, 1, 0, 254, 255, 0] := by
  have h1 : deflateStored (List.replicate 65536 0)
      = encodeStored (65535 + 1) (List.replicate 65536 0) := by
    unfold deflateStored
    rw [List.length_replicate]
  have h2 : ¬ (List.replicate 65536 (0 : Byte)).length ≤ MAX_STORED := by
    rw [List.length_replicate]
    simp only [MAX_STORED]
    omega
  have h3 : (List.replicate 65536 (0 : Byte)).take MAX_STORED = List.replicate 65535 0 := by
    rw [List.take_replicate]
    congr 1
  have h4 : (List.replicate 65536 (0 : Byte)).drop MAX_STORED = [0] := by
    rw [List.drop_replicate]
    have : 65536 - MAX_STORED = 1 := by
      simp only [MAX_STORED]
    rw [this]
    rfl
  have h5 : storedHeader false MAX_STORED = [0, 255, 255, 0, 0] := by decide
  have h6 : storedHeader true ([0] : List Byte).length = [1, 1, 0, 254, 255] := by decide
  have h7 : ∀ t : List Byte, List.drop 5 ([0, 255, 255, 0, 0] ++ t) = t := fun _ => rfl
  have h8 : ([0] : List Byte).length ≤ MAX_STORED := by
    simp only [List.length_singleton, MAX_STORED]
    omega
  rw [h1, encodeStored_big _ _ h2, h3, h4, encodeStored_small _ _ h8, h5, h6,
    List.append_assoc, h7]
  rfl

/-- An entry of at most 65535 bytes written at level NONE over `storeCodec` reaches the
downstream buffer as the payload itself. -/
theorem stored_payload_one_block (b : Nat) (hb : 0 < b) (ws : List Write)
    (s : DeflateOutputStreambuf StoreState) (hs : s.m_zs_initialized = false)
    (hroom : s.m_outbuf.room = none) (hov : s.outvec = [])
    (hp : Write.payload ws ≠ []) (hlen : (Write.payload ws).length ≤ MAX_STORED) :
    (closeStream storeCodec b
        (writes storeCodec b ws
          (init storeCodec b FileEntry.COMPRESSION_LEVEL_NONE s).1).1).1.m_outbuf.data
      = s.m_outbuf.data ++ Write.payload ws := by
  rw [(store_session b hb ws s hs hroom hov hp).2.2.2.1, deflateStored_drop_small _ hlen]

/-- C12, as stated, fails on the code.  `init(NONE)` with a buffer of 1024 bytes on a new
filter over `storeCodec`, 65536 zero bytes written one by one, and `closeStream()`: every
call returns normally and 65536 bytes are counted, but the downstream buffer receives 65541
bytes, namely 65535 zero bytes, the 5-byte header `01 01 00 FE FF` of the second stored
block and the last zero byte.  `flushOutvec` drops the first 5 emitted bytes only, and a
stored block holds at most 65535 bytes. -/
theorem stored_payload_two_blocks :
    (init storeCodec 1024 FileEntry.COMPRESSION_LEVEL_NONE newStoreFilter).2 = Outcome.ok true
    ∧ (writes storeCodec 1024 ((List.replicate 65536 0).map Write.sputc)
        (init storeCodec 1024 FileEntry.COMPRESSION_LEVEL_NONE newStoreFilter).1).2 = true
    ∧ (closeStream storeCodec 1024
        (writes storeCodec 1024 ((List.replicate 65536 0).map Write.sputc)
          (init storeCodec 1024 FileEntry.COMPRESSION_LEVEL_NONE newStoreFilter).1).1).2
        = Outcome.ok ()
    ∧ getSize (closeStream storeCodec 1024
        (writes storeCodec 1024 ((List.replicate 65536 0).map Write.sputc)
          (init storeCodec 1024 FileEntry.COMPRESSION_LEVEL_NONE newStoreFilter).1).1).1
        = 65536
    ∧ (closeStream storeCodec 1024
        (writes storeCodec 1024 ((List.replicate 65536 0).map Write.sputc)
          (init storeCodec 1024 FileEntry.COMPRESSION_LEVEL_NONE newStoreFilter).1).1).1.m_outbuf.data
        = List.replicate 65535 0 ++ [1, 1, 0, 254, 255, 0]
    ∧ (closeStream storeCodec 1024
        (writes storeCodec 1024 ((List.replicate 65536 0).map Write.sputc)
          (init storeCodec 1024 FileEntry.COMPRESSION_LEVEL_NONE newStoreFilter).1).1).1.m_outbuf.data
        ≠ List.replicate 65536 0 := by
  have hp : Write.payload ((List.replicate 65536 (0 : Byte)).map Write.sputc) ≠ [] := by
    rw [payload_map_sputc]
    intro h
    have := congrArg List.length h
    rw [List.length_replicate, List.length_nil] at this
    omega
  obtain ⟨a1, a2, a3, a4, a6⟩ := store_session 1024 (by omega)
    ((List.replicate 65536 (0 : Byte)).map Write.sputc) newStoreFilter rfl rfl rfl hp
  have a5 : (closeStream storeCodec 1024
        (writes storeCodec 1024 ((List.replicate 65536 0).map Write.sputc)
          (init storeCodec 1024 FileEntry.COMPRESSION_LEVEL_NONE newStoreFilter).1).1).1.m_outbuf.data
        = List.replicate 65535 0 ++ [1, 1, 0, 254, 255, 0] := by
    have hd : newStoreFilter.m_outbuf.data = [] := rfl
    rw [a4, payload_map_sputc, deflateStored_drop_zeros, hd, List.nil_append]
  refine ⟨a1, a2, a3, ?_, a5, ?_⟩
  · rw [a6, payload_map_sputc, List.length_replicate]
  · rw [a5]
    intro h
    have := congrArg List.length h
    rw [List.length_append, List.length_replicate, List.length_replicate] at this
    simp only [List.length_cons, List.length_nil] at this
    omega

end StoredPayload

/-! ## The back buffer -/

section BackBufferFacts

open BackBuffer VirtualSeeker

/-- A value in the range of `int` is kept by the conversion. -/
theorem toInt32_of_range (x : Int) (h1 : -2147483648 ≤ x) (h2 : x < 2147483648) :
    toInt32 x = x := by
  unfold toInt32
  omega

/-- The bytes of a list between two positions, followed by the rest, are the rest from the
first position. -/
theorem take_drop_append_drop (w : List Byte) (d m : Nat) :
    (w.drop d).take m ++ w.drop (d + m) = w.drop d := by
  rw [← List.drop_drop]
  exact List.take_append_drop m (w.drop d)

/-- A call of `readChunk` with a stream that is good and never fails, a file position `f`
within a window of fewer than 2^31 bytes and a chunk size `s` in the range of `int`: the
chunk has `min f s` bytes, which are the bytes of the window in front of position `f`. -/
theorem readChunk_step (w b : List Byte) (f s : Nat) (p rp : Int)
    (hN : w.length < 2147483648) (hf : f ≤ w.length) :
    readChunk { buf := b, _chunk_size := (s : Int),
                _is := { window := w, pos := p, good := true, faults := none },
                _file_pos := (f : Int) } rp
      = ({ buf := (w.drop (f - min f s)).take (min f s) ++ b
           _chunk_size := ((min f s : Nat) : Int)
           _is := { window := w, pos := (f : Int), good := true, faults := none }
           _file_pos := ((f - min f s : Nat) : Int) },
         toInt32 (rp + ((min f s : Nat) : Int)),
         ChunkResult.returned ((min f s : Nat) : Int)) := by
  have h1 : toInt32 (f : Int) = (f : Int) := toInt32_of_range _ (by omega) (by omega)
  have h2 : min (f : Int) (s : Int) = ((min f s : Nat) : Int) := (Nat.cast_min f s).symm
  have h3 : (f : Int) - ((min f s : Nat) : Int) = ((f - min f s : Nat) : Int) := by omega
  have h4 : ((w.drop (f - min f s)).take (min f s)).length = min f s := by
    rw [List.length_take, List.length_drop]
    omega
  unfold readChunk
  dsimp only
  rw [h1, h2, h3, if_neg (by omega)]
  have h5 : vseekg { window := w, pos := p, good := true, faults := none }
      ((f - min f s : Nat) : Int) seekdir.beg
      = { window := w, pos := ((f - min f s : Nat) : Int), good := true, faults := none } := by
    unfold vseekg
    simp only [Bool.true_eq_false, if_false]
    rw [if_neg (by omega)]
  have h6 : readByteSeq
      { window := w, pos := ((f - min f s : Nat) : Int), good := true, faults := none }
      (min f s)
      = ({ window := w, pos := (f : Int), good := true, faults := none },
         (w.drop (f - min f s)).take (min f s)) := by
    unfold readByteSeq
    simp only [Int.toNat_ofNat, h4]
    rw [if_neg (by simp), if_neg (by omega)]
    simp only [Option.map_none', Prod.mk.injEq, istream.mk.injEq, and_true, true_and]
    omega
  rw [Int.toNat_ofNat, h5, h6]
  rfl

end BackBufferFacts

section BackBufferRuns

open BackBuffer VirtualSeeker

/-- One more call: `k + 1` calls are `k` calls followed by one call. -/
theorem readChunks_snoc (k : Nat) :
    ∀ (bb : BackBuffer) (rp : Int),
      readChunks (k + 1) bb rp
        = ((readChunk (readChunks k bb rp).1 (readChunks k bb rp).2.1).1,
           (readChunk (readChunks k bb rp).1 (readChunks k bb rp).2.1).2.1,
           (readChunks k bb rp).2.2
             ++ [(readChunk (readChunks k bb rp).1 (readChunks k bb rp).2.1).2.2]) := by
  induction k with
  | zero =>
    intro bb rp
    rfl
  | succ n ih =>
    intro bb rp
    rw [readChunks, ih]
    rfl

theorem chunk_arith (n c k : Nat) :
    min (n - min (k * c) n) (if k = 0 then c else min (n - (k - 1) * c) c)
      = min (n - k * c) c := by
  rcases k with _ | j
  · simp
  · rw [if_neg (Nat.succ_ne_zero j), Nat.add_sub_cancel, Nat.succ_mul]
    generalize j * c = a
    omega

theorem file_pos_arith (n c k : Nat) :
    n - min (k * c) n - min (n - k * c) c = n - min ((k + 1) * c) n := by
  rw [Nat.succ_mul]
  generalize k * c = a
  omega

theorem sum_arith (n c k : Nat) :
    min (k * c) n + min (n - k * c) c = min ((k + 1) * c) n := by
  rw [Nat.succ_mul]
  generalize k * c = a
  omega

/-- The constructor on a good stream: the buffer is empty and the file position is the end
of the window. -/
theorem construct_good (w : List Byte) (c : Int) :
    construct (goodStream w) c
      = { buf := [], _chunk_size := c
          _is := { window := w, pos := (w.length : Int), good := true, faults := none }
          _file_pos := (w.length : Int) } := by
  have h0 : ¬ ((w.length : Int) < 0) := by omega
  unfold construct goodStream vseekg vtellg
  simp only [Bool.true_eq_false, if_false, Int.add_zero, h0, if_true]

/-- One call on the object that `k` calls have produced: the chunk has `min (|w| - k * c) c`
bytes, and the object is the one that `k + 1` calls produce. -/
theorem readChunk_afterCalls (w : List Byte) (c : Nat) (hN : w.length < 2147483648)
    (rp : Int) (hrp1 : -2147483648 ≤ rp) (hrp2 : rp + (w.length : Int) < 2147483648)
    (k : Nat) :
    readChunk (afterCalls w c k) (rp + ((min (k * c) w.length : Nat) : Int))
      = (afterCalls w c (k + 1), rp + ((min ((k + 1) * c) w.length : Nat) : Int),
         ChunkResult.returned ((min (w.length - k * c) c : Nat) : Int)) := by
  unfold afterCalls
  rw [readChunk_step w _ _ _ _ _ hN (Nat.sub_le _ _), chunk_arith, file_pos_arith]
  have h2 : (w.drop (w.length - min ((k + 1) * c) w.length)).take (min (w.length - k * c) c)
        ++ w.drop (w.length - min (k * c) w.length)
      = w.drop (w.length - min ((k + 1) * c) w.length) := by
    have e : w.length - min (k * c) w.length
        = (w.length - min ((k + 1) * c) w.length) + min (w.length - k * c) c := by
      rw [← file_pos_arith]
      have := Nat.sub_le (w.length - min (k * c) w.length) (min (w.length - k * c) c)
      generalize k * c = a at *
      omega
    rw [e, take_drop_append_drop]
  have h3 : toInt32 (rp + ((min (k * c) w.length : Nat) : Int)
        + ((min (w.length - k * c) c : Nat) : Int))
      = rp + ((min ((k + 1) * c) w.length : Nat) : Int) := by
    rw [← sum_arith, toInt32_of_range]
    · push_cast
      omega
    · generalize k * c = a
      omega
    · generalize k * c = a
      omega
  rw [h2, h3]
  simp only [Nat.add_sub_cancel, Nat.succ_ne_zero, if_false]

/-- The object, the `read_pointer` and the returned values after `k` calls of `readChunk` on
a newly constructed `BackBuffer` whose stream stays good, for a window of fewer than 2^31
bytes, a chunk size `c` and a `read_pointer` that stays in the range of `int`. -/
theorem readChunks_good (w : List Byte) (c : Nat) (hN : w.length < 2147483648) (rp : Int)
    (hrp1 : -2147483648 ≤ rp) (hrp2 : rp + (w.length : Int) < 2147483648) (k : Nat) :
    readChunks k (construct (goodStream w) (c : Int)) rp
      = (afterCalls w c k, rp + ((min (k * c) w.length : Nat) : Int),
         (List.range k).map
           fun j => ChunkResult.returned ((min (w.length - j * c) c : Nat) : Int)) := by
  induction k with
  | zero =>
    show (construct (goodStream w) (c : Int), rp, []) = _
    rw [construct_good]
    unfold afterCalls
    simp
  | succ k ih =>
    rw [readChunks_snoc, ih]
    dsimp only
    rw [readChunk_afterCalls w c hN rp hrp1 hrp2 k, List.range_succ, List.map_append]
    rfl

end BackBufferRuns

section BackBufferClaims

open BackBuffer VirtualSeeker

/-- The object after a call and how the call ended do not depend on `read_pointer`. -/
theorem readChunk_indep (bb : BackBuffer) (rp rq : Int) :
    (readChunk bb rp).1 = (readChunk bb rq).1
      ∧ (readChunk bb rp).2.2 = (readChunk bb rq).2.2 := by
  unfold readChunk
  dsimp only
  split_ifs <;> exact ⟨rfl, rfl⟩

theorem readChunks_indep (k : Nat) :
    ∀ (bb : BackBuffer) (rp rq : Int),
      (readChunks k bb rp).1 = (readChunks k bb rq).1
        ∧ (readChunks k bb rp).2.2 = (readChunks k bb rq).2.2 := by
  induction k with
  | zero =>
    intro bb rp rq
    exact ⟨rfl, rfl⟩
  | succ n ih =>
    intro bb rp rq
    obtain ⟨h1, h2⟩ := readChunk_indep bb rp rq
    unfold readChunks
    dsimp only
    rw [h1, h2]
    obtain ⟨h3, h4⟩ := ih (readChunk bb rq).1 (readChunk bb rp).2.1 (readChunk bb rq).2.1
    rw [h3, h4]
    exact ⟨rfl, rfl⟩

/-- `readByteSeq` leaves `count` bytes in the destination, whatever the stream does. -/
theorem readByteSeq_length (is : istream) (count : Nat) :
    (readByteSeq is count).2.length = count := by
  unfold readByteSeq
  dsimp only
  split_ifs with h1 h2
  · exact List.length_replicate _ _
  · rw [List.length_append, List.length_replicate]
    omega
  · have := List.length_take_le count (is.window.drop is.pos.toNat)
    show ((is.window.drop is.pos.toNat).take count).length = count
    omega

/-- A call whose computed chunk size is negative: the members are updated, `insert` throws
and the buffer and `read_pointer` are as before. -/
theorem readChunk_negative (bb : BackBuffer) (rp : Int)
    (h : min (toInt32 bb._file_pos) bb._chunk_size < 0) :
    (readChunk bb rp).2.2 = ChunkResult.length_error ∧ (readChunk bb rp).1.buf = bb.buf
      ∧ (readChunk bb rp).2.1 = rp := by
  unfold readChunk
  dsimp only
  rw [if_pos h]
  exact ⟨rfl, rfl, rfl⟩

/-- On a window whose length does not fit an `int` as a non-negative number, the first call
on a good stream throws, the buffer stays empty and the stream stays good. -/
theorem readChunk_window_negative (w : List Byte) (c rp : Int)
    (h : toInt32 (w.length : Int) < 0) :
    (readChunk (construct (goodStream w) c) rp).2.2 = ChunkResult.length_error
      ∧ (readChunk (construct (goodStream w) c) rp).1.buf = []
      ∧ (readChunk (construct (goodStream w) c) rp).1._is.good = true := by
  have hm : min (toInt32 (w.length : Int)) c < 0 := lt_of_le_of_lt (min_le_left _ _) h
  rw [construct_good]
  unfold readChunk
  dsimp only
  rw [if_pos hm]
  refine ⟨rfl, rfl, ?_⟩
  unfold vseekg
  dsimp only
  rw [if_neg (by simp), if_neg (by omega)]

/-- The number of chunks: call `k` (counted from 0) finds bytes left exactly when `k` is
below the ceiling of `n / c`. -/
theorem ceil_arith (n c k : Nat) (hc : 0 < c) : k * c < n ↔ k < (n + c - 1) / c := by
  rw [Nat.lt_iff_add_one_le (m := k), Nat.le_div_iff_mul_le hc, Nat.succ_mul]
  generalize k * c = a
  omega

end BackBufferClaims

section BackBufferContent

open BackBuffer VirtualSeeker

theorem readChunks_one (bb : BackBuffer) (rp : Int) :
    readChunks 1 bb rp = ((readChunk bb rp).1, (readChunk bb rp).2.1, [(readChunk bb rp).2.2]) :=
  rfl

/-- On a window whose length does not fit an `int` as a non-negative number, the buffer is
empty after one call and the stream is good. -/
theorem readChunks_one_negative (w : List Byte) (c rp : Int)
    (h : toInt32 (w.length : Int) < 0) :
    (readChunks 1 (construct (goodStream w) c) rp).1.buf = []
      ∧ (readChunks 1 (construct (goodStream w) c) rp).1._is.good = true := by
  obtain ⟨-, h2, h3⟩ := readChunk_window_negative w c rp h
  rw [readChunks_one]
  exact ⟨h2, h3⟩

/-- C13, as stated, fails.  On a window of 2^31 zero bytes with the default chunk size 1024
and a stream that is and stays good, the first `readChunk` converts the file position 2^31
to the `int` -2^31, takes it as the chunk size and `insert` throws `std::length_error`: after
one call the buffer is empty, while the last `min (1 * 1024) 2^31` bytes of the window are
1024 bytes. -/
theorem readChunk_window_of_2G :
    (readChunk (construct (goodStream (List.replicate 2147483648 0)) 1024) 0).2.2
        = ChunkResult.length_error
    ∧ (readChunks 1 (construct (goodStream (List.replicate 2147483648 0)) 1024) 0).1.buf = []
    ∧ (readChunks 1 (construct (goodStream (List.replicate 2147483648 0)) 1024) 0).1._is.good
        = true
    ∧ ((List.replicate 2147483648 (0 : Byte)).drop
        ((List.replicate 2147483648 (0 : Byte)).length
          - min (1 * 1024) (List.replicate 2147483648 (0 : Byte)).length)).length = 1024 := by
  have h : toInt32 (((List.replicate 2147483648 (0 : Byte)).length : Nat) : Int) < 0 := by
    rw [List.length_replicate]
    unfold toInt32
    omega
  obtain ⟨h1, -, -⟩ := readChunk_window_negative (List.replicate 2147483648 0) 1024 0 h
  obtain ⟨h2, h3⟩ := readChunks_one_negative (List.replicate 2147483648 0) 1024 0 h
  refine ⟨h1, h2, h3, ?_⟩
  rw [List.length_drop, List.length_replicate]
  omega

/-- The buffer after `k` calls on a good stream over a window of fewer than 2^31 bytes. -/
theorem readChunks_buf (w : List Byte) (c : Nat) (hN : w.length < 2147483648)
    (rp : Int) (k : Nat) :
    (readChunks k (construct (goodStream w) (c : Int)) rp).1.buf
        = w.drop (w.length - min (k * c) w.length)
    ∧ (readChunks k (construct (goodStream w) (c : Int)) rp).1.buf.length
        = min (k * c) w.length
    ∧ (readChunks k (construct (goodStream w) (c : Int)) rp).1._is.good = true := by
  have h := readChunks_good w c hN 0 (by omega) (by omega) k
  rw [(readChunks_indep k _ rp 0).1, h]
  refine ⟨rfl, ?_, rfl⟩
  show (w.drop (w.length - min (k * c) w.length)).length = _
  rw [List.length_drop]
  omega

/-- C13 (amended): for a window `w` of fewer than 2^31 bytes and every chunk size `c`, the
buffer is empty right after construction, and after any number `k` of `readChunk` calls on
a stream that stays good the buffer is the last `min (k * c) |w|` bytes of the window in
source order; the stream is still good. -/
theorem buffer_is_window_tail (w : List Byte) (c : Nat) (hN : w.length < 2147483648)
    (rp : Int) (k : Nat) :
    (construct (goodStream w) (c : Int)).buf = []
    ∧ (readChunks k (construct (goodStream w) (c : Int)) rp).1.buf
        = w.drop (w.length - min (k * c) w.length)
    ∧ (readChunks k (construct (goodStream w) (c : Int)) rp).1.buf.length
        = min (k * c) w.length
    ∧ (readChunks k (construct (goodStream w) (c : Int)) rp).1._is.good = true :=
  ⟨by rw [construct_good], readChunks_buf w c hN rp k⟩

/-- C13, amended, on a window of 7 bytes with chunk size 3, after 2 calls. -/
theorem buffer_is_window_tail_witness :
    ([1, 2, 3, 4, 5, 6, 7] : List Byte).length < 2147483648
    ∧ (construct (goodStream [1, 2, 3, 4, 5, 6, 7]) ((3 : Nat) : Int)).buf = []
    ∧ (readChunks 2 (construct (goodStream [1, 2, 3, 4, 5, 6, 7]) ((3 : Nat) : Int)) (-1)).1.buf
        = ([1, 2, 3, 4, 5, 6, 7] : List Byte).drop
            (([1, 2, 3, 4, 5, 6, 7] : List Byte).length
              - min (2 * 3) ([1, 2, 3, 4, 5, 6, 7] : List Byte).length)
    ∧ (readChunks 2 (construct (goodStream [1, 2, 3, 4, 5, 6, 7]) ((3 : Nat) : Int))
          (-1)).1.buf.length
        = min (2 * 3) ([1, 2, 3, 4, 5, 6, 7] : List Byte).length
    ∧ (readChunks 2 (construct (goodStream [1, 2, 3, 4, 5, 6, 7]) ((3 : Nat) : Int))
          (-1)).1._is.good = true :=
  ⟨by decide, buffer_is_window_tail [1, 2, 3, 4, 5, 6, 7] 3 (by decide) (-1) 2⟩

/-- C14: a `readChunk` call that prepends `n` bytes (its chunk size is not negative), made
with `read_pointer` at a position `p` of the buffer such that `p + n` is in the range of
`int`: the buffer afterwards is `n` new bytes followed by the old buffer, the updated
`read_pointer` is `p + n`, and the byte there is the byte that was at `p`.  The stream may
be in any state. -/
theorem readChunk_read_pointer (bb : BackBuffer) (p : Nat) (hp : p < bb.buf.length)
    (h0 : 0 ≤ min (toInt32 bb._file_pos) bb._chunk_size)
    (hfit : (p : Int) + min (toInt32 bb._file_pos) bb._chunk_size < 2147483648) :
    ∃ bytes : List Byte,
      (bytes.length : Int) = min (toInt32 bb._file_pos) bb._chunk_size
      ∧ (readChunk bb (p : Int)).1.buf = bytes ++ bb.buf
      ∧ (readChunk bb (p : Int)).2.1 = ((p + bytes.length : Nat) : Int)
      ∧ (readChunk bb (p : Int)).1.buf[p + bytes.length]? = bb.buf[p]?
      ∧ bb.buf[p]? ≠ none := by
  have hl := readByteSeq_length
    (vseekg bb._is (bb._file_pos - min (toInt32 bb._file_pos) bb._chunk_size) seekdir.beg)
    (min (toInt32 bb._file_pos) bb._chunk_size).toNat
  have hc : (((min (toInt32 bb._file_pos) bb._chunk_size).toNat : Nat) : Int)
      = min (toInt32 bb._file_pos) bb._chunk_size := Int.toNat_of_nonneg h0
  refine ⟨(readByteSeq
    (vseekg bb._is (bb._file_pos - min (toInt32 bb._file_pos) bb._chunk_size) seekdir.beg)
    (min (toInt32 bb._file_pos) bb._chunk_size).toNat).2, ?_, ?_, ?_, ?_, ?_⟩
  · rw [hl, hc]
  · unfold readChunk
    dsimp only
    rw [if_neg (by omega)]
  · unfold readChunk
    dsimp only
    rw [if_neg (by omega), hl]
    show toInt32 _ = _
    rw [toInt32_of_range _ (by omega) (by omega)]
    push_cast
    rw [hc]
  · have hb : (readChunk bb (p : Int)).1.buf
        = (readByteSeq
            (vseekg bb._is (bb._file_pos - min (toInt32 bb._file_pos) bb._chunk_size)
              seekdir.beg)
            (min (toInt32 bb._file_pos) bb._chunk_size).toNat).2 ++ bb.buf := by
      unfold readChunk
      dsimp only
      rw [if_neg (by omega)]
    rw [hb, List.getElem?_append_right (by omega)]
    congr 1
    omega
  · rw [List.getElem?_eq_getElem hp]
    exact Option.some_ne_none _

/-- C14 on the buffer that one call leaves for a window of 7 bytes with chunk size 3, with
`read_pointer` at position 1. -/
theorem readChunk_read_pointer_witness :
    (1 : Nat) < (afterCalls [1, 2, 3, 4, 5, 6, 7] 3 1).buf.length
    ∧ 0 ≤ min (toInt32 (afterCalls [1, 2, 3, 4, 5, 6, 7] 3 1)._file_pos)
        (afterCalls [1, 2, 3, 4, 5, 6, 7] 3 1)._chunk_size
    ∧ ((1 : Nat) : Int) + min (toInt32 (afterCalls [1, 2, 3, 4, 5, 6, 7] 3 1)._file_pos)
        (afterCalls [1, 2, 3, 4, 5, 6, 7] 3 1)._chunk_size < 2147483648
    ∧ ∃ bytes : List Byte,
      (bytes.length : Int) = min (toInt32 (afterCalls [1, 2, 3, 4, 5, 6, 7] 3 1)._file_pos)
        (afterCalls [1, 2, 3, 4, 5, 6, 7] 3 1)._chunk_size
      ∧ (readChunk (afterCalls [1, 2, 3, 4, 5, 6, 7] 3 1) ((1 : Nat) : Int)).1.buf
          = bytes ++ (afterCalls [1, 2, 3, 4, 5, 6, 7] 3 1).buf
      ∧ (readChunk (afterCalls [1, 2, 3, 4, 5, 6, 7] 3 1) ((1 : Nat) : Int)).2.1
          = ((1 + bytes.length : Nat) : Int)
      ∧ (readChunk (afterCalls [1, 2, 3, 4, 5, 6, 7] 3 1) ((1 : Nat) : Int)).1.buf[
            1 + bytes.length]?
          = (afterCalls [1, 2, 3, 4, 5, 6, 7] 3 1).buf[1]?
      ∧ (afterCalls [1, 2, 3, 4, 5, 6, 7] 3 1).buf[1]? ≠ none :=
  ⟨by decide, by decide, by decide,
    readChunk_read_pointer (afterCalls [1, 2, 3, 4, 5, 6, 7] 3 1) 1 (by decide) (by decide)
      (by decide)⟩

end BackBufferContent

section BackBufferTermination

open BackBuffer VirtualSeeker

/-- The returned sizes of the first `k` calls sum to `min (k * c) n`. -/
theorem returned_sum (n c k : Nat) :
    (((List.range k).map
        fun j => ChunkResult.returned ((min (n - j * c) c : Nat) : Int)).map
      ChunkResult.value).sum = ((min (k * c) n : Nat) : Int) := by
  induction k with
  | zero => simp
  | succ k ih =>
    rw [List.range_succ, List.map_append, List.map_append, List.sum_append, ih, ← sum_arith]
    simp [ChunkResult.value]

/-- Among the first `k` calls, those that return a positive value are the first
`min k ⌈n / c⌉`. -/
theorem returned_positive (n c k : Nat) (hc : 0 < c) :
    (((List.range k).map
        fun j => ChunkResult.returned ((min (n - j * c) c : Nat) : Int)).filter
      fun r => decide (0 < r.value)).length = min k ((n + c - 1) / c) := by
  induction k with
  | zero => simp
  | succ k ih =>
    rw [List.range_succ, List.map_append, List.filter_append, List.length_append, ih]
    have hk := ceil_arith n c k hc
    by_cases h : k * c < n
    · have h1 : (0 : Int) < ((min (n - k * c) c : Nat) : Int) := by omega
      have h2 := hk.mp h
      simp only [List.map_cons, List.map_nil, ChunkResult.value, List.filter_cons, h1,
        decide_True, if_true, List.filter_nil, List.length_singleton]
      omega
    · have h1 : ¬ (0 : Int) < ((min (n - k * c) c : Nat) : Int) := by omega
      have h2 : ¬ k < (n + c - 1) / c := fun h3 => h (hk.mpr h3)
      simp only [List.map_cons, List.map_nil, ChunkResult.value, List.filter_cons, h1,
        decide_False, List.filter_nil, List.length_nil]
      simp only [Bool.false_eq_true, if_false, List.length_nil]
      omega

/-- C15: for a window `w` of `n < 2^31` bytes and a chunk size `c > 0`, on a stream that
stays good and with a `read_pointer` that stays in the range of `int`: call `j` (counted
from 0) of the first `k` calls returns `min r c`, where `r = n - j * c` (0 when `j * c`
exceeds `n`) is the number of window bytes not yet read; the file position and the position
of the stream never go below the start of the window; once no byte is left (`n ≤ k * c`) a
further call returns 0 and leaves buffer and `read_pointer` as they are; the calls that
return a positive value are exactly the first `⌈n / c⌉`, and the returned sizes sum to
`min (k * c) n`, which is `n` from call `⌈n / c⌉` on. -/
theorem readChunk_stops_at_start (w : List Byte) (c : Nat) (hc : 0 < c)
    (hN : w.length < 2147483648) (rp : Int) (hrp1 : -2147483648 ≤ rp)
    (hrp2 : rp + (w.length : Int) < 2147483648) (k : Nat) :
    (readChunks k (construct (goodStream w) (c : Int)) rp).2.2
        = (List.range k).map
            (fun j => ChunkResult.returned ((min (w.length - j * c) c : Nat) : Int))
    ∧ 0 ≤ (readChunks k (construct (goodStream w) (c : Int)) rp).1._file_pos
    ∧ 0 ≤ (readChunks k (construct (goodStream w) (c : Int)) rp).1._is.pos
    ∧ (w.length ≤ k * c →
        (readChunk (readChunks k (construct (goodStream w) (c : Int)) rp).1
            (readChunks k (construct (goodStream w) (c : Int)) rp).2.1).2.2
          = ChunkResult.returned 0
        ∧ (readChunk (readChunks k (construct (goodStream w) (c : Int)) rp).1
            (readChunks k (construct (goodStream w) (c : Int)) rp).2.1).1.buf
          = (readChunks k (construct (goodStream w) (c : Int)) rp).1.buf
        ∧ (readChunk (readChunks k (construct (goodStream w) (c : Int)) rp).1
            (readChunks k (construct (goodStream w) (c : Int)) rp).2.1).2.1
          = (readChunks k (construct (goodStream w) (c : Int)) rp).2.1)
    ∧ (∀ j, j < k →
        (readChunks k (construct (goodStream w) (c : Int)) rp).2.2[j]?
          = some (ChunkResult.returned ((min (w.length - j * c) c : Nat) : Int))
        ∧ (0 < min (w.length - j * c) c ↔ j < (w.length + c - 1) / c))
    ∧ ((readChunks k (construct (goodStream w) (c : Int)) rp).2.2.filter
        fun r => decide (0 < r.value)).length = min k ((w.length + c - 1) / c)
    ∧ (((readChunks k (construct (goodStream w) (c : Int)) rp).2.2.map
        ChunkResult.value).sum = ((min (k * c) w.length : Nat) : Int))
    ∧ ((w.length + c - 1) / c ≤ k →
        ((readChunks k (construct (goodStream w) (c : Int)) rp).2.2.map
          ChunkResult.value).sum = (w.length : Int)) := by
  rw [readChunks_good w c hN rp hrp1 hrp2 k]
  dsimp only
  refine ⟨rfl, ?_, ?_, ?_, ?_, returned_positive _ _ _ hc, returned_sum _ _ _, ?_⟩
  · unfold afterCalls
    exact Int.ofNat_nonneg _
  · unfold afterCalls
    exact Int.ofNat_nonneg _
  · intro hle
    rw [readChunk_afterCalls w c hN rp hrp1 hrp2 k]
    dsimp only
    have e1 : min (w.length - k * c) c = 0 := by omega
    have e2 : min ((k + 1) * c) w.length = min (k * c) w.length := by
      rw [Nat.succ_mul]
      omega
    refine ⟨by rw [e1]; rfl, ?_, by rw [e2]⟩
    unfold afterCalls
    dsimp only
    rw [e2]
  · intro j hj
    refine ⟨?_, ?_⟩
    · rw [List.getElem?_map, List.getElem?_range hj]
      rfl
    · rw [← ceil_arith _ _ _ hc]
      omega
  · intro hle
    rw [returned_sum]
    have h1 : ¬ k < (w.length + c - 1) / c := by omega
    have h2 : ¬ k * c < w.length := fun h3 => h1 ((ceil_arith _ _ _ hc).mp h3)
    congr 1
    omega

/-- C15 on a window of 7 bytes with chunk size 3: the first 4 calls return 3, 3, 1 and 0. -/
theorem readChunk_stops_at_start_witness :
    0 < 3 ∧ ([1, 2, 3, 4, 5, 6, 7] : List Byte).length < 2147483648
    ∧ (-2147483648 : Int) ≤ -1
    ∧ (-1 : Int) + (([1, 2, 3, 4, 5, 6, 7] : List Byte).length : Int) < 2147483648
    ∧ (readChunks 4 (construct (goodStream [1, 2, 3, 4, 5, 6, 7]) ((3 : Nat) : Int)) (-1)).2.2
        = [ChunkResult.returned 3, ChunkResult.returned 3, ChunkResult.returned 1,
            ChunkResult.returned 0]
    ∧ (readChunks 4 (construct (goodStream [1, 2, 3, 4, 5, 6, 7]) ((3 : Nat) : Int)) (-1)).2.1
        = 6
    ∧ (([1, 2, 3, 4, 5, 6, 7] : List Byte).length + 3 - 1) / 3 = 3
    ∧ (((readChunks 4 (construct (goodStream [1, 2, 3, 4, 5, 6, 7]) ((3 : Nat) : Int))
          (-1)).2.2.map ChunkResult.value).sum
        = ((min (4 * 3) ([1, 2, 3, 4, 5, 6, 7] : List Byte).length : Nat) : Int)) :=
  ⟨by decide, by decide, by decide, by decide, by decide, by decide, by decide,
    (readChunk_stops_at_start [1, 2, 3, 4, 5, 6, 7] 3 (by decide) (by decide) (-1)
      (by decide) (by decide) 4).2.2.2.2.2.2.1⟩

/-- C16, as stated, fails.  On a window of 70000 zero bytes with chunk size 1024 and a good
stream, the buffer holds 66560 bytes after 65 calls of `readChunk`, more than
22 + 65535 = 65557, and the next call still grows it, to 67584 bytes. -/
theorem readChunk_past_sanity_limit :
    65557 < (readChunks 65 (construct (goodStream (List.replicate 70000 0))
        ((1024 : Nat) : Int)) (-1)).1.buf.length
    ∧ (readChunks 65 (construct (goodStream (List.replicate 70000 0))
        ((1024 : Nat) : Int)) (-1)).1.buf.length = 66560
    ∧ (readChunks 66 (construct (goodStream (List.replicate 70000 0))
        ((1024 : Nat) : Int)) (-1)).1.buf.length = 67584 := by
  have hN : (List.replicate 70000 (0 : Byte)).length < 2147483648 := by
    rw [List.length_replicate]
    omega
  have h65 := (readChunks_buf (List.replicate 70000 0) 1024 hN (-1) 65).2.1
  have h66 := (readChunks_buf (List.replicate 70000 0) 1024 hN (-1) 66).2.1
  rw [List.length_replicate] at h65 h66
  rw [h65, h66]
  omega

/-- C16 (amended): `readChunk` has no limit of its own.  For a window `w` of fewer than 2^31
bytes and chunk size `c`, on a stream that stays good, the buffer holds `min (k * c) |w|`
bytes after `k` calls, whatever that number is, and a further call adds
`min (|w| - k * c) c` bytes: it grows the buffer whenever bytes of the window are left and
`c > 0`.  Keeping the scan within 22 + 65535 bytes is left to the caller. -/
theorem readChunk_has_no_limit (w : List Byte) (c : Nat) (hN : w.length < 2147483648)
    (rp : Int) (k : Nat) :
    (readChunks k (construct (goodStream w) (c : Int)) rp).1.buf.length = min (k * c) w.length
    ∧ (readChunks (k + 1) (construct (goodStream w) (c : Int)) rp).1.buf.length
        = (readChunks k (construct (goodStream w) (c : Int)) rp).1.buf.length
            + min (w.length - k * c) c
    ∧ (k * c < w.length → 0 < c →
        (readChunks k (construct (goodStream w) (c : Int)) rp).1.buf.length
          < (readChunks (k + 1) (construct (goodStream w) (c : Int)) rp).1.buf.length) := by
  have h1 := (readChunks_buf w c hN rp k).2.1
  have h2 := (readChunks_buf w c hN rp (k + 1)).2.1
  rw [h1, h2, ← sum_arith]
  refine ⟨rfl, rfl, ?_⟩
  intro h3 h4
  omega

/-- C16, amended, on a window of 7 bytes with chunk size 3, for the second call. -/
theorem readChunk_has_no_limit_witness :
    ([1, 2, 3, 4, 5, 6, 7] : List Byte).length < 2147483648
    ∧ (readChunks 1 (construct (goodStream [1, 2, 3, 4, 5, 6, 7]) ((3 : Nat) : Int))
        (-1)).1.buf.length = min (1 * 3) ([1, 2, 3, 4, 5, 6, 7] : List Byte).length
    ∧ (readChunks (1 + 1) (construct (goodStream [1, 2, 3, 4, 5, 6, 7]) ((3 : Nat) : Int))
        (-1)).1.buf.length
        = (readChunks 1 (construct (goodStream [1, 2, 3, 4, 5, 6, 7]) ((3 : Nat) : Int))
            (-1)).1.buf.length
          + min (([1, 2, 3, 4, 5, 6, 7] : List Byte).length - 1 * 3) 3
    ∧ (1 * 3 < ([1, 2, 3, 4, 5, 6, 7] : List Byte).length → 0 < 3 →
        (readChunks 1 (construct (goodStream [1, 2, 3, 4, 5, 6, 7]) ((3 : Nat) : Int))
            (-1)).1.buf.length
          < (readChunks (1 + 1) (construct (goodStream [1, 2, 3, 4, 5, 6, 7]) ((3 : Nat) : Int))
            (-1)).1.buf.length) :=
  ⟨by decide, readChunk_has_no_limit [1, 2, 3, 4, 5, 6, 7] 3 (by decide) (-1) 1⟩

/-- C17: a `readChunk` call that reads a chunk (its chunk size is not negative) returns 0
when the stream is not good afterwards, and when the stream is good it returns the number
of bytes it has put in front of the buffer.  In both cases the call returns. -/
theorem readChunk_result (bb : BackBuffer) (rp : Int)
    (h0 : 0 ≤ min (toInt32 bb._file_pos) bb._chunk_size) :
    (∃ n, (readChunk bb rp).2.2 = ChunkResult.returned n)
    ∧ ((readChunk bb rp).1._is.good = false →
        (readChunk bb rp).2.2 = ChunkResult.returned 0)
    ∧ ((readChunk bb rp).1._is.good = true →
        ∃ bytes : List Byte, (readChunk bb rp).1.buf = bytes ++ bb.buf
          ∧ (readChunk bb rp).2.2 = ChunkResult.returned (bytes.length : Int)) := by
  have hl := readByteSeq_length
    (vseekg bb._is (bb._file_pos - min (toInt32 bb._file_pos) bb._chunk_size) seekdir.beg)
    (min (toInt32 bb._file_pos) bb._chunk_size).toNat
  have hc : (((min (toInt32 bb._file_pos) bb._chunk_size).toNat : Nat) : Int)
      = min (toInt32 bb._file_pos) bb._chunk_size := Int.toNat_of_nonneg h0
  unfold readChunk
  dsimp only
  rw [if_neg (by omega)]
  dsimp only
  refine ⟨⟨_, rfl⟩, ?_, ?_⟩
  · intro hg
    rw [hg]
    rfl
  · intro hg
    refine ⟨_, rfl, ?_⟩
    rw [hg, hl, hc]
    rfl

/-- C17 on a stream whose source fails at the first read: the call returns 0, and the three
bytes it inserted are in the buffer. -/
theorem readChunk_result_witness :
    0 ≤ min (toInt32 (construct (failingStream [1, 2, 3, 4, 5, 6, 7]) 3)._file_pos)
        (construct (failingStream [1, 2, 3, 4, 5, 6, 7]) 3)._chunk_size
    ∧ (readChunk (construct (failingStream [1, 2, 3, 4, 5, 6, 7]) 3) (-1)).1._is.good = false
    ∧ (readChunk (construct (failingStream [1, 2, 3, 4, 5, 6, 7]) 3) (-1)).2.2 = ChunkResult.returned 0
    ∧ (readChunk (construct (failingStream [1, 2, 3, 4, 5, 6, 7]) 3) (-1)).1.buf = [0, 0, 0] :=
  ⟨by decide, by decide,
    (readChunk_result (construct (failingStream [1, 2, 3, 4, 5, 6, 7]) 3) (-1) (by decide)).2.1 (by decide),
    by decide⟩

end BackBufferTermination

/-! ## Directory-backed entries -/

section DirectoryEntries

open DirectoryEntry

/-- C18: on every directory-backed entry and for every argument, `setCompressedSize`,
`setCrc`, `setExtra` and `setMethod` change nothing: the entry is the same afterwards, and so
is every value a getter returns (comment, size, compressed size, CRC, has-CRC flag, extra,
method, name, file name, time, entry offset, header size, directory flag, validity,
`toString`). -/
theorem ignored_setters (T : DosTime) (e : DirectoryEntry) (size crc : Nat)
    (extra : List Byte) (method : StorageMethod) :
    e.setCompressedSize size = e ∧ e.setCrc crc = e ∧ e.setExtra extra = e
    ∧ e.setMethod method = e
    ∧ (e.setCompressedSize size).observe T = e.observe T
    ∧ (e.setCrc crc).observe T = e.observe T
    ∧ (e.setExtra extra).observe T = e.observe T
    ∧ (e.setMethod method).observe T = e.observe T :=
  ⟨rfl, rfl, rfl, rfl, rfl, rfl, rfl, rfl⟩

/-- Facts that hold on every entry a sequence of setter calls leaves: what no setter
assigns is as the constructor set it. -/
theorem run_frame (T : DosTime) (calls : List Setter) :
    ∀ e : DirectoryEntry,
      (e.run T calls).m_filename = e.m_filename
      ∧ (e.run T calls).m_crc_32 = e.m_crc_32
      ∧ (e.run T calls).m_has_crc_32 = e.m_has_crc_32
      ∧ (e.run T calls).m_compress_method = e.m_compress_method
      ∧ (e.run T calls).m_extra_field = e.m_extra_field
      ∧ (e.run T calls).m_directory = e.m_directory
      ∧ (e.run T calls).m_valid = e.m_valid
      ∧ ((∀ r, Setter.setSize r ∉ calls) →
          (e.run T calls).m_uncompressed_size = e.m_uncompressed_size) := by
  induction calls with
  | nil =>
    intro e
    exact ⟨rfl, rfl, rfl, rfl, rfl, rfl, rfl, fun _ => rfl⟩
  | cons c cs ih =>
    intro e
    obtain ⟨h1, h2, h3, h4, h5, h6, h7, h8⟩ := ih (Setter.apply T e c)
    have hrun : e.run T (c :: cs) = (Setter.apply T e c).run T cs := rfl
    rw [hrun, h1, h2, h3, h4, h5, h6, h7]
    refine ⟨?_, ?_, ?_, ?_, ?_, ?_, ?_, ?_⟩
    · cases c <;> rfl
    · cases c <;> rfl
    · cases c <;> rfl
    · cases c <;> rfl
    · cases c <;> rfl
    · cases c <;> rfl
    · cases c <;> rfl
    · intro hno
      rw [h8 (fun r hr => hno r (List.mem_cons_of_mem _ hr))]
      cases c with
      | setSize r => exact absurd (List.mem_cons_self _ _) (hno r)
      | _ => rfl

/-- C19, as stated, fails.  The entry of the directory `filepath-test`, after `setSize(5)`,
is a directory and valid, and its size and compressed size are 5. -/
theorem directory_with_size :
    (testDirectoryEntry.run sampleDosTime [Setter.setSize 5]).isDirectory = true
    ∧ (testDirectoryEntry.run sampleDosTime [Setter.setSize 5]).getSize = 5
    ∧ (testDirectoryEntry.run sampleDosTime [Setter.setSize 5]).getCompressedSize = 5
    ∧ (testDirectoryEntry.run sampleDosTime [Setter.setSize 5]).toString
        = "filepath-test (directory)" := by
  decide

/-- The entry after a sequence of setter calls followed by one more call. -/
theorem run_snoc (T : DosTime) (e : DirectoryEntry) (calls : List Setter) (x : Setter) :
    e.run T (calls ++ [x]) = Setter.apply T (e.run T calls) x := by
  unfold DirectoryEntry.run
  rw [List.foldl_append]
  rfl

/-- C19 (amended): on every entry reachable from construction by a sequence of setter calls
the CRC-32 is 0 without being known, the method is STORED, the extra field is empty and the
compressed size is the size; the entry is a directory exactly when the probe found one; the
size of a directory is 0 as long as `setSize` has not been called, and after a further
`setSize(r)` with a `size_t` value `r` the size and the compressed size are `r`, the
directory flag being as before. -/
theorem directory_invariant (T : DosTime) (filename comment : String) (probe : PathKind)
    (calls : List Setter) :
    ((construct filename comment probe).run T calls).getCrc = 0
    ∧ ((construct filename comment probe).run T calls).hasCrc = false
    ∧ ((construct filename comment probe).run T calls).getMethod = StorageMethod.STORED
    ∧ ((construct filename comment probe).run T calls).getExtra = []
    ∧ ((construct filename comment probe).run T calls).getCompressedSize
        = ((construct filename comment probe).run T calls).getSize
    ∧ (((construct filename comment probe).run T calls).isDirectory = true
        ↔ ∃ mtime, probe = PathKind.directory mtime)
    ∧ ((∀ r, Setter.setSize r ∉ calls) →
        ((construct filename comment probe).run T calls).isDirectory = true →
        ((construct filename comment probe).run T calls).getSize = 0)
    ∧ (∀ r, r < 18446744073709551616 →
        ((construct filename comment probe).run T (calls ++ [Setter.setSize r])).getSize = r
        ∧ ((construct filename comment probe).run T
            (calls ++ [Setter.setSize r])).getCompressedSize = r
        ∧ ((construct filename comment probe).run T (calls ++ [Setter.setSize r])).isDirectory
            = ((construct filename comment probe).run T calls).isDirectory) := by
  obtain ⟨-, h2, h3, h4, h5, h6, -, h8⟩ := run_frame T calls (construct filename comment probe)
  have hd : ((construct filename comment probe).m_directory = true
      ↔ ∃ mtime, probe = PathKind.directory mtime) := by
    cases probe <;> simp [construct]
  refine ⟨h2, h3, h4, h5, rfl, ?_, ?_, ?_⟩
  · show ((construct filename comment probe).run T calls).m_directory = true ↔ _
    rw [h6]
    exact hd
  · intro hno hdir
    show ((construct filename comment probe).run T calls).m_uncompressed_size = 0
    rw [h8 hno]
    have hdir2 : ((construct filename comment probe).run T calls).m_directory = true := hdir
    rw [h6] at hdir2
    obtain ⟨mtime, rfl⟩ := hd.mp hdir2
    rfl
  · intro r hr
    rw [run_snoc]
    have h : (Setter.apply T ((construct filename comment probe).run T calls)
        (Setter.setSize r)).getSize = r := Nat.mod_eq_of_lt hr
    exact ⟨h, h, rfl⟩

/-- C20: `setSize(r)` with a `size_t` value `r` (below 2^64, so also one that does not fit 32
bits): `getSize()` and `getCompressedSize()` return `r` afterwards, and comment, CRC, has-CRC
flag, extra, method, name, file name, DOS and Unix time, entry offset, header size, directory
flag and validity are as before. -/
theorem setSize_taken_as_is (T : DosTime) (e : DirectoryEntry) (r : Nat)
    (hr : r < 18446744073709551616) :
    (e.setSize r).getSize = r ∧ (e.setSize r).getCompressedSize = r
    ∧ (e.setSize r).getComment = e.getComment ∧ (e.setSize r).getCrc = e.getCrc
    ∧ (e.setSize r).hasCrc = e.hasCrc ∧ (e.setSize r).getExtra = e.getExtra
    ∧ (e.setSize r).getMethod = e.getMethod ∧ (e.setSize r).getName = e.getName
    ∧ (e.setSize r).getFileName = e.getFileName ∧ (e.setSize r).getTime T = e.getTime T
    ∧ (e.setSize r).getUnixTime = e.getUnixTime
    ∧ (e.setSize r).getEntryOffset = e.getEntryOffset
    ∧ (e.setSize r).getHeaderSize = e.getHeaderSize
    ∧ (e.setSize r).isDirectory = e.isDirectory ∧ (e.setSize r).isValid = e.isValid := by
  have h : (e.setSize r).getSize = r := Nat.mod_eq_of_lt hr
  exact ⟨h, h, rfl, rfl, rfl, rfl, rfl, rfl, rfl, rfl, rfl, rfl, rfl, rfl, rfl⟩

/-- C20 on the entry of the directory `filepath-test` with a size above 2^32. -/
theorem setSize_taken_as_is_witness :
    4294967303 < 18446744073709551616
    ∧ (testDirectoryEntry.setSize 4294967303).getSize = 4294967303
    ∧ (testDirectoryEntry.setSize 4294967303).getCompressedSize = 4294967303
    ∧ (testDirectoryEntry.setSize 4294967303).isDirectory = testDirectoryEntry.isDirectory :=
  ⟨by decide,
    (setSize_taken_as_is sampleDosTime testDirectoryEntry 4294967303 (by decide)).1,
    (setSize_taken_as_is sampleDosTime testDirectoryEntry 4294967303 (by decide)).2.1,
    by decide⟩

/-- C21: the clone of an entry is equal to the entry in both directions, and every getter
returns on the clone what it returns on the entry. -/
theorem clone_equal (T : DosTime) (e : DirectoryEntry) :
    isEqual T e.clone e = true ∧ isEqual T e e.clone = true
    ∧ e.clone.observe T = e.observe T := by
  refine ⟨?_, ?_, rfl⟩ <;> simp [isEqual, clone]

/-- C22: `isEqual` holds exactly when name, comment, size, compressed size, CRC-32, method,
DOS time, extra and the directory flag all match; it is reflexive and symmetric, two entries
built from the same path (with the same comment, the probe finding the same) are equal, and
two entries whose names differ are not equal, as `/this/...` and `this/...` or
`filepath-test` and `filepath-test.txt`. -/
theorem isEqual_fieldwise (T : DosTime) (a b : DirectoryEntry) :
    (isEqual T a b = true ↔
      (a.getName = b.getName ∧ a.getComment = b.getComment ∧ a.getSize = b.getSize
        ∧ a.getCompressedSize = b.getCompressedSize ∧ a.getCrc = b.getCrc
        ∧ a.getMethod = b.getMethod ∧ a.getTime T = b.getTime T ∧ a.getExtra = b.getExtra
        ∧ a.isDirectory = b.isDirectory))
    ∧ isEqual T a a = true
    ∧ isEqual T a b = isEqual T b a
    ∧ (∀ (filename comment : String) (probe : PathKind),
        isEqual T (construct filename comment probe) (construct filename comment probe) = true)
    ∧ (a.getName ≠ b.getName → isEqual T a b = false)
    ∧ isEqual T testMissingEntry (construct testRelativePath ("") PathKind.missing) = false
    ∧ isEqual T (construct testDirectoryPath ("") PathKind.missing)
        (construct testFilePath ("") PathKind.missing) = false := by
  have hne1 : testMissingEntry.getName ≠ (construct testRelativePath ("") PathKind.missing).getName := by
    decide
  have hne2 : (construct testDirectoryPath ("") PathKind.missing).getName
      ≠ (construct testFilePath ("") PathKind.missing).getName := by
    decide
  refine ⟨by simp [isEqual], by simp [isEqual], ?_, fun _ _ _ => by simp [isEqual], ?_, ?_, ?_⟩
  · unfold isEqual
    rw [decide_eq_decide]
    constructor <;>
      exact fun ⟨h1, h2, h3, h4, h5, h6, h7, h8, h9⟩ =>
        ⟨h1.symm, h2.symm, h3.symm, h4.symm, h5.symm, h6.symm, h7.symm, h8.symm, h9.symm⟩
  · intro hne
    simp [isEqual, hne]
  · simp [isEqual, hne1]
  · simp [isEqual, hne2]

/-- C23: after `setUnixTime(r)`, for every `r` (so also for every `r` from 315561600 to
4354847999, odd seconds included), `getUnixTime()` returns `r`, `getTime()` returns
`unix2dostime(r)`, and no other attribute has changed. -/
theorem setUnixTime_round_trip (T : DosTime) (e : DirectoryEntry) (r : Int) :
    (e.setUnixTime r).getUnixTime = r
    ∧ (e.setUnixTime r).getTime T = T.unix2dostime r
    ∧ (e.setUnixTime r).getComment = e.getComment
    ∧ (e.setUnixTime r).getSize = e.getSize
    ∧ (e.setUnixTime r).getCompressedSize = e.getCompressedSize
    ∧ (e.setUnixTime r).getCrc = e.getCrc ∧ (e.setUnixTime r).hasCrc = e.hasCrc
    ∧ (e.setUnixTime r).getExtra = e.getExtra ∧ (e.setUnixTime r).getMethod = e.getMethod
    ∧ (e.setUnixTime r).getName = e.getName
    ∧ (e.setUnixTime r).getFileName = e.getFileName
    ∧ (e.setUnixTime r).getEntryOffset = e.getEntryOffset
    ∧ (e.setUnixTime r).getHeaderSize = e.getHeaderSize
    ∧ (e.setUnixTime r).isDirectory = e.isDirectory
    ∧ (e.setUnixTime r).isValid = e.isValid
    ∧ (e.setUnixTime r).toString = e.toString :=
  ⟨rfl, rfl, rfl, rfl, rfl, rfl, rfl, rfl, rfl, rfl, rfl, rfl, rfl, rfl, rfl, rfl⟩

/-- C24, as stated, fails.  The entry of the directory `filepath-test` is a directory, and
its name, `filepath-test`, does not end with `/`. -/
theorem directory_without_slash :
    testDirectoryEntry.isDirectory = true
    ∧ testDirectoryEntry.getName = "filepath-test"
    ∧ endsWithSlash testDirectoryEntry.getName = false := by
  decide

/-- C24 (amended): the directory flag of a directory-backed entry is what the probe of the
path found at construction: the entry is a directory exactly when the path is a directory
on disk, whatever its name is, and no sequence of setter calls changes the flag or the
name. -/
theorem directory_flag_from_probe (T : DosTime) (filename comment : String)
    (probe : PathKind) (calls : List Setter) :
    (((construct filename comment probe).run T calls).isDirectory = true
        ↔ ∃ mtime, probe = PathKind.directory mtime)
    ∧ ((construct filename comment probe).run T calls).getName = filename := by
  obtain ⟨h1, -, -, -, -, h6, -, -⟩ := run_frame T calls (construct filename comment probe)
  refine ⟨?_, h1⟩
  show ((construct filename comment probe).run T calls).m_directory = true ↔ _
  rw [h6]
  cases probe <;> simp [construct]

end DirectoryEntries

/-! ## File collections -/

section Collections

open FileCollection DirectoryEntry

/-- C25: `getEntry(name, MATCH)` returns the first entry in list order whose name is `name`,
`getEntry(name, IGNORE)` the first one whose file name (the name without its leading
directory components) is `name`; each returns no entry exactly when no entry matches; and
`MATCH` is the policy when none is given.  In scenario S2, `c.txt` is found with `IGNORE`,
as `a/c.txt`, and not with `MATCH`. -/
theorem getEntry_policy (c : FileCollection) (name : String) :
    (∀ e, c.getEntry name MatchPath.MATCH = some e ↔
        (e.getName = name ∧ ∃ front back, c.m_entries = front ++ e :: back
          ∧ ∀ x ∈ front, x.getName ≠ name))
    ∧ (c.getEntry name MatchPath.MATCH = none ↔ ∀ x ∈ c.m_entries, x.getName ≠ name)
    ∧ (∀ e, c.getEntry name MatchPath.IGNORE = some e ↔
        (e.getFileName = name ∧ ∃ front back, c.m_entries = front ++ e :: back
          ∧ ∀ x ∈ front, x.getFileName ≠ name))
    ∧ (c.getEntry name MatchPath.IGNORE = none ↔ ∀ x ∈ c.m_entries, x.getFileName ≠ name)
    ∧ c.getEntryDefault name = c.getEntry name MatchPath.MATCH
    ∧ scenarioS2.getEntry ("c.txt") MatchPath.IGNORE = some (namedEntry ("a/c.txt"))
    ∧ scenarioS2.getEntry ("c.txt") MatchPath.MATCH = none := by
  refine ⟨?_, ?_, ?_, ?_, rfl, by decide, by decide⟩
  · intro e
    unfold getEntry
    rw [List.find?_eq_some]
    simp
  · unfold getEntry
    rw [List.find?_eq_none]
    simp
  · intro e
    unfold getEntry
    rw [List.find?_eq_some]
    simp
  · unfold getEntry
    rw [List.find?_eq_none]
    simp

end Collections

/-! ## `sync`, `overflow` and the output buffer -/

section Steps

variable {σ : Type}

open DeflateOutputStreambuf

/-- C26: `sync()` does nothing, in every state: it returns 0 and the object is the same
afterwards, so nothing was given to the codec (the history of codec calls is the same),
nothing was delivered downstream, and the CRC, the byte count, the pending input (the put
area and the input window of the codec) and the bytes-to-skip counter are unchanged. -/
theorem sync_is_noop (s : DeflateOutputStreambuf σ) :
    (sync s).2 = Outcome.ok 0
    ∧ (sync s).1.calls = s.calls
    ∧ (sync s).1.m_outbuf = s.m_outbuf
    ∧ getCrc32 (sync s).1 = getCrc32 s
    ∧ getSize (sync s).1 = getSize s
    ∧ (sync s).1.put = s.put
    ∧ (sync s).1.zs_in = s.zs_in
    ∧ (sync s).1.outvec = s.outvec
    ∧ (sync s).1.m_bytes_to_skip = s.m_bytes_to_skip
    ∧ (sync s).1.m_zs_initialized = s.m_zs_initialized :=
  ⟨rfl, rfl, rfl, rfl, rfl, rfl, rfl, rfl, rfl, rfl⟩

theorem flushWrite_calls (s : DeflateOutputStreambuf σ) (o n : Nat) :
    (flushWrite s o n).1.calls = s.calls
      ∧ ((flushWrite s o n).2 = Outcome.ok () → (flushWrite s o n).1.outvec = []) := by
  unfold flushWrite
  dsimp only
  split_ifs
  · exact ⟨rfl, fun h => by cases h⟩
  · exact ⟨rfl, fun _ => rfl⟩
  · exact ⟨rfl, fun _ => rfl⟩

/-- `flushOutvec` makes no codec call, and when it returns the output buffer is empty. -/
theorem flushOutvec_calls (b : Nat) (s : DeflateOutputStreambuf σ) :
    (flushOutvec b s).1.calls = s.calls
      ∧ ((flushOutvec b s).2 = Outcome.ok () → (flushOutvec b s).1.outvec = []) := by
  unfold flushOutvec
  dsimp only
  split_ifs <;> exact flushWrite_calls _ _ _

/-- The head of both loops: no codec call is made, and when it returns (with a buffer of
positive size) there is room in the output buffer. -/
theorem flushIfFull_calls (b : Nat) (hb : 0 < b) (s : DeflateOutputStreambuf σ) :
    (flushIfFull b s).1.calls = s.calls
      ∧ ((flushIfFull b s).2 = Outcome.ok () → 1 ≤ (flushIfFull b s).1.avail_out b) := by
  unfold flushIfFull
  split_ifs with h
  · refine ⟨(flushOutvec_calls b s).1, fun hok => ?_⟩
    unfold avail_out
    rw [(flushOutvec_calls b s).2 hok]
    exact hb
  · exact ⟨rfl, fun _ => Nat.one_le_iff_ne_zero.mpr h⟩

/-- The history after a `deflate` step. -/
theorem callDeflate_calls (C : Codec σ) (b : Nat) (flush : Int) (s : DeflateOutputStreambuf σ) :
    ∃ x, (callDeflate C b flush s).1.calls = s.calls ++ [x]
      ∧ x = CodecCall.deflate flush s.zs_in.length (s.avail_out b)
          (min (C.deflate s.m_zs s.zs_in (s.avail_out b) flush).consumed s.zs_in.length)
          ((C.deflate s.m_zs s.zs_in (s.avail_out b) flush).produced.take (s.avail_out b))
          (callDeflate C b flush s).2 :=
  ⟨_, rfl, rfl⟩

/-- Every `deflate` step of the loop of `overflow` is made with room in the output buffer. -/
theorem overflowLoop_room (C : Codec σ) (b : Nat) (hb : 0 < b) :
    ∀ (fuel : Nat) (s : DeflateOutputStreambuf σ) (err : Int),
      ∃ new, (overflowLoop C b fuel s err).1.calls = s.calls ++ new
        ∧ ∀ x ∈ new, x.hasRoom := by
  intro fuel
  induction fuel with
  | zero =>
    intro s err
    rw [overflowLoop_zero]
    refine ⟨[], ?_, fun x hx => by cases hx⟩
    split_ifs <;> simp
  | succ n ih =>
    intro s err
    rw [overflowLoop_succ]
    split_ifs with hc
    · obtain ⟨h1, h2⟩ := flushIfFull_calls b hb s
      generalize flushIfFull b s = r at h1 h2
      rcases r with ⟨s1, v | e | _⟩
      · rw [Res.andThen_ok]
        obtain ⟨new, hn, hr⟩ := ih (callDeflate C b Z_NO_FLUSH s1).1
          (callDeflate C b Z_NO_FLUSH s1).2
        obtain ⟨x, hx, hxe⟩ := callDeflate_calls C b Z_NO_FLUSH s1
        refine ⟨x :: new, ?_, ?_⟩
        · rw [hn, hx, h1]
          simp
        · intro y hy
          rcases List.mem_cons.mp hy with rfl | hy
          · rw [hxe]
            exact h2 rfl
          · exact hr y hy
      · exact ⟨[], by simpa [Res.andThen] using h1, fun x hx => by cases hx⟩
      · exact ⟨[], by simpa [Res.andThen] using h1, fun x hx => by cases hx⟩
    · exact ⟨[], by simp, fun x hx => by cases hx⟩

/-- Every `deflate` step of the loop of `endDeflation` is made with room in the output
buffer. -/
theorem finishLoop_room (C : Codec σ) (b : Nat) (hb : 0 < b) :
    ∀ (fuel : Nat) (s : DeflateOutputStreambuf σ) (err : Int),
      ∃ new, (finishLoop C b fuel s err).1.calls = s.calls ++ new
        ∧ ∀ x ∈ new, x.hasRoom := by
  intro fuel
  induction fuel with
  | zero =>
    intro s err
    rw [finishLoop_zero]
    refine ⟨[], ?_, fun x hx => by cases hx⟩
    split_ifs <;> simp
  | succ n ih =>
    intro s err
    rw [finishLoop_succ]
    split_ifs with hc
    · obtain ⟨h1, h2⟩ := flushIfFull_calls b hb s
      generalize flushIfFull b s = r at h1 h2
      rcases r with ⟨s1, v | e | _⟩
      · rw [Res.andThen_ok]
        obtain ⟨new, hn, hr⟩ := ih (callDeflate C b Z_FINISH s1).1
          (callDeflate C b Z_FINISH s1).2
        obtain ⟨x, hx, hxe⟩ := callDeflate_calls C b Z_FINISH s1
        refine ⟨x :: new, ?_, ?_⟩
        · rw [hn, hx, h1]
          simp
        · intro y hy
          rcases List.mem_cons.mp hy with rfl | hy
          · rw [hxe]
            exact h2 rfl
          · exact hr y hy
      · exact ⟨[], by simpa [Res.andThen] using h1, fun x hx => by cases hx⟩
      · exact ⟨[], by simpa [Res.andThen] using h1, fun x hx => by cases hx⟩
    · exact ⟨[], by simp, fun x hx => by cases hx⟩

end Steps

section Room

variable {σ : Type}

open DeflateOutputStreambuf

/-- Every `deflate` step of `overflow(c)` is made with room in the output buffer. -/
theorem overflow_room (C : Codec σ) (b : Nat) (hb : 0 < b) (c : Option Byte)
    (s : DeflateOutputStreambuf σ) :
    ∃ new, (overflow C b c s).1.calls = s.calls ++ new ∧ ∀ x ∈ new, x.hasRoom := by
  unfold overflow
  dsimp only
  refine Res.andThen_inv (fun t => ∃ new, t.calls = s.calls ++ new ∧ ∀ x ∈ new, x.hasRoom)
    _ _ ?_ ?_
  · exact overflowLoop_room C b hb _ _ _
  · intro s2 err h2
    refine Res.andThen_inv (fun t => ∃ new, t.calls = s.calls ++ new ∧ ∀ x ∈ new, x.hasRoom)
      _ _ ?_ ?_
    · beta_reduce
      rw [(flushOutvec_calls b s2).1]
      exact h2
    · intro s3 _ h3
      split_ifs
      · exact h3
      · cases c <;> exact h3

/-- When `overflow(c)` returns, the output buffer is empty: it was flushed after the last
step. -/
theorem overflow_ok_outvec (C : Codec σ) (b : Nat) (c : Option Byte)
    (s : DeflateOutputStreambuf σ) (v : Int) (h : (overflow C b c s).2 = Outcome.ok v) :
    (overflow C b c s).1.outvec = [] := by
  unfold overflow at h ⊢
  dsimp only at h ⊢
  generalize overflowLoop C b _ _ Z_OK = r1 at h ⊢
  rcases r1 with ⟨s2, err | e | _⟩
  · rw [Res.andThen_ok] at h ⊢
    have h2 := (flushOutvec_calls b s2).2
    generalize flushOutvec b s2 = r2 at h h2 ⊢
    rcases r2 with ⟨s3, u | e | _⟩
    · rw [Res.andThen_ok] at h ⊢
      have h3 : s3.outvec = [] := h2 rfl
      by_cases he : err ≠ Z_OK ∧ err ≠ Z_STREAM_END
      · rw [if_pos he] at h
        cases h
      · rw [if_neg he]
        cases c <;> exact h3
    · cases h
    · cases h
  · cases h
  · cases h

/-- Every `deflate` step of `endDeflation()` is made with room in the output buffer. -/
theorem endDeflation_room (C : Codec σ) (b : Nat) (hb : 0 < b)
    (s : DeflateOutputStreambuf σ) :
    ∃ new, (endDeflation C b s).1.calls = s.calls ++ new ∧ ∀ x ∈ new, x.hasRoom := by
  unfold endDeflation
  refine Res.andThen_inv (fun t => ∃ new, t.calls = s.calls ++ new ∧ ∀ x ∈ new, x.hasRoom)
    _ _ ?_ ?_
  · exact overflow_room C b hb none s
  · intro s1 _ h1
    dsimp only
    refine Res.andThen_inv (fun t => ∃ new, t.calls = s.calls ++ new ∧ ∀ x ∈ new, x.hasRoom)
      _ _ ?_ ?_
    · beta_reduce
      obtain ⟨new1, hn1, hr1⟩ := h1
      split_ifs
      · obtain ⟨new2, hn2, hr2⟩ := finishLoop_room C b hb
          (C.measure Z_FINISH s1.m_zs s1.zs_in.length + 1)
          ({ s1 with outvec := [] } : DeflateOutputStreambuf σ) Z_OK
        refine ⟨new1 ++ new2, ?_, ?_⟩
        · rw [hn2]
          show s1.calls ++ new2 = _
          rw [hn1, List.append_assoc]
        · intro x hx
          rcases List.mem_append.mp hx with hx | hx
          · exact hr1 x hx
          · exact hr2 x hx
      · exact ⟨new1, hn1, hr1⟩
    · intro s3 err h3
      refine Res.andThen_inv
        (fun t => ∃ new, t.calls = s.calls ++ new ∧ ∀ x ∈ new, x.hasRoom) _ _ ?_ ?_
      · beta_reduce
        rw [(flushOutvec_calls b s3).1]
        exact h3
      · intro s4 _ h4
        split_ifs
        · exact h4
        · exact h4

/-- When `endDeflation()` returns, the output buffer is empty. -/
theorem endDeflation_ok_outvec (C : Codec σ) (b : Nat) (s : DeflateOutputStreambuf σ)
    (h : (endDeflation C b s).2 = Outcome.ok ()) : (endDeflation C b s).1.outvec = [] := by
  unfold endDeflation at h ⊢
  generalize overflow C b none s = r0 at h ⊢
  rcases r0 with ⟨s1, v | e | _⟩
  · rw [Res.andThen_ok] at h ⊢
    dsimp only at h ⊢
    generalize (if s1.m_overflown_bytes > 0 then
        finishLoop C b (C.measure Z_FINISH s1.m_zs s1.zs_in.length + 1)
          ({ s1 with outvec := [] } : DeflateOutputStreambuf σ) Z_OK
      else (({ s1 with outvec := [] } : DeflateOutputStreambuf σ), Outcome.ok Z_STREAM_END))
      = r1 at h ⊢
    rcases r1 with ⟨s3, err | e | _⟩
    · rw [Res.andThen_ok] at h ⊢
      have h2 := (flushOutvec_calls b s3).2
      generalize flushOutvec b s3 = r2 at h h2 ⊢
      rcases r2 with ⟨s4, u | e | _⟩
      · rw [Res.andThen_ok] at h ⊢
        have h3 : s4.outvec = [] := h2 rfl
        split_ifs
        · exact h3
        · exact h3
      · cases h
      · cases h
    · cases h
    · cases h
  · cases h
  · cases h

/-- C30: with a buffer of positive size, every `deflate` call that `overflow(c)` and
`endDeflation()` make is made with at least 1 byte of room in the output buffer (the history
of codec calls grows by calls that all have room), and when either returns the output buffer
is empty: it has been flushed after the last step. -/
theorem deflate_has_room (C : Codec σ) (getBufferSize : Nat) (hb : 0 < getBufferSize)
    (c : Option Byte) (s : DeflateOutputStreambuf σ) :
    (∃ new, (overflow C getBufferSize c s).1.calls = s.calls ++ new
        ∧ ∀ x ∈ new, x.hasRoom)
    ∧ (∃ new, (endDeflation C getBufferSize s).1.calls = s.calls ++ new
        ∧ ∀ x ∈ new, x.hasRoom)
    ∧ (∀ v, (overflow C getBufferSize c s).2 = Outcome.ok v →
        (overflow C getBufferSize c s).1.outvec = [])
    ∧ ((endDeflation C getBufferSize s).2 = Outcome.ok () →
        (endDeflation C getBufferSize s).1.outvec = []) :=
  ⟨overflow_room C getBufferSize hb c s, endDeflation_room C getBufferSize hb s,
    fun v h => overflow_ok_outvec C getBufferSize c s v h,
    fun h => endDeflation_ok_outvec C getBufferSize s h⟩

end Room

section OverflowErrors

variable {σ : Type}

open DeflateOutputStreambuf

theorem feedSteps_nil (C : Codec σ) (zs : σ) (inp : List Byte) :
    feedSteps C zs inp [] = some (zs, inp) := by
  rw [feedSteps]

/-- The step the codec makes on the bytes not yet taken, recorded as `callDeflate` records
it, is a step of the feeding. -/
theorem feedSteps_cons (C : Codec σ) (zs : σ) (inp : List Byte) (avail : Nat)
    (rest : List CodecCall) :
    feedSteps C zs inp
        (CodecCall.deflate Z_NO_FLUSH inp.length avail
          (min (C.deflate zs inp avail Z_NO_FLUSH).consumed inp.length)
          ((C.deflate zs inp avail Z_NO_FLUSH).produced.take avail)
          (C.deflate zs inp avail Z_NO_FLUSH).err :: rest)
      = feedSteps C (C.deflate zs inp avail Z_NO_FLUSH).zs
          (inp.drop (C.deflate zs inp avail Z_NO_FLUSH).consumed) rest := by
  rw [feedSteps, if_pos ⟨rfl, rfl, rfl, rfl, rfl⟩]

/-- The first step of a feeding is offered all the bytes there are. -/
theorem feedSteps_head (C : Codec σ) (zs : σ) (inp : List Byte) (x : CodecCall)
    (rest : List CodecCall) (r : σ × List Byte)
    (h : feedSteps C zs inp (x :: rest) = some r) : x.avail_in = inp.length := by
  cases x with
  | deflateInit2 z e =>
    rw [feedSteps] at h
    · cases h
    · intro _ _ _ _ _ _ hx
      cases hx
  | deflate flush ai ao cons o e =>
    rw [feedSteps] at h
    split_ifs at h with hc
    exact hc.2.1
  | deflateEnd e =>
    rw [feedSteps] at h
    · cases h
    · intro _ _ _ _ _ _ hx
      cases hx

/-- The loop of `overflow` on a downstream buffer that accepts every byte.  When the loop is
left with the status `err`, the calls it made are the feeding of its input window to the
codec: `deflate` steps with `Z_NO_FLUSH`, each on the bytes not yet taken, ending in the
codec state and the input window of the object.  Either no step was made and `err` is the
initial status, or `err` is the status of the last step, which left input untaken only if it
took fewer bytes than it was offered; and with `Z_OK` no input is left. -/
theorem overflowLoop_fed (C : Codec σ) (b k : Nat) (d e0 : List Byte) :
    ∀ (fuel : Nat) (s : DeflateOutputStreambuf σ) (err0 : Int)
      (t : DeflateOutputStreambuf σ) (err : Int), Good b k d e0 s →
      overflowLoop C b fuel s err0 = (t, Outcome.ok err) →
      ∃ new, t.calls = s.calls ++ new ∧ (∀ x ∈ new, x.isNoFlushStep = true)
        ∧ feedSteps C s.m_zs s.zs_in new = some (t.m_zs, t.zs_in)
        ∧ ((new = [] ∧ err = err0)
            ∨ ∃ x, new.getLast? = some x ∧ x.err = err
                ∧ (t.zs_in ≠ [] → x.consumed < x.avail_in))
        ∧ (err = Z_OK → t.zs_in = []) ∧ Good b k d e0 t := by
  have stop : ∀ (s t : DeflateOutputStreambuf σ) (err0 err : Int), Good b k d e0 s →
      ¬ ((s.zs_in.length > 0 ∨ s.avail_out b = 0) ∧ err0 = Z_OK) →
      (s, Outcome.ok err0) = (t, Outcome.ok err) →
      ∃ new, t.calls = s.calls ++ new ∧ (∀ x ∈ new, x.isNoFlushStep = true)
        ∧ feedSteps C s.m_zs s.zs_in new = some (t.m_zs, t.zs_in)
        ∧ ((new = [] ∧ err = err0)
            ∨ ∃ x, new.getLast? = some x ∧ x.err = err
                ∧ (t.zs_in ≠ [] → x.consumed < x.avail_in))
        ∧ (err = Z_OK → t.zs_in = []) ∧ Good b k d e0 t := by
    intro s t err0 err hg hc h
    injection h with h1 h2
    injection h2 with h2
    subst h1 h2
    refine ⟨[], by simp, (fun x hx => by cases hx), feedSteps_nil C _ _, Or.inl ⟨rfl, rfl⟩, ?_, hg⟩
    intro hk
    have : ¬ (s.zs_in.length > 0) := fun hl => hc ⟨Or.inl hl, hk⟩
    exact List.length_eq_zero.mp (by omega)
  intro fuel
  induction fuel with
  | zero =>
    intro s err0 t err hg h
    rw [overflowLoop_zero] at h
    split_ifs at h with hc
    · cases h
    · exact stop s t err0 err hg hc h
  | succ n ih =>
    intro s err0 t err hg h
    rw [overflowLoop_succ] at h
    split_ifs at h with hc
    · obtain ⟨s1, f1, g1, c1, z1, i1⟩ := flushIfFull_good b k d e0 s hg
      rw [f1, Res.andThen_ok] at h
      obtain ⟨new, hn, hs, hfed, hl, hz, hgt⟩ := ih _ _ t err
        (callDeflate_good C b k d e0 Z_NO_FLUSH s1 g1) h
      obtain ⟨x, hx, hxe⟩ := callDeflate_calls C b Z_NO_FLUSH s1
      have hxs : x.isNoFlushStep = true := by
        rw [hxe]
        simp [CodecCall.isNoFlushStep]
      have hxerr : x.err = (callDeflate C b Z_NO_FLUSH s1).2 := by
        rw [hxe]
        rfl
      have hstep : feedSteps C s.m_zs s.zs_in (x :: new)
          = feedSteps C (callDeflate C b Z_NO_FLUSH s1).1.m_zs
              (callDeflate C b Z_NO_FLUSH s1).1.zs_in new := by
        rw [hxe, ← z1, ← i1]
        exact feedSteps_cons C s1.m_zs s1.zs_in (s1.avail_out b) new
      refine ⟨x :: new, ?_, ?_, ?_, Or.inr ?_, hz, hgt⟩
      · rw [hn, hx, c1]
        simp
      · intro y hy
        rcases List.mem_cons.mp hy with rfl | hy
        · exact hxs
        · exact hs y hy
      · rw [hstep, hfed]
      · rcases hl with ⟨hnil, herr⟩ | ⟨y, hy, hye, hyz⟩
        · subst hnil
          refine ⟨x, rfl, by rw [hxerr, herr], ?_⟩
          intro hne
          have ht : t.zs_in = (callDeflate C b Z_NO_FLUSH s1).1.zs_in := by
            have h2 := hfed
            rw [feedSteps_nil] at h2
            injection h2 with h2
            injection h2 with h3 h4
            exact h4.symm
          rw [ht] at hne
          have hne2 : s1.zs_in.drop
              (C.deflate s1.m_zs s1.zs_in (s1.avail_out b) Z_NO_FLUSH).consumed ≠ [] := hne
          have hlt : (C.deflate s1.m_zs s1.zs_in (s1.avail_out b) Z_NO_FLUSH).consumed
              < s1.zs_in.length := by
            by_contra hge
            exact hne2 (List.drop_eq_nil_of_le (by omega))
          rw [hxe]
          show min (C.deflate s1.m_zs s1.zs_in (s1.avail_out b) Z_NO_FLUSH).consumed
              s1.zs_in.length < s1.zs_in.length
          omega
        · refine ⟨y, ?_, hye, hyz⟩
          cases new with
          | nil => cases hy
          | cons a as => exact hy
    · exact stop s t err0 err hg hc h

/-- C27: on a downstream buffer that accepts every byte, `overflow(c)` makes `deflate` steps
with `Z_NO_FLUSH` only, and these steps are the feeding of the put area to the codec: when
bytes were buffered there is a first step and it is offered all of them, every further step
is offered the bytes not yet taken, and the codec state and the input window afterwards
are what these steps leave.
`overflow(c)` throws an `IOException` exactly when it made a step and the last one returned
a status other than `Z_OK` and `Z_STREAM_END`.  Otherwise it returns 0 and the put area
holds `c` alone, or nothing when `c` is `EOF`; the codec has then taken every buffered byte,
the only exception being a codec that itself ended the stream, returning `Z_STREAM_END`
from a step in which it took fewer bytes than it was offered. -/
theorem overflow_raises_iff (C : Codec σ) (getBufferSize : Nat) (c : Option Byte)
    (s : DeflateOutputStreambuf σ) (hroom : s.m_outbuf.room = none) :
    ∃ new, (overflow C getBufferSize c s).1.calls = s.calls ++ new
      ∧ (∀ x ∈ new, x.isNoFlushStep = true)
      ∧ feedSteps C s.m_zs s.put new
          = some ((overflow C getBufferSize c s).1.m_zs, (overflow C getBufferSize c s).1.zs_in)
      ∧ (s.put ≠ [] → ∃ x rest, new = x :: rest ∧ x.avail_in = s.put.length)
      ∧ ((overflow C getBufferSize c s).2.isIOException = true
          ↔ ∃ x, new.getLast? = some x ∧ x.err ≠ Z_OK ∧ x.err ≠ Z_STREAM_END)
      ∧ ((overflow C getBufferSize c s).2.isIOException = false →
          (overflow C getBufferSize c s).2 = Outcome.ok 0
          ∧ (overflow C getBufferSize c s).1.put = c.toList
          ∧ ((overflow C getBufferSize c s).1.zs_in = []
              ∨ ∃ x, new.getLast? = some x ∧ x.err = Z_STREAM_END
                  ∧ x.consumed < x.avail_in)) := by
  have g1 : Good getBufferSize s.m_bytes_to_skip s.m_outbuf.data (emitted s.calls)
      ({ s with
          zs_in := s.put
          m_crc32 := crc32 s.m_crc32 s.put
          m_overflown_bytes := s.m_overflown_bytes + s.put.length
          outvec := [] } : DeflateOutputStreambuf σ) :=
    ⟨hroom, Nat.zero_le _, [], by simp, by simp, by simp⟩
  have nd := overflowLoop_total C getBufferSize
    (C.measure Z_NO_FLUSH s.m_zs s.put.length + 1)
    ({ s with
        zs_in := s.put
        m_crc32 := crc32 s.m_crc32 s.put
        m_overflown_bytes := s.m_overflown_bytes + s.put.length
        outvec := [] } : DeflateOutputStreambuf σ) Z_OK (fun _ => Nat.lt_succ_self _)
  have nr := (overflowLoop_good C getBufferSize s.m_bytes_to_skip s.m_outbuf.data
    (emitted s.calls) (C.measure Z_NO_FLUSH s.m_zs s.put.length + 1) _ Z_OK g1).2
  have hl := overflowLoop_fed C getBufferSize s.m_bytes_to_skip s.m_outbuf.data
    (emitted s.calls) (C.measure Z_NO_FLUSH s.m_zs s.put.length + 1)
    ({ s with
        zs_in := s.put
        m_crc32 := crc32 s.m_crc32 s.put
        m_overflown_bytes := s.m_overflown_bytes + s.put.length
        outvec := [] } : DeflateOutputStreambuf σ) Z_OK
  unfold overflow
  dsimp only
  generalize overflowLoop C getBufferSize (C.measure Z_NO_FLUSH s.m_zs s.put.length + 1)
    ({ s with
        zs_in := s.put
        m_crc32 := crc32 s.m_crc32 s.put
        m_overflown_bytes := s.m_overflown_bytes + s.put.length
        outvec := [] } : DeflateOutputStreambuf σ) Z_OK = r at nd nr hl
  rcases r with ⟨s2, err | e | _⟩
  · obtain ⟨new, hn, hs, hfed, hlast, hz, hg2⟩ := hl s2 err g1 rfl
    obtain ⟨s3, f3, -, c3, z3, i3⟩ := flushOutvec_good getBufferSize _ _ _ s2 hg2
    have hfed3 : feedSteps C s.m_zs s.put new = some (s3.m_zs, s3.zs_in) := by
      rw [z3, i3]
      exact hfed
    have hfirst : s.put ≠ [] → ∃ x rest, new = x :: rest ∧ x.avail_in = s.put.length := by
      intro hput
      cases hnew : new with
      | nil =>
        rw [hnew, feedSteps_nil] at hfed
        injection hfed with hfed
        injection hfed with h1 h2
        rcases hlast with ⟨-, h0⟩ | ⟨x, hx, -, -⟩
        · exact absurd (h2.trans (hz h0)) hput
        · rw [hnew] at hx
          cases hx
      | cons x rest =>
        rw [hnew] at hfed
        exact ⟨x, rest, rfl, feedSteps_head C _ _ x rest _ hfed⟩
    rw [Res.andThen_ok, f3, Res.andThen_ok]
    refine ⟨new, ?_, hs, ?_, hfirst, ?_, ?_⟩
    · split_ifs
      · show s3.calls = _
        rw [c3, hn]
      · cases c <;> (show s3.calls = _; rw [c3, hn])
    · split_ifs
      · exact hfed3
      · cases c <;> exact hfed3
    · by_cases he : err ≠ Z_OK ∧ err ≠ Z_STREAM_END
      · rw [if_pos he]
        refine ⟨fun _ => ?_, fun _ => rfl⟩
        rcases hlast with ⟨-, h0⟩ | ⟨x, hx, hxe, -⟩
        · exact absurd h0 he.1
        · exact ⟨x, hx, by rw [hxe]; exact he.1, by rw [hxe]; exact he.2⟩
      · rw [if_neg he]
        have hno : ¬ ∃ x, new.getLast? = some x ∧ x.err ≠ Z_OK ∧ x.err ≠ Z_STREAM_END := by
          rintro ⟨x, hx, h1, h2⟩
          rcases hlast with ⟨hnil, -⟩ | ⟨y, hy, hye, -⟩
          · rw [hnil] at hx
            cases hx
          · rw [hy] at hx
            injection hx with hx
            subst hx
            rw [hye] at h1 h2
            exact he ⟨h1, h2⟩
        constructor
        · intro h
          cases c <;> cases h
        · intro h
          exact absurd h hno
    · by_cases he : err ≠ Z_OK ∧ err ≠ Z_STREAM_END
      · rw [if_pos he]
        intro h
        cases h
      · rw [if_neg he]
        have hrest : s3.zs_in = []
            ∨ ∃ x, new.getLast? = some x ∧ x.err = Z_STREAM_END
                ∧ x.consumed < x.avail_in := by
          rw [i3]
          by_cases hk : err = Z_OK
          · exact Or.inl (hz hk)
          · have hend : err = Z_STREAM_END := by
              by_contra hne
              exact he ⟨hk, hne⟩
            rcases hlast with ⟨-, h0⟩ | ⟨x, hx, hxe, hxz⟩
            · exact absurd h0 hk
            · by_cases hnil : s2.zs_in = []
              · exact Or.inl hnil
              · exact Or.inr ⟨x, hx, by rw [hxe, hend], hxz hnil⟩
        intro _
        cases c <;> exact ⟨rfl, rfl, hrest⟩
  · exact absurd rfl (nr e)
  · exact absurd rfl nd

end OverflowErrors

section RejectedLevel

variable {σ : Type}

open DeflateOutputStreambuf

/-- The call `init(L)` for a numeric level `1..100` on a filter that is not initialized:
`deflateInit2` is called with the value of the expression of the code. -/
theorem init_numeric_calls (C : Codec σ) (b : Nat) (L : Int) (s : DeflateOutputStreambuf σ)
    (hs : s.m_zs_initialized = false) (h1 : 1 ≤ L) (h100 : L ≤ 100) :
    ∃ err, (init C b L s).1.calls
      = s.calls ++ [CodecCall.deflateInit2 (Int.tdiv ((L - 1) * 8 + Int.tdiv 11 2) 99 + 1) err] := by
  refine ⟨(C.deflateInit2 s.m_zs (Int.tdiv ((L - 1) * 8 + Int.tdiv 11 2) 99 + 1)).2, ?_⟩
  unfold init
  have e1 : L ≠ FileEntry.COMPRESSION_LEVEL_DEFAULT := by
    simp only [FileEntry.COMPRESSION_LEVEL_DEFAULT]; omega
  have e2 : L ≠ FileEntry.COMPRESSION_LEVEL_SMALLEST := by
    simp only [FileEntry.COMPRESSION_LEVEL_SMALLEST]; omega
  have e3 : L ≠ FileEntry.COMPRESSION_LEVEL_FASTEST := by
    simp only [FileEntry.COMPRESSION_LEVEL_FASTEST]; omega
  have e4 : L ≠ FileEntry.COMPRESSION_LEVEL_NONE := by
    simp only [FileEntry.COMPRESSION_LEVEL_NONE]; omega
  have e5 : ¬ (L < FileEntry.COMPRESSION_LEVEL_MINIMUM
      ∨ L > FileEntry.COMPRESSION_LEVEL_MAXIMUM) := by
    simp only [FileEntry.COMPRESSION_LEVEL_MINIMUM, FileEntry.COMPRESSION_LEVEL_MAXIMUM]; omega
  rw [hs]
  simp only [Bool.false_eq_true, if_false, e1, e2, e3, e4, e5]
  rw [initCodec_calls]

/-- The value of the level expression of `init` as a floor division. -/
theorem level_expression (L : Int) (h1 : 1 ≤ L) :
    Int.tdiv ((L - 1) * 8 + Int.tdiv 11 2) 99 + 1 = ((L - 1) * 8 + 5) / 99 + 1 := by
  have h5 : Int.tdiv 11 2 = 5 := rfl
  rw [h5, Int.tdiv_eq_ediv (by omega) (by omega)]

/-- C28: for the levels `1..100`, `init` hands `deflateInit2` the value
`f(L) = ((L-1)*8 + 11/2) / 99 + 1` (truncating divisions), and this map has `f(1) = 1` and
`f(100) = 9`, is monotone non-decreasing on `1..100`, stays within `1..9` and takes every
value from 1 to 9. -/
theorem numeric_level_map (C : Codec σ) (getBufferSize : Nat) (s : DeflateOutputStreambuf σ)
    (hs : s.m_zs_initialized = false) :
    (∀ L : Int, 1 ≤ L → L ≤ 100 →
      ∃ err, (init C getBufferSize L s).1.calls = s.calls
        ++ [CodecCall.deflateInit2 (Int.tdiv ((L - 1) * 8 + Int.tdiv 11 2) 99 + 1) err])
    ∧ Int.tdiv ((1 - 1) * 8 + Int.tdiv 11 2) 99 + 1 = 1
    ∧ Int.tdiv ((100 - 1) * 8 + Int.tdiv 11 2) 99 + 1 = 9
    ∧ (∀ L1 L2 : Int, 1 ≤ L1 → L1 ≤ L2 → L2 ≤ 100 →
        Int.tdiv ((L1 - 1) * 8 + Int.tdiv 11 2) 99 + 1
          ≤ Int.tdiv ((L2 - 1) * 8 + Int.tdiv 11 2) 99 + 1)
    ∧ (∀ L : Int, 1 ≤ L → L ≤ 100 →
        1 ≤ Int.tdiv ((L - 1) * 8 + Int.tdiv 11 2) 99 + 1
          ∧ Int.tdiv ((L - 1) * 8 + Int.tdiv 11 2) 99 + 1 ≤ 9)
    ∧ (∀ z : Int, 1 ≤ z → z ≤ 9 →
        ∃ L : Int, 1 ≤ L ∧ L ≤ 100 ∧ Int.tdiv ((L - 1) * 8 + Int.tdiv 11 2) 99 + 1 = z) := by
  refine ⟨fun L h1 h100 => init_numeric_calls C getBufferSize L s hs h1 h100, rfl, rfl,
    ?_, ?_, ?_⟩
  · intro L1 L2 h1 h12 h100
    rw [level_expression L1 h1, level_expression L2 (by omega)]
    omega
  · intro L h1 h100
    rw [level_expression L h1]
    omega
  · intro z h1 h9
    refine ⟨(99 * (z - 1) + 2) / 8 + 1, by omega, by omega, ?_⟩
    rw [level_expression _ (by omega)]
    omega

/-- C29: `init` with a level outside the accepted set, on a filter that is not initialized,
throws the level error with the initialized flag set and the codec untouched (no call is
added to its history and its state is the same).  A following `init` throws the
already-initialized error for every level, valid ones included.  A following
`closeStream()` does not return early: it clears the flag, runs `endDeflation()` and, when
that returns, calls `deflateEnd` on the codec that was never initialized; when nothing was
written this `deflateEnd` is the only codec call. -/
theorem rejected_level_marks_initialized (C : Codec σ) (getBufferSize : Nat) (level : Int)
    (s : DeflateOutputStreambuf σ) (hs : s.m_zs_initialized = false)
    (hl : ¬ acceptedLevel level) :
    (init C getBufferSize level s).2 = Outcome.raise Exn.invalid_level
    ∧ (init C getBufferSize level s).1
        = { s with m_zs_initialized := true, m_bytes_to_skip := 0 }
    ∧ (init C getBufferSize level s).1.calls = s.calls
    ∧ (init C getBufferSize level s).1.m_zs = s.m_zs
    ∧ (∀ level2 : Int, init C getBufferSize level2 (init C getBufferSize level s).1
        = ((init C getBufferSize level s).1, Outcome.raise Exn.already_initialized))
    ∧ (closeStream C getBufferSize (init C getBufferSize level s).1).1.m_zs_initialized = false
    ∧ (∀ t, endDeflation C getBufferSize
          { s with m_zs_initialized := false, m_bytes_to_skip := 0 } = (t, Outcome.ok ()) →
        (closeStream C getBufferSize (init C getBufferSize level s).1).1.calls
          = t.calls ++ [CodecCall.deflateEnd (C.deflateEnd t.m_zs).2])
    ∧ (0 < getBufferSize → s.put = [] → s.m_overflown_bytes = 0 →
        (closeStream C getBufferSize (init C getBufferSize level s).1).1.calls
          = s.calls ++ [CodecCall.deflateEnd (C.deflateEnd s.m_zs).2]) := by
  have hi : init C getBufferSize level s
      = ({ s with m_zs_initialized := true, m_bytes_to_skip := 0 },
          Outcome.raise Exn.invalid_level) := by
    unfold acceptedLevel at hl
    simp only [not_or, not_and, not_le] at hl
    obtain ⟨e1, e2, e3, e4, e5⟩ := hl
    have e6 : level < FileEntry.COMPRESSION_LEVEL_MINIMUM
        ∨ level > FileEntry.COMPRESSION_LEVEL_MAXIMUM := by
      simp only [FileEntry.COMPRESSION_LEVEL_MINIMUM, FileEntry.COMPRESSION_LEVEL_MAXIMUM]
      by_cases h : 1 ≤ level
      · exact Or.inr (e5 h)
      · exact Or.inl (by omega)
    unfold init
    rw [hs]
    simp only [Bool.false_eq_true, if_false, e1, e2, e3, e4, e6, if_true]
  have hc : ∀ t, endDeflation C getBufferSize
        { s with m_zs_initialized := false, m_bytes_to_skip := 0 } = (t, Outcome.ok ()) →
      (closeStream C getBufferSize
          ({ s with m_zs_initialized := true, m_bytes_to_skip := 0 }
            : DeflateOutputStreambuf σ)).1.calls
        = t.calls ++ [CodecCall.deflateEnd (C.deflateEnd t.m_zs).2] := by
    intro t ht
    unfold closeStream
    rw [if_pos rfl, ht, Res.andThen_ok]
    dsimp only
    split_ifs <;> rfl
  rw [hi]
  refine ⟨rfl, rfl, rfl, rfl, ?_, ?_, hc, ?_⟩
  · intro level2
    unfold init
    rw [if_pos rfl]
  · exact congrArg (fun m => m.2.2) (closeStream_meter C getBufferSize
      ({ s with m_zs_initialized := true, m_bytes_to_skip := 0 } : DeflateOutputStreambuf σ)
      rfl)
  · intro hb hp h0
    rw [hc _ (endDeflation_of_nothing_written C getBufferSize hb _ hp h0)]

end RejectedLevel

section StepSamples

open DeflateOutputStreambuf

/-- C27 on `copyCodec` with buffer size 4, after `init(DEFAULT)` and the writes of
`abcWrites`, for `overflow('d')`: the call returns 0 and the one byte that was buffered has
been taken by the codec. -/
theorem overflow_raises_iff_witness :
    (writes copyCodec 4 abcWrites (init copyCodec 4 (-1) newCopyFilter).1).1.m_outbuf.room = none
    ∧ (writes copyCodec 4 abcWrites (init copyCodec 4 (-1) newCopyFilter).1).1.put = [99]
    ∧ (overflow copyCodec 4 (some 100)
        (writes copyCodec 4 abcWrites (init copyCodec 4 (-1) newCopyFilter).1).1).2
        = Outcome.ok 0
    ∧ (overflow copyCodec 4 (some 100)
        (writes copyCodec 4 abcWrites (init copyCodec 4 (-1) newCopyFilter).1).1).1.zs_in = []
    ∧ ∃ new, (overflow copyCodec 4 (some 100)
          (writes copyCodec 4 abcWrites (init copyCodec 4 (-1) newCopyFilter).1).1).1.calls
        = (writes copyCodec 4 abcWrites (init copyCodec 4 (-1) newCopyFilter).1).1.calls ++ new
      ∧ (∀ x ∈ new, x.isNoFlushStep = true)
      ∧ feedSteps copyCodec
          (writes copyCodec 4 abcWrites (init copyCodec 4 (-1) newCopyFilter).1).1.m_zs
          (writes copyCodec 4 abcWrites (init copyCodec 4 (-1) newCopyFilter).1).1.put new
          = some ((overflow copyCodec 4 (some 100)
              (writes copyCodec 4 abcWrites (init copyCodec 4 (-1) newCopyFilter).1).1).1.m_zs,
            (overflow copyCodec 4 (some 100)
              (writes copyCodec 4 abcWrites (init copyCodec 4 (-1) newCopyFilter).1).1).1.zs_in)
      ∧ ((writes copyCodec 4 abcWrites (init copyCodec 4 (-1) newCopyFilter).1).1.put ≠ [] →
          ∃ x rest, new = x :: rest
            ∧ x.avail_in
              = (writes copyCodec 4 abcWrites
                  (init copyCodec 4 (-1) newCopyFilter).1).1.put.length)
      ∧ ((overflow copyCodec 4 (some 100)
          (writes copyCodec 4 abcWrites
            (init copyCodec 4 (-1) newCopyFilter).1).1).2.isIOException = true
          ↔ ∃ x, new.getLast? = some x ∧ x.err ≠ Z_OK ∧ x.err ≠ Z_STREAM_END)
      ∧ ((overflow copyCodec 4 (some 100)
          (writes copyCodec 4 abcWrites
            (init copyCodec 4 (-1) newCopyFilter).1).1).2.isIOException = false →
          (overflow copyCodec 4 (some 100)
            (writes copyCodec 4 abcWrites (init copyCodec 4 (-1) newCopyFilter).1).1).2
            = Outcome.ok 0
          ∧ (overflow copyCodec 4 (some 100)
            (writes copyCodec 4 abcWrites (init copyCodec 4 (-1) newCopyFilter).1).1).1.put
            = (some 100 : Option Byte).toList
          ∧ ((overflow copyCodec 4 (some 100)
              (writes copyCodec 4 abcWrites
                (init copyCodec 4 (-1) newCopyFilter).1).1).1.zs_in = []
              ∨ ∃ x, new.getLast? = some x ∧ x.err = Z_STREAM_END
                  ∧ x.consumed < x.avail_in)) :=
  ⟨by decide, by decide, by decide, by decide,
    overflow_raises_iff copyCodec 4 (some 100)
      (writes copyCodec 4 abcWrites (init copyCodec 4 (-1) newCopyFilter).1).1 (by decide)⟩

/-- C28 on a new filter over `copyCodec`: level 50 gives zlib level 5. -/
theorem numeric_level_map_witness :
    newCopyFilter.m_zs_initialized = false
    ∧ (init copyCodec 4 50 newCopyFilter).1.calls
        = newCopyFilter.calls ++ [CodecCall.deflateInit2 5 Z_OK]
    ∧ (∀ L1 L2 : Int, 1 ≤ L1 → L1 ≤ L2 → L2 ≤ 100 →
        Int.tdiv ((L1 - 1) * 8 + Int.tdiv 11 2) 99 + 1
          ≤ Int.tdiv ((L2 - 1) * 8 + Int.tdiv 11 2) 99 + 1) :=
  ⟨rfl, by decide, (numeric_level_map copyCodec 4 newCopyFilter rfl).2.2.2.1⟩

/-- C29 on a new filter over `copyCodec` with the level 101. -/
theorem rejected_level_marks_initialized_witness :
    newCopyFilter.m_zs_initialized = false ∧ ¬ acceptedLevel 101
    ∧ (init copyCodec 4 101 newCopyFilter).2 = Outcome.raise Exn.invalid_level
    ∧ (init copyCodec 4 101 newCopyFilter).1.m_zs_initialized = true
    ∧ (init copyCodec 4 101 newCopyFilter).1.calls = newCopyFilter.calls
    ∧ (init copyCodec 4 100 (init copyCodec 4 101 newCopyFilter).1).2
        = Outcome.raise Exn.already_initialized
    ∧ (closeStream copyCodec 4 (init copyCodec 4 101 newCopyFilter).1).1.calls
        = [CodecCall.deflateEnd Z_STREAM_ERROR]
    ∧ (closeStream copyCodec 4 (init copyCodec 4 101 newCopyFilter).1).2
        = Outcome.raise (Exn.deflateEnd_failed Z_STREAM_ERROR) :=
  ⟨rfl, by decide,
    (rejected_level_marks_initialized copyCodec 4 101 newCopyFilter rfl (by decide)).1,
    by decide, by decide, by decide, by decide, by decide⟩

/-- C30 on `copyCodec` with buffer size 4, after `init(DEFAULT)` and the writes of
`abcWrites`. -/
theorem deflate_has_room_witness :
    0 < 4
    ∧ (∃ new, (overflow copyCodec 4 (some 100)
          (writes copyCodec 4 abcWrites (init copyCodec 4 (-1) newCopyFilter).1).1).1.calls
        = (writes copyCodec 4 abcWrites (init copyCodec 4 (-1) newCopyFilter).1).1.calls ++ new
      ∧ ∀ x ∈ new, x.hasRoom)
    ∧ (∃ new, (endDeflation copyCodec 4
          (writes copyCodec 4 abcWrites (init copyCodec 4 (-1) newCopyFilter).1).1).1.calls
        = (writes copyCodec 4 abcWrites (init copyCodec 4 (-1) newCopyFilter).1).1.calls ++ new
      ∧ ∀ x ∈ new, x.hasRoom)
    ∧ (endDeflation copyCodec 4
        (writes copyCodec 4 abcWrites (init copyCodec 4 (-1) newCopyFilter).1).1).1.outvec = [] :=
  ⟨by decide,
    (deflate_has_room copyCodec 4 (by decide) (some 100)
      (writes copyCodec 4 abcWrites (init copyCodec 4 (-1) newCopyFilter).1).1).1,
    (deflate_has_room copyCodec 4 (by decide) (some 100)
      (writes copyCodec 4 abcWrites (init copyCodec 4 (-1) newCopyFilter).1).1).2.1,
    by decide⟩

end StepSamples

end Zipios
